import Mathlib

/-!
# DEC 21140A Ethernet driver (`drivers/dec21140A/dec21140A.c`)

A shallow embedding of the driver's descriptor rings, of its receive and
transmit engines, of the interrupt dispatcher and of the serial ROM reader,
followed by theorems about them.

Conventions of the embedding.

* `u32_t` registers and descriptor words are `Nat`; the C bit operators are
  `&&&`, `|||`, `^^^`, `<<<`, `>>>`; `int` arithmetic that can leave the range
  of `int` goes through `toInt32`.
* `de_flags` is a record of booleans, one per `DEF_*` bit.
* `panic` and a failed `assert` end the driver: the functions that can reach
  one return a `Res`, which keeps the device context as it is at that point.
* Everything the driver obtains from outside (the controller's registers, the
  kernel's copy calls, the reply `send`) is an explicit argument.
-/

namespace Dec21140A

set_option linter.unusedVariables false

/-! ## Constants -/

/-- Modelled from the spec: `dec21140A.h` is not among the sources; the
descriptor bits are those of the controller ("descriptor word 0 = ownership +
status flags + frame length"). Ownership bit of descriptor word 0. -/
def DES0_OWN : Nat := 0x80000000
/-- Modelled from the spec: error-summary flag of descriptor word 0. -/
def DES0_ES : Nat := 0x00008000
/-- Modelled from the spec: first-segment flag of descriptor word 0. -/
def DES0_FS : Nat := 0x00000200
/-- Modelled from the spec: last-segment flag of descriptor word 0. -/
def DES0_LS : Nat := 0x00000100
/-- Modelled from the spec: receive-error flag of descriptor word 0. -/
def DES0_RE : Nat := 0x00000008
/-- Modelled from the spec: the 14-bit frame-length field of descriptor word 0. -/
def DES0_FL : Nat := 0x3FFF0000
/-- Modelled from the spec: position of the frame-length field. -/
def DES0_FL_SHIFT : Nat := 16

/-- Modelled from the spec: interrupt-on-completion flag of descriptor word 1. -/
def DES1_IC : Nat := 0x80000000
/-- Modelled from the spec: last-segment flag of descriptor word 1. -/
def DES1_LS : Nat := 0x40000000
/-- Modelled from the spec: first-segment flag of descriptor word 1. -/
def DES1_FS : Nat := 0x20000000
/-- Modelled from the spec: setup-frame flag of descriptor word 1. -/
def DES1_SET : Nat := 0x08000000
/-- Modelled from the spec: end-of-ring marker of descriptor word 1. -/
def DES1_ER : Nat := 0x02000000

/-- Modelled from the spec: size of the address-filter (setup) frame. -/
def DE_SETUP_FRAME_SIZE : Nat := 192

/-- Modelled from the spec: transmit-complete bit of the status register. -/
def CSR5_TI : Nat := 0x00000001
/-- Modelled from the spec: receive-complete bit of the status register. -/
def CSR5_RI : Nat := 0x00000040
/-- Modelled from the spec: abnormal-interrupt-summary bit of the status register. -/
def CSR5_AIS : Nat := 0x00008000

/-- Modelled from the spec: start-transmit bit of the operating-mode register. -/
def CSR6_ST : Nat := 0x00002000

/-- Modelled from the spec: serial ROM chip select (CSR9). -/
def CSR9_CS : Nat := 0x0001
/-- Modelled from the spec: serial ROM clock (CSR9). -/
def CSR9_SRC : Nat := 0x0002
/-- Modelled from the spec: serial ROM data in (CSR9). -/
def CSR9_DI : Nat := 0x0004
/-- Modelled from the spec: serial ROM data out (CSR9). -/
def CSR9_DO : Nat := 0x0008
/-- Modelled from the spec: serial ROM select (CSR9). -/
def CSR9_SR : Nat := 0x0800
/-- Modelled from the spec: serial ROM read operation (CSR9). -/
def CSR9_RD : Nat := 0x4000

/-- Modelled from the spec: address width of the serial ROM. -/
def SROM_BITWIDTH : Nat := 6
/-- Modelled from the spec: byte offset of the station address in the serial ROM. -/
def DE_SROM_EA_OFFSET : Nat := 20

/-- Smallest frame (`net/gen/ether.h`, not among the sources). -/
def ETH_MIN_PACK_SIZE : Int := 60
/-- Largest frame (`net/gen/ether.h`, not among the sources). -/
def ETH_MAX_PACK_SIZE : Int := 1514

/-- Index of the receive ring in `descr` and `cur_descr`. -/
def DESCR_RECV : Nat := 0
/-- Index of the transmit ring in `descr` and `cur_descr`. -/
def DESCR_TRAN : Nat := 1

/-- Build-time sizes that `dec21140A.h` fixes; the header is not among the
sources, so they are arguments of the embedding. -/
structure Config where
  DE_PORT_NR : Nat
  DE_NB_RECV_DESCR : Nat
  DE_NB_SEND_DESCR : Nat
  DE_RECV_BUF_SIZE : Nat
  DE_SEND_BUF_SIZE : Nat
  IOVEC_NR : Nat
deriving DecidableEq, Repr

/-- Value of a C expression of type `int` (32 bits, two's complement). -/
def toInt32 (x : Int) : Int := (x + 2147483648) % 4294967296 - 2147483648

/-- Value of a C expression of type `u32_t`. -/
def toU32 (x : Int) : Nat := (x % 4294967296).toNat

/-- Modelled from the spec: the headers that declare the byte counters of
`dpeth_t` and the fields of `eth_stat_t` are not among the sources; the
counters are taken as unsigned 32-bit fields, so the value stored by an
addition to a counter is the sum reduced modulo 2^32. -/
def wrap32 (n : Nat) : Nat := n % 4294967296

/-! ## Data model -/

/-- Registers of the controller the modelled code reads or writes. -/
inductive Csr where
  | CSR0 | CSR1 | CSR3 | CSR4 | CSR5 | CSR6 | CSR7 | CSR9
deriving DecidableEq, Repr

/-- One port access: `io_outl` or `io_inl`. -/
inductive IoEv where
  | out (r : Csr) (v : Nat)
  | inp (r : Csr) (v : Nat)
deriving DecidableEq, Repr

/-- `de_descr_t`: the four words of a hardware descriptor. -/
structure de_descr_t where
  des0 : Nat
  des1 : Nat
  des_buf1 : Nat
  des_buf2 : Nat
deriving DecidableEq, Repr

/-- `de_loc_descr_t`: a descriptor with its buffer; the pointers `descr` and
`buf1` of the C record are replaced by what they point to. -/
structure de_loc_descr_t where
  descr : de_descr_t
  buf1 : List Nat
deriving DecidableEq, Repr

/-- `de_mode`. -/
inductive Mode where
  | DEM_DISABLED | DEM_SINK | DEM_ENABLED
deriving DecidableEq, Repr

/-- `de_flags`, one boolean per `DEF_*` bit the modelled code uses. -/
structure Flags where
  DEF_READING : Bool
  DEF_SENDING : Bool
  DEF_ACK_SEND : Bool
  DEF_ACK_RECV : Bool
  DEF_ENABLED : Bool
deriving DecidableEq, Repr

/-- `DEF_EMPTY`. -/
def DEF_EMPTY : Flags := ⟨false, false, false, false, false⟩

/-- One entry of a caller's I/O vector (`iovec_s_t`). -/
structure iovec_s_t where
  iov_grant : Nat
  iov_size : Nat
deriving DecidableEq, Repr

/-- `iovec_dat_s_t`: the driver's copy of (a chunk of) a caller's vector. -/
structure iovec_dat_s_t where
  iod_iovec : List iovec_s_t
  iod_iovec_s : Int
  iod_proc_nr : Int
  iod_grant : Nat
  iod_iovec_offset : Nat
deriving DecidableEq, Repr

/-- The fields of a request `message` the driver reads. -/
structure message where
  DL_PORT : Int
  DL_PROC : Int
  DL_COUNT : Int
  DL_GRANT : Nat
deriving DecidableEq, Repr

/-- The reply `do_reply` sends: `DL_PACK_SEND` and `DL_PACK_RECV` of `DL_STAT`,
and `DL_COUNT`. -/
structure Reply where
  pack_send : Bool
  pack_recv : Bool
  count : Nat
deriving DecidableEq, Repr

/-- `eth_stat_t`, the counters the modelled code updates. They are unsigned
32-bit fields: every addition to one of them goes through `wrap32`. -/
structure eth_stat_t where
  ets_packetR : Nat
  ets_packetT : Nat
  ets_transDef : Nat
deriving DecidableEq, Repr

/-- `dpeth_t`, the device context, together with the function-static
`setupDone` of `do_vwrite_s` and with the traces of what the driver did to
the outside: port accesses, replies sent, bytes copied to the caller. The
byte counters `bytes_rx` and `bytes_tx` are unsigned 32-bit fields: every
addition to one of them goes through `wrap32`. -/
structure dpeth_t where
  de_mode : Mode
  de_flags : Flags
  de_client : Int
  descr_recv : List de_loc_descr_t
  descr_tran : List de_loc_descr_t
  cur_recv : Nat
  cur_tran : Nat
  sendrecv_descr_phys_addr_recv : Nat
  sendrecv_descr_phys_addr_tran : Nat
  bytes_rx : Nat
  bytes_tx : Nat
  de_stat : eth_stat_t
  de_read_s : Nat
  rx_return_msg : message
  tx_return_msg : message
  de_read_iovec : iovec_dat_s_t
  de_write_iovec : iovec_dat_s_t
  de_address : List Nat
  srom : List Nat
  setupDone : Bool
  iolog : List IoEv
  replies : List Reply
  copied_out : List (Nat × List Nat)
deriving DecidableEq, Repr

/-- Why the driver stopped. -/
inductive Fault where
  | port        -- str_PortErrMsg
  | busy        -- str_BusyErrMsg
  | size        -- str_SizeErrMsg
  | copy        -- str_CopyErrMsg
  | send        -- str_SendErrMsg
  | umap        -- str_UmapErrMsg, "umap failed"
  | align       -- str_AlignErrMsg
  | abnormal    -- "Abnormal Int CSR5="
  | unexpected  -- "should not happen"
  | assertion   -- a failed assert
  | bounds      -- an access outside an array or buffer
  | fuel        -- the embedding's loop bound was reached
deriving DecidableEq, Repr

deriving instance DecidableEq for Except

/-- Result of a driver function: it returned, or the driver stopped; either
way with the device context as it then is. -/
inductive Res where
  | ok (d : dpeth_t)
  | fatal (f : Fault) (d : dpeth_t)
deriving DecidableEq, Repr

/-- The device context a result carries. -/
def Res.dep : Res → dpeth_t
  | .ok d => d
  | .fatal _ d => d

/-- Continue with `k` after a call that returned. -/
def Res.andThen (r : Res) (k : dpeth_t → Res) : Res :=
  match r with
  | .ok d => k d
  | .fatal f d => .fatal f d

/-! ## Ring initialisation (`de_first_init`) -/

/-- What `de_first_init` obtains from outside: the results of its `sys_umap`
calls (`none` when the call fails) and the bytes the static buffer area holds. -/
structure InitEnv where
  /-- Physical address of the buffer of slot `j` of ring `i`. -/
  umap_buf : Nat → Nat → Option Nat
  /-- Physical address of the first descriptor of ring `i`. -/
  umap_head : Nat → Option Nat
  /-- Address the alignment loop obtains for slot `j` of ring `i`. -/
  umap_loc : Nat → Nat → Option Nat
  /-- Byte `k` of the buffer of slot `j` of ring `i`. -/
  mem_buf : Nat → Nat → Nat → Nat

/-- Second loop of `de_first_init` for ring `i` of `n` slots with buffers of
`temp` bytes: slots `j`, `j+1`, ... (`k` of them). -/
def init_descrs (E : InitEnv) (i n temp : Nat) : Nat → Nat → Except Fault (List de_loc_descr_t)
  | 0, _ => .ok []
  | k + 1, j =>
    match E.umap_buf i j with
    | none => .error .umap
    | some phys =>
      let des1 := if j = n - 1 then temp ||| DES1_ER else temp
      let des0 := if i = DESCR_RECV then 0 ||| DES0_OWN else 0
      match init_descrs E i n temp k (j + 1) with
      | .error f => .error f
      | .ok rest =>
        .ok (⟨⟨des0, des1, phys, 0⟩, (List.range temp).map (E.mem_buf i j)⟩ :: rest)

/-- Alignment loop of `de_first_init` for ring `i`, from slot `j` on. -/
def check_align (E : InitEnv) (i : Nat) : List de_loc_descr_t → Nat → Except Fault Unit
  | [], _ => .ok ()
  | l :: ls, j =>
    match E.umap_loc i j with
    | none => .error .umap
    | some temp =>
      if l.descr.des_buf1 &&& 0x3 ≠ 0 ∨ l.descr.des_buf2 &&& 0x3 ≠ 0 ∨ temp &&& 0x3 ≠ 0 then
        .error .align
      else check_align E i ls (j + 1)

/-- `de_first_init`: builds both rings, records their physical base
addresses, checks alignment and sets the cursors and byte counters. The
interrupt policy calls at its end do not touch the device context. -/
def de_first_init (cfg : Config) (E : InitEnv) (dep : dpeth_t) : Except Fault dpeth_t :=
  match init_descrs E DESCR_RECV cfg.DE_NB_RECV_DESCR cfg.DE_RECV_BUF_SIZE
      cfg.DE_NB_RECV_DESCR 0 with
  | .error f => .error f
  | .ok rx =>
    match init_descrs E DESCR_TRAN cfg.DE_NB_SEND_DESCR cfg.DE_SEND_BUF_SIZE
        cfg.DE_NB_SEND_DESCR 0 with
    | .error f => .error f
    | .ok tx =>
      match E.umap_head DESCR_RECV with
      | none => .error .umap
      | some prx =>
        match E.umap_head DESCR_TRAN with
        | none => .error .umap
        | some ptx =>
          match check_align E DESCR_RECV rx 0 with
          | .error f => .error f
          | .ok _ =>
            match check_align E DESCR_TRAN tx 0 with
            | .error f => .error f
            | .ok _ =>
              .ok { dep with
                    descr_recv := rx
                    descr_tran := tx
                    sendrecv_descr_phys_addr_recv := prx
                    sendrecv_descr_phys_addr_tran := ptx
                    cur_tran := 1
                    cur_recv := 0
                    bytes_rx := 0
                    bytes_tx := 0 }

/-! ## Replies -/

/-- Result of the `send` in `do_reply`. -/
inductive SendStatus where
  | OK | ELOCKED | failed
deriving DecidableEq, Repr

/-- `do_reply(dep, OK, may_block)`. -/
def do_reply (snd : SendStatus) (dep : dpeth_t) (may_block : Bool) : Res :=
  let reply : Reply := ⟨dep.de_flags.DEF_ACK_SEND, dep.de_flags.DEF_ACK_RECV, dep.de_read_s⟩
  match snd with
  | .ELOCKED => if may_block then .ok dep else .fatal .send dep
  | .failed => .fatal .send dep
  | .OK =>
    .ok { dep with
          replies := dep.replies ++ [reply]
          de_read_s := 0
          de_flags := { dep.de_flags with DEF_ACK_SEND := false, DEF_ACK_RECV := false } }

/-! ## The caller's I/O vector -/

/-- The caller's address space as the kernel's safe-copy calls see it: the
I/O vector behind a vector grant and the bytes behind a data grant. -/
structure UserSpace where
  iov : Nat → List iovec_s_t
  data : Nat → List Nat

/-- `sizeof(iovec_t)`: two 32-bit words. -/
def sizeof_iovec_t : Nat := 8

/-- `de_get_userdata_s`: copies `min(count, IOVEC_NR)` vector entries from
the start of the grant over the head of `loc_addr`; `none` is the panic after
a failed `sys_safecopyfrom`, which fails when the requested length is not
covered by the grant. The argument `offset` is not used by the C function. -/
def de_get_userdata_s (cfg : Config) (U : UserSpace) (grant : Nat) (offset : Nat)
    (count : Int) (loc_addr : List iovec_s_t) : Option (List iovec_s_t) :=
  let len : Nat :=
    toU32 ((if count > cfg.IOVEC_NR then (cfg.IOVEC_NR : Int) else count) * sizeof_iovec_t)
  if len ≤ sizeof_iovec_t * (U.iov grant).length then
    some ((U.iov grant).take (len / sizeof_iovec_t) ++ loc_addr.drop (len / sizeof_iovec_t))
  else none

/-- `de_next_iov`; `none` is the panic of `de_get_userdata_s`. -/
def de_next_iov (cfg : Config) (U : UserSpace) (iovp : iovec_dat_s_t) : Option iovec_dat_s_t :=
  let s := toInt32 (iovp.iod_iovec_s - cfg.IOVEC_NR)
  let off := (iovp.iod_iovec_offset + cfg.IOVEC_NR * sizeof_iovec_t) % 4294967296
  match de_get_userdata_s cfg U iovp.iod_grant off s iovp.iod_iovec with
  | none => none
  | some v => some { iovp with iod_iovec_s := s, iod_iovec_offset := off, iod_iovec := v }

/-- The `do ... while` of `de_calc_iov_size`, entered with `size` and `ix`. -/
def de_calc_iov_size_loop (cfg : Config) (U : UserSpace) :
    Nat → iovec_dat_s_t → Int → Nat → Except Fault (Int × iovec_dat_s_t)
  | 0, _, _, _ => .error .fuel
  | fuel + 1, iovp, size, ix =>
    match iovp.iod_iovec[ix]? with
    | none => .error .bounds
    | some e =>
      let size := toInt32 (size + e.iov_size)
      if ix + 1 ≥ cfg.IOVEC_NR then
        match de_next_iov cfg U iovp with
        | none => .error .copy
        | some iovp =>
          if (0 : Int) < iovp.iod_iovec_s then de_calc_iov_size_loop cfg U fuel iovp size 0
          else .ok (size, iovp)
      else
        if ((ix + 1 : Nat) : Int) < iovp.iod_iovec_s then
          de_calc_iov_size_loop cfg U fuel iovp size (ix + 1)
        else .ok (size, iovp)

/-- `de_calc_iov_size`: the size it returns and the vector record as it leaves
it. Each turn of the loop lowers `iod_iovec_s - ix` by one, so
`iod_iovec_s + 1` turns are enough. -/
def de_calc_iov_size (cfg : Config) (U : UserSpace) (iovp : iovec_dat_s_t) :
    Except Fault (Int × iovec_dat_s_t) :=
  de_calc_iov_size_loop cfg U (iovp.iod_iovec_s.toNat + 1) iovp 0 0

/-! ## Cursor advance -/

/-- The cursor advance of `do_vread_s` and `do_vwrite_s`:
`cur_descr[..]++; if(cur_descr[..] >= N) cur_descr[..] = 0;`. -/
def advance (N cur : Nat) : Nat :=
  if cur + 1 ≥ N then 0 else cur + 1

/-! ## The setup frame (`de_setup_frame`) -/

/-- Byte stores into a buffer, in order; `none` when one falls outside it. -/
def pokes (buf : List Nat) : List (Nat × Nat) → Option (List Nat)
  | [] => some buf
  | (k, v) :: r => if k < buf.length then pokes (buf.set k v) r else none

/-- The byte stores of `de_setup_frame`, in program order, for the station
address `ea`. -/
def setup_frame_stores (ea : List Nat) : List (Nat × Nat) :=
  [(0, 0xFF), (1, 0xFF), (4, 0xFF), (5, 0xFF), (8, 0xFF), (9, 0xFF)] ++
  (List.range 15).flatMap (fun t =>
    let i := t + 1
    (List.range 12).map (fun k => (12 * i + k, 0)) ++
    [(12 * i + 0, ea.getD 0 0), (12 * i + 1, ea.getD 1 0), (12 * i + 4, ea.getD 2 0),
     (12 * i + 5, ea.getD 3 0), (12 * i + 8, ea.getD 4 0), (12 * i + 9, ea.getD 5 0)])

/-- `de_setup_frame`; `csr6` is the value `io_inl` reads from CSR6. -/
def de_setup_frame (csr6 : Nat) (dep : dpeth_t) : Res :=
  match dep.descr_tran[0]? with
  | none => .fatal .bounds dep
  | some d0 =>
    match pokes d0.buf1 (setup_frame_stores dep.de_address) with
    | none => .fatal .bounds dep
    | some buf =>
      let d0 : de_loc_descr_t :=
        { descr := { d0.descr with
                     des0 := DES0_OWN
                     des1 := DES1_SET ||| DE_SETUP_FRAME_SIZE ||| DES1_IC }
          buf1 := buf }
      .ok { dep with
            descr_tran := dep.descr_tran.set 0 d0
            iolog := dep.iolog ++ [.inp .CSR6 csr6, .out .CSR6 (csr6 ||| CSR6_ST),
                                   .out .CSR1 0xFFFFFFFF] }

/-! ## Transmit engine (`do_vwrite_s`) -/

/-- State of a copy loop when it is left: the panic that ended it, if any,
the vector record and the descriptor buffer. -/
structure CopyOut where
  fault : Option Fault
  iovp : iovec_dat_s_t
  buf : List Nat
deriving DecidableEq, Repr

/-- The copy loop of `do_vwrite_s`, entered with `ix`, the bytes still to copy
`size` and the offset `off` of `buffer` in the descriptor's buffer. A store
past the end of the buffer is reported as `Fault.bounds`. -/
def vwrite_copy (cfg : Config) (U : UserSpace) :
    Nat → iovec_dat_s_t → Nat → Int → Nat → List Nat → CopyOut
  | 0, iovp, _, _, _, buf => ⟨some .fuel, iovp, buf⟩
  | fuel + 1, iovp, ix, size, off, buf =>
    match iovp.iod_iovec[ix]? with
    | none => ⟨some .bounds, iovp, buf⟩
    | some e =>
      let bytes0 : Int := toInt32 e.iov_size
      let bytes : Int := if bytes0 ≥ size then size else bytes0
      let len : Nat := toU32 bytes
      if len ≤ (U.data e.iov_grant).length then
        if off + len ≤ buf.length then
          let buf := buf.take off ++ (U.data e.iov_grant).take len ++ buf.drop (off + len)
          let off := off + len
          let size := toInt32 (size - bytes)
          if ix + 1 ≥ cfg.IOVEC_NR then
            match de_next_iov cfg U iovp with
            | none => ⟨some .copy, iovp, buf⟩
            | some iovp =>
              if size > 0 then vwrite_copy cfg U fuel iovp 0 size off buf
              else ⟨none, iovp, buf⟩
          else
            if size > 0 then vwrite_copy cfg U fuel iovp (ix + 1) size off buf
            else ⟨none, iovp, buf⟩
        else ⟨some .bounds, iovp, buf⟩
      else ⟨some .copy, iovp, buf⟩

/-- Turns a copy loop can take before a refill of the vector must fail. -/
def copy_fuel (cfg : Config) (mp : message) : Nat :=
  mp.DL_COUNT.toNat + 2 * cfg.IOVEC_NR + 1

/-- The `suspend` label of `do_vwrite_s`. -/
def vwrite_suspend (snd : SendStatus) (dep : dpeth_t) (mp : message) (from_int : Bool) : Res :=
  if from_int then .fatal .unexpected dep
  else
    let dep := { dep with de_stat := { dep.de_stat with
                                       ets_transDef := wrap32 (dep.de_stat.ets_transDef + 1) } }
    let dep := { dep with de_flags := { dep.de_flags with DEF_SENDING := true } }
    let dep := { dep with de_stat := { dep.de_stat with
                                       ets_transDef := wrap32 (dep.de_stat.ets_transDef + 1) } }
    let dep := { dep with tx_return_msg := mp }
    do_reply snd dep false

/-- The end of `do_vwrite_s`, from `dep->de_flags |= DEF_ACK_SEND` on. -/
def vwrite_finish (snd : SendStatus) (dep : dpeth_t) (from_int : Bool) : Res :=
  let dep := { dep with de_flags := { dep.de_flags with DEF_ACK_SEND := true } }
  if from_int then
    .ok { dep with de_flags := { dep.de_flags with DEF_SENDING := false } }
  else do_reply snd dep false

/-- `do_vwrite_s(mp, from_int)` on the table entry `dep` of port `mp->DL_PORT`;
`U` is the caller's address space and `snd` the result of the reply `send`. -/
def do_vwrite_s (cfg : Config) (U : UserSpace) (snd : SendStatus) (dep : dpeth_t)
    (mp : message) (from_int : Bool) : Res :=
  if mp.DL_PORT < 0 ∨ mp.DL_PORT ≥ cfg.DE_PORT_NR then .fatal .port dep
  else
    let dep := { dep with de_client := mp.DL_PROC }
    if dep.de_mode = .DEM_ENABLED then
      if !from_int && dep.de_flags.DEF_SENDING then .fatal .busy dep
      else
        match dep.descr_tran[dep.cur_tran]? with
        | none => .fatal .bounds dep
        | some descr =>
          if descr.descr.des0 &&& DES0_OWN ≠ 0 then vwrite_suspend snd dep mp from_int
          else
            let descr : de_loc_descr_t :=
              if !dep.setupDone && dep.cur_tran = 0 then
                { descr with descr := { descr.descr with des0 := 0 } }
              else descr
            let dep :=
              if !dep.setupDone && dep.cur_tran = 0 then
                { dep with descr_tran := dep.descr_tran.set dep.cur_tran descr, setupDone := true }
              else dep
            let iovp := { dep.de_write_iovec with iod_proc_nr := mp.DL_PROC }
            match de_get_userdata_s cfg U mp.DL_GRANT 0 mp.DL_COUNT iovp.iod_iovec with
            | none => .fatal .copy { dep with de_write_iovec := iovp }
            | some v =>
              let iovp := { iovp with
                            iod_iovec := v
                            iod_iovec_s := mp.DL_COUNT
                            iod_grant := mp.DL_GRANT
                            iod_iovec_offset := 0 }
              match de_calc_iov_size cfg U iovp with
              | .error f => .fatal f { dep with de_write_iovec := iovp }
              | .ok (size, iovp) =>
                let dep := { dep with de_write_iovec := iovp }
                if size < ETH_MIN_PACK_SIZE ∨ size > ETH_MAX_PACK_SIZE then .fatal .size dep
                else
                  let dep := { dep with bytes_tx := wrap32 (dep.bytes_tx + size.toNat) }
                  let dep := { dep with de_stat := { dep.de_stat with
                                                     ets_packetT :=
                                                       wrap32 (dep.de_stat.ets_packetT + 1) } }
                  let out := vwrite_copy cfg U (copy_fuel cfg mp) iovp 0 size 0 descr.buf1
                  let descr := { descr with buf1 := out.buf }
                  let dep := { dep with
                               de_write_iovec := out.iovp
                               descr_tran := dep.descr_tran.set dep.cur_tran descr }
                  match out.fault with
                  | some f => .fatal f dep
                  | none =>
                    let descr : de_loc_descr_t :=
                      { descr with descr := { descr.descr with
                          des1 := (descr.descr.des1 &&& DES1_ER) ||| DES1_FS ||| DES1_LS |||
                                  DES1_IC ||| size.toNat
                          des0 := DES0_OWN } }
                    let dep := { dep with descr_tran := dep.descr_tran.set dep.cur_tran descr }
                    let dep := { dep with cur_tran := advance cfg.DE_NB_SEND_DESCR dep.cur_tran }
                    let dep := { dep with iolog := dep.iolog ++ [.out .CSR1 0xFFFFFFFF] }
                    vwrite_finish snd dep from_int
    else vwrite_finish snd dep from_int

/-! ## Receive engine (`do_vread_s`) -/

/-- State of the receive copy loop when it is left: the panic that ended it,
if any, the vector record and the `sys_safecopyto` calls made (grant, bytes). -/
structure ReadOut where
  fault : Option Fault
  iovp : iovec_dat_s_t
  copied : List (Nat × List Nat)
deriving DecidableEq, Repr

/-- The copy loop of `do_vread_s`, entered with `ix`, the bytes still to
deliver `size` (a `u32_t`) and the offset `off` of `buffer` in the
descriptor's buffer `buf`. A load past the end of the buffer is reported as
`Fault.bounds`; `sys_safecopyto` fails when the grant is shorter than the
bytes to copy. -/
def vread_copy (cfg : Config) (U : UserSpace) :
    Nat → iovec_dat_s_t → Nat → Nat → Nat → List Nat → List (Nat × List Nat) → ReadOut
  | 0, iovp, _, _, _, _, log => ⟨some .fuel, iovp, log⟩
  | fuel + 1, iovp, ix, size, off, buf, log =>
    match iovp.iod_iovec[ix]? with
    | none => ⟨some .bounds, iovp, log⟩
    | some e =>
      let bytes : Nat := if e.iov_size % 4294967296 ≥ size then size else e.iov_size % 4294967296
      if bytes ≤ (U.data e.iov_grant).length then
        if off + bytes ≤ buf.length then
          let log := log ++ [(e.iov_grant, (buf.drop off).take bytes)]
          let off := off + bytes
          let size := size - bytes
          if ix + 1 ≥ cfg.IOVEC_NR then
            match de_next_iov cfg U iovp with
            | none => ⟨some .copy, iovp, log⟩
            | some iovp =>
              if size > 0 then vread_copy cfg U fuel iovp 0 size off buf log
              else ⟨none, iovp, log⟩
          else
            if size > 0 then vread_copy cfg U fuel iovp (ix + 1) size off buf log
            else ⟨none, iovp, log⟩
        else ⟨some .bounds, iovp, log⟩
      else ⟨some .copy, iovp, log⟩

/-- The `suspend` label of `do_vread_s`. -/
def vread_suspend (snd : SendStatus) (dep : dpeth_t) (mp : message) (from_int : Bool) : Res :=
  if from_int then
    if dep.de_flags.DEF_READING then .ok dep else .fatal .assertion dep
  else
    if dep.de_flags.DEF_READING then .fatal .assertion dep
    else
      let dep := { dep with rx_return_msg := mp }
      let dep := { dep with de_flags := { dep.de_flags with DEF_READING := true } }
      do_reply snd dep false

/-- The end of `do_vread_s`, from `if(!from_int)` on. -/
def vread_finish (snd : SendStatus) (dep : dpeth_t) (from_int : Bool) : Res :=
  if from_int then .ok dep else do_reply snd dep false

/-- `do_vread_s(mp, from_int)` on the table entry `dep` of port `mp->DL_PORT`;
`U` is the caller's address space and `snd` the result of the reply `send`. -/
def do_vread_s (cfg : Config) (U : UserSpace) (snd : SendStatus) (dep : dpeth_t)
    (mp : message) (from_int : Bool) : Res :=
  if mp.DL_PORT < 0 ∨ mp.DL_PORT ≥ cfg.DE_PORT_NR then .fatal .port dep
  else
    let dep := { dep with de_client := mp.DL_PROC }
    if dep.de_mode = .DEM_ENABLED then
      match dep.descr_recv[dep.cur_recv]? with
      | none => .fatal .bounds dep
      | some descr =>
        if ¬ (descr.descr.des0 &&& DES0_OWN = 0 ∧ descr.descr.des0 &&& DES0_FS ≠ 0 ∧
              descr.descr.des0 &&& DES0_LS ≠ 0) then
          vread_suspend snd dep mp from_int
        else if descr.descr.des0 &&& DES0_ES ≠ 0 ∨ descr.descr.des0 &&& DES0_RE ≠ 0 then
          .fatal .assertion dep
        else
          let iovp := { dep.de_read_iovec with iod_proc_nr := mp.DL_PROC }
          match de_get_userdata_s cfg U mp.DL_GRANT 0 mp.DL_COUNT iovp.iod_iovec with
          | none => .fatal .copy { dep with de_read_iovec := iovp }
          | some v =>
            let iovp := { iovp with
                          iod_iovec := v
                          iod_iovec_s := mp.DL_COUNT
                          iod_grant := mp.DL_GRANT
                          iod_iovec_offset := 0 }
            match de_calc_iov_size cfg U iovp with
            | .error f => .fatal f { dep with de_read_iovec := iovp }
            | .ok (total, iovp) =>
              let dep := { dep with de_read_iovec := iovp }
              if (toU32 total : Int) < ETH_MAX_PACK_SIZE then .fatal .size dep
              else
                let size : Nat := (descr.descr.des0 &&& DES0_FL) >>> DES0_FL_SHIFT
                if size < 60 ∧ descr.buf1.length < 60 then .fatal .bounds dep
                else
                  let buf : List Nat :=
                    if size < 60 then
                      descr.buf1.take size ++ List.replicate (60 - size) 0 ++ descr.buf1.drop 60
                    else descr.buf1
                  let size : Nat := if size < 60 then 60 else size
                  let descr := { descr with buf1 := buf }
                  let dep := { dep with
                               descr_recv := dep.descr_recv.set dep.cur_recv descr
                               bytes_rx := wrap32 (dep.bytes_rx + size)
                               de_stat := { dep.de_stat with
                                            ets_packetR := wrap32 (dep.de_stat.ets_packetR + 1) }
                               de_read_s := size }
                  let out := vread_copy cfg U (copy_fuel cfg mp) iovp 0 size 0 buf []
                  let dep := { dep with
                               de_read_iovec := out.iovp
                               copied_out := dep.copied_out ++ out.copied }
                  match out.fault with
                  | some f => .fatal f dep
                  | none =>
                    let descr : de_loc_descr_t :=
                      { descr with descr := { descr.descr with des0 := DES0_OWN } }
                    let dep := { dep with descr_recv := dep.descr_recv.set dep.cur_recv descr }
                    let dep := { dep with cur_recv := advance cfg.DE_NB_RECV_DESCR dep.cur_recv }
                    let dep := { dep with de_flags := { dep.de_flags with DEF_ACK_RECV := true } }
                    let dep := { dep with de_flags := { dep.de_flags with DEF_READING := false } }
                    vread_finish snd dep from_int
    else vread_finish snd dep from_int

/-! ## Interrupt dispatcher (`do_interrupt`) -/

/-- `do_interrupt(dep)`; `val` is the value `io_inl` reads from CSR5. -/
def do_interrupt (cfg : Config) (U : UserSpace) (snd : SendStatus) (val : Nat)
    (dep : dpeth_t) : Res :=
  let dep := { dep with iolog := dep.iolog ++ [.inp .CSR5 val] }
  if val &&& CSR5_AIS ≠ 0 then .fatal .abnormal dep
  else
    let r1 : Res :=
      if dep.de_flags.DEF_READING ∧ val &&& CSR5_RI ≠ 0 then
        do_vread_s cfg U snd dep dep.rx_return_msg true
      else .ok dep
    r1.andThen fun dep =>
      let r2 : Res :=
        if dep.de_flags.DEF_SENDING ∧ val &&& CSR5_TI ≠ 0 then
          do_vwrite_s cfg U snd dep dep.tx_return_msg true
        else .ok dep
      r2.andThen fun dep =>
        .ok { dep with iolog := dep.iolog ++ [.out .CSR5 0xFFFFFFFF] }

/-! ## Serial ROM reader (`de_read_rom`, `de_probe`) -/

/-- The macro `EMIT` of `de_read_rom`. -/
def EMIT (csr csr2 : Nat) : List IoEv := [.out .CSR9 (csr ||| csr2), .out .CSR1 0]

/-- The address loop of `de_read_rom`, `for(i=nbAddrBits;i!=0;i--)`, entered
with `i`. -/
def rom_addr_loop (addr csr2 : Nat) : Nat → List IoEv
  | 0 => []
  | i + 1 =>
    let csr := if addr &&& (1 <<< i) ≠ 0 then CSR9_DI else 0
    EMIT csr csr2 ++ EMIT (csr ^^^ CSR9_SRC) csr2 ++
      EMIT (csr ^^^ CSR9_SRC ^^^ CSR9_SRC) csr2 ++ rom_addr_loop addr csr2 i

/-- The read loop of `de_read_rom`, with `n` turns left, entered with `i` and
`retVal` (a `u16_t`); `rd k` is the value the `k`-th `io_inl` of CSR9 returns. -/
def rom_read_loop (rd : Nat → Nat) (csr2 : Nat) : Nat → Nat → Nat → Nat × List IoEv
  | 0, _, retVal => (retVal, [])
  | n + 1, i, retVal =>
    let retVal := (retVal <<< 1) % 65536
    let retVal := retVal ||| (if rd i &&& CSR9_DO = 0 then 0 else 1)
    let rest := rom_read_loop rd csr2 n (i + 1) retVal
    (rest.1, EMIT CSR9_SRC csr2 ++ [.inp .CSR9 (rd i)] ++ EMIT 0 csr2 ++ rest.2)

/-- `de_read_rom(dep, addr, nbAddrBits)`: the word it returns and its port
accesses in order; `rd k` is the value the `k`-th `io_inl` of CSR9 returns. -/
def de_read_rom (rd : Nat → Nat) (addr nbAddrBits : Nat) : Nat × List IoEv :=
  let init :=
    EMIT 0 0 ++ EMIT CSR9_SR 0 ++ EMIT (CSR9_SR ||| CSR9_RD) 0
  let csr2 := CSR9_SR ||| CSR9_RD
  let init := init ++ EMIT 0 csr2
  let csr2 := csr2 ||| CSR9_CS
  let init := init ++ EMIT 0 csr2 ++ EMIT CSR9_SRC csr2 ++ EMIT 0 csr2
  let cmd :=
    EMIT CSR9_DI csr2 ++ EMIT (CSR9_DI ||| CSR9_SRC) csr2 ++ EMIT CSR9_DI csr2 ++
    EMIT (CSR9_DI ||| CSR9_SRC) csr2 ++ EMIT CSR9_DI csr2 ++ EMIT 0 csr2 ++
    EMIT CSR9_SRC csr2 ++ EMIT 0 csr2
  let adr := rom_addr_loop addr csr2 nbAddrBits
  let rdl := rom_read_loop rd csr2 16 0 0
  (rdl.1, init ++ cmd ++ adr ++ rdl.2 ++ EMIT 0 csr2)

/-- The SROM loop of `de_probe`, `for(i=0;i<(1<<SROM_BITWIDTH)-1;i++)`, with
`n` turns left, entered with `i`; `rom a k` is the value the `k`-th `io_inl`
of CSR9 returns while word `a` is read. A store outside `srom` is reported as
`Fault.bounds`. -/
def srom_loop (rom : Nat → Nat → Nat) : Nat → Nat → List Nat → Except Fault (List Nat)
  | 0, _, srom => .ok srom
  | n + 1, i, srom =>
    let temp16 := (de_read_rom (rom (i % 256)) (i % 256) SROM_BITWIDTH).1
    if i * 2 + 1 < srom.length then
      srom_loop rom n (i + 1) ((srom.set (i * 2) (temp16 &&& 0xFF)).set (i * 2 + 1) (temp16 >>> 8))
    else .error .bounds

/-- The part of `de_probe` after `de_reset`: fills `srom` and takes the
station address from it. The PCI probing before it is not modelled. -/
def de_probe_srom (rom : Nat → Nat → Nat) (dep : dpeth_t) : Except Fault dpeth_t :=
  match srom_loop rom ((1 <<< SROM_BITWIDTH) - 1) 0 dep.srom with
  | .error f => .error f
  | .ok srom =>
    if DE_SROM_EA_OFFSET + 6 ≤ srom.length then
      .ok { dep with
            srom := srom
            de_address := (List.range 6).map (fun i => srom.getD (i + DE_SROM_EA_OFFSET) 0) }
    else .error .bounds

/-! ## Environments and sample values -/

/-- Every `sys_umap` call of `de_first_init` succeeds and returns an address
that is a multiple of four. -/
def InitEnvOk (E : InitEnv) : Prop :=
  (∀ i j, ∃ p, E.umap_buf i j = some p ∧ p &&& 0x3 = 0) ∧
  (∀ i, ∃ p, E.umap_head i = some p) ∧
  (∀ i j, ∃ t, E.umap_loc i j = some t ∧ t &&& 0x3 = 0)

/-- A sample environment: identity-like mapping to aligned addresses, buffer
area all zero. -/
def sampleInitEnv : InitEnv :=
  { umap_buf := fun i j => some (4096 * (i + 1) + 2048 * j)
    umap_head := fun i => some (16 * i)
    umap_loc := fun i j => some (64 * i + 16 * j)
    mem_buf := fun _ _ _ => 0 }

/-- A sample configuration: two receive and two transmit descriptors. -/
def cfg22 : Config :=
  { DE_PORT_NR := 1
    DE_NB_RECV_DESCR := 2
    DE_NB_SEND_DESCR := 2
    DE_RECV_BUF_SIZE := 1536
    DE_SEND_BUF_SIZE := 1536
    IOVEC_NR := 16 }

/-- A request that was never filled in. -/
def noMessage : message := ⟨0, 0, 0, 0⟩

/-- A vector record as static storage starts: `n` zero entries. -/
def emptyIovec (n : Nat) : iovec_dat_s_t :=
  ⟨List.replicate n ⟨0, 0⟩, 0, 0, 0, 0⟩

/-- The device context as static storage starts (all zero), enabled, with
the station address `ea`. -/
def freshDep (cfg : Config) (ea : List Nat) : dpeth_t :=
  { de_mode := .DEM_ENABLED
    de_flags := DEF_EMPTY
    de_client := 0
    descr_recv := []
    descr_tran := []
    cur_recv := 0
    cur_tran := 0
    sendrecv_descr_phys_addr_recv := 0
    sendrecv_descr_phys_addr_tran := 0
    bytes_rx := 0
    bytes_tx := 0
    de_stat := ⟨0, 0, 0⟩
    de_read_s := 0
    rx_return_msg := noMessage
    tx_return_msg := noMessage
    de_read_iovec := emptyIovec cfg.IOVEC_NR
    de_write_iovec := emptyIovec cfg.IOVEC_NR
    de_address := ea
    srom := List.replicate 126 0
    setupDone := false
    iolog := []
    replies := []
    copied_out := [] }

/-- A sample configuration with a single transmit descriptor. -/
def cfg21 : Config :=
  { DE_PORT_NR := 1
    DE_NB_RECV_DESCR := 2
    DE_NB_SEND_DESCR := 1
    DE_RECV_BUF_SIZE := 1536
    DE_SEND_BUF_SIZE := 1536
    IOVEC_NR := 16 }

/-! ## Serial ROM: what the reader is compared with -/

/-- The bit a CSR9 value carries on the data-out line. -/
def do_bit (v : Nat) : Nat := if v &&& CSR9_DO = 0 then 0 else 1

/-- The 16-bit word whose most significant bit is `b 0` and whose least
significant bit is `b 15`. -/
def word_of_bits (b : Nat → Nat) : Nat :=
  ((List.range 16).map fun i => b i * 2 ^ (15 - i)).sum

/-- The port accesses of one turn of the read loop: clock raised, data-out
sampled, clock lowered. -/
def read_turn (csr2 v : Nat) : List IoEv :=
  [.out .CSR9 (CSR9_SRC ||| csr2), .out .CSR1 0, .inp .CSR9 v, .out .CSR9 (0 ||| csr2),
   .out .CSR1 0]

/-- A serial ROM that answers every read with data-out high. -/
def allOnesRom : Nat → Nat → Nat := fun _ _ => CSR9_DO

/-- The constant part `csr2` of the CSR9 values `de_read_rom` writes from the
command phase on. -/
def rom_csr2 : Nat := CSR9_SR ||| CSR9_RD ||| CSR9_CS

/-- The word `de_probe` obtains from `de_read_rom` for address `a`. -/
def rom_word (rom : Nat → Nat → Nat) (a : Nat) : Nat :=
  (de_read_rom (rom (a % 256)) (a % 256) SROM_BITWIDTH).1

/-! ## Callers and requests the theorems talk about -/

/-- Sum of the sizes of the entries of an I/O vector. -/
def sum_sizes (fs : List iovec_s_t) : Nat := (fs.map fun e => e.iov_size).sum

/-- The request `mp` names a port of the table and passes the I/O vector
`fs`: `fs` is what lies behind the grant `mp.DL_GRANT`, `mp.DL_COUNT` is its
length, it has at least one entry and fewer than `IOVEC_NR`, every entry's
grant covers the entry's size, and the sizes add up to a value of type `int`. -/
def Request (cfg : Config) (U : UserSpace) (mp : message) (fs : List iovec_s_t) : Prop :=
  0 ≤ mp.DL_PORT ∧ mp.DL_PORT < cfg.DE_PORT_NR ∧
  U.iov mp.DL_GRANT = fs ∧ mp.DL_COUNT = fs.length ∧
  1 ≤ fs.length ∧ fs.length < cfg.IOVEC_NR ∧ cfg.IOVEC_NR ≤ 268435456 ∧
  (∀ e, e ∈ fs → e.iov_size ≤ (U.data e.iov_grant).length) ∧
  sum_sizes fs < 2147483648

/-- The bytes a transmit request passes: the first `iov_size` bytes behind
each entry's grant, in the order of the entries. -/
def frame_bytes (U : UserSpace) (fs : List iovec_s_t) : List Nat :=
  fs.flatMap fun e => (U.data e.iov_grant).take e.iov_size

/-- Delivery of `data` into the buffers `fs` in order: each buffer takes what
is left, up to its size, and the next one is used when bytes remain. -/
def scatter : List iovec_s_t → List Nat → List (Nat × List Nat)
  | [], _ => []
  | e :: fs, data =>
    (e.iov_grant, data.take e.iov_size) ::
      (if e.iov_size < data.length then scatter fs (data.drop e.iov_size) else [])

/-- The vector record a request leaves in the device context. -/
def loaded_iovec (mp : message) (fs : List iovec_s_t) (old : iovec_dat_s_t) : iovec_dat_s_t :=
  { iod_iovec := fs ++ old.iod_iovec.drop fs.length
    iod_iovec_s := mp.DL_COUNT
    iod_proc_nr := mp.DL_PROC
    iod_grant := mp.DL_GRANT
    iod_iovec_offset := 0 }

/-- The device context once `do_vwrite_s` has put the frame of the request
`mp` (I/O vector `fs`) into the descriptor `descr` under the transmit cursor
and advanced the cursor, before `DEF_ACK_SEND` is set and the reply is sent. -/
def placed (cfg : Config) (U : UserSpace) (dep : dpeth_t) (mp : message)
    (fs : List iovec_s_t) (descr : de_loc_descr_t) : dpeth_t :=
  { dep with
    de_client := mp.DL_PROC
    setupDone := if !dep.setupDone && dep.cur_tran = 0 then true else dep.setupDone
    de_write_iovec := loaded_iovec mp fs dep.de_write_iovec
    bytes_tx := wrap32 (dep.bytes_tx + sum_sizes fs)
    de_stat := { dep.de_stat with ets_packetT := wrap32 (dep.de_stat.ets_packetT + 1) }
    descr_tran := dep.descr_tran.set dep.cur_tran
      { descr := { descr.descr with
                   des0 := DES0_OWN
                   des1 := (descr.descr.des1 &&& DES1_ER) ||| DES1_FS ||| DES1_LS ||| DES1_IC |||
                           sum_sizes fs }
        buf1 := frame_bytes U fs ++ descr.buf1.drop (sum_sizes fs) }
    cur_tran := advance cfg.DE_NB_SEND_DESCR dep.cur_tran
    iolog := dep.iolog ++ [.out .CSR1 0xFFFFFFFF] }

/-- The initialisation `do_conf` runs for an enabled device whose flags are
`DEF_EMPTY`: `de_first_init`, `de_flags |= DEF_ENABLED`, `de_setup_frame`.
The calls `de_reset`, `de_hw_conf` and `de_start` around `de_setup_frame`
only write registers and are left out. -/
def do_conf_init (cfg : Config) (E : InitEnv) (csr6 : Nat) (dep : dpeth_t) : Res :=
  match de_first_init cfg E dep with
  | .error f => .fatal f dep
  | .ok d =>
    de_setup_frame csr6 { d with de_flags := { d.de_flags with DEF_ENABLED := true } }

/-- Successive submissions `do_vwrite_s(mp, FALSE)`, the reply of each being
sent successfully, with nothing else happening in between. -/
def submit_all (cfg : Config) (U : UserSpace) : List message → dpeth_t → Res
  | [], dep => .ok dep
  | mp :: r, dep => (do_vwrite_s cfg U .OK dep mp false).andThen (submit_all cfg U r)

/-- The transmit side of an enabled device on which `k` frames were submitted
since initialisation and the controller has released nothing: no transmit is
pending, the cursor is at `k + 1` (at 0 once the ring is used up), slot 0
still belongs to the controller and the slots after `k` are free. -/
def TxState (cfg : Config) (k : Nat) (d : dpeth_t) : Prop :=
  d.de_mode = .DEM_ENABLED ∧ d.de_flags.DEF_SENDING = false ∧
  d.de_flags.DEF_ACK_SEND = false ∧
  d.cur_tran = (if k + 1 < cfg.DE_NB_SEND_DESCR then k + 1 else 0) ∧
  d.descr_tran.length = cfg.DE_NB_SEND_DESCR ∧
  (∃ x, d.descr_tran[0]? = some x ∧ x.descr.des0 &&& DES0_OWN ≠ 0 ∧ 1514 ≤ x.buf1.length) ∧
  (∀ j, k < j → j < cfg.DE_NB_SEND_DESCR →
    ∃ x, d.descr_tran[j]? = some x ∧ x.descr.des0 &&& DES0_OWN = 0 ∧ 1514 ≤ x.buf1.length)

/-- A sample configuration: two receive and three transmit descriptors. -/
def cfg23 : Config :=
  { DE_PORT_NR := 1
    DE_NB_RECV_DESCR := 2
    DE_NB_SEND_DESCR := 3
    DE_RECV_BUF_SIZE := 1536
    DE_SEND_BUF_SIZE := 1536
    IOVEC_NR := 16 }

/-- A sample caller: behind grant 1 a vector of one entry (grant 10, 64
bytes); behind grant 2 a vector of one entry (grant 20, 1514 bytes); grant 10
holds 64 bytes 0xAB and any other data grant 1514 zero bytes. -/
def sampleUser : UserSpace :=
  { iov := fun g => if g = 1 then [⟨10, 64⟩] else if g = 2 then [⟨20, 1514⟩] else []
    data := fun g => if g = 10 then List.replicate 64 0xAB else List.replicate 1514 0 }

/-- A request to port 0 from process 7 with the one-entry vector behind grant 1. -/
def msg64 : message := ⟨0, 7, 1, 1⟩

/-- A request to port 0 from process 7 with the one-entry vector behind grant 2. -/
def msgBuf : message := ⟨0, 7, 1, 2⟩

/-- Slot `j` of a ring after the controller has written the status `st` into
its descriptor word 0. -/
def release_slot (j st : Nat) (l : List de_loc_descr_t) : List de_loc_descr_t :=
  match l[j]? with
  | none => l
  | some x => l.set j { x with descr := { x.descr with des0 := st } }

/-- The controller writes the status `st` into descriptor word 0 of slot `j`
of the transmit ring; with the ownership bit clear in `st` this hands the
slot back to the driver. -/
def nic_release_tran (j st : Nat) (d : dpeth_t) : dpeth_t :=
  { d with descr_tran := release_slot j st d.descr_tran }

/-- The controller writes the status `st` into descriptor word 0 of slot `j`
of the receive ring and the frame `frame` at the start of its buffer. -/
def nic_receive (j st : Nat) (frame : List Nat) (d : dpeth_t) : dpeth_t :=
  { d with descr_recv :=
      match d.descr_recv[j]? with
      | none => d.descr_recv
      | some x => d.descr_recv.set j
          { descr := { x.descr with des0 := st }
            buf1 := frame ++ x.buf1.drop frame.length } }

/-- A sample device context with a transmit pending: rings not yet filled in,
`DEF_SENDING` set. -/
def pendingDep : dpeth_t :=
  { freshDep cfg22 [] with
    de_flags := { DEF_EMPTY with DEF_SENDING := true }
    tx_return_msg := msg64 }

/-- The frame length a descriptor word 0 reports. -/
def frame_len (des0 : Nat) : Nat := (des0 &&& DES0_FL) >>> DES0_FL_SHIFT

/-- The number of bytes `do_vread_s` delivers for a descriptor word 0: the
reported frame length, or 60 when that is smaller. -/
def delivered_len (des0 : Nat) : Nat := if frame_len des0 < 60 then 60 else frame_len des0

/-- A receive buffer after the zero fill of `do_vread_s` for a frame of `L`
bytes. -/
def padded (buf : List Nat) (L : Nat) : List Nat :=
  if L < 60 then buf.take L ++ List.replicate (60 - L) 0 ++ buf.drop 60 else buf

/-- The descriptor word 0 shows a complete, error-free frame that belongs to
the driver. -/
def Ready (des0 : Nat) : Prop :=
  des0 &&& DES0_OWN = 0 ∧ des0 &&& DES0_FS ≠ 0 ∧ des0 &&& DES0_LS ≠ 0 ∧
  des0 &&& DES0_ES = 0 ∧ des0 &&& DES0_RE = 0

instance (des0 : Nat) : Decidable (Ready des0) := by
  unfold Ready
  infer_instance

/-- The device context once `do_vread_s` has handed the frame in the
descriptor `descr` under the receive cursor to the buffers `fs` of the request
`mp`, returned the descriptor to the controller and advanced the cursor,
before the reply is sent. -/
def delivered (cfg : Config) (U : UserSpace) (dep : dpeth_t) (mp : message)
    (fs : List iovec_s_t) (descr : de_loc_descr_t) : dpeth_t :=
  { dep with
    de_client := mp.DL_PROC
    de_read_iovec := loaded_iovec mp fs dep.de_read_iovec
    descr_recv := dep.descr_recv.set dep.cur_recv
      { descr := { descr.descr with des0 := DES0_OWN }
        buf1 := padded descr.buf1 (frame_len descr.descr.des0) }
    bytes_rx := wrap32 (dep.bytes_rx + delivered_len descr.descr.des0)
    de_stat := { dep.de_stat with ets_packetR := wrap32 (dep.de_stat.ets_packetR + 1) }
    de_read_s := delivered_len descr.descr.des0
    copied_out := dep.copied_out ++
      scatter fs ((padded descr.buf1 (frame_len descr.descr.des0)).take
        (delivered_len descr.descr.des0))
    cur_recv := advance cfg.DE_NB_RECV_DESCR dep.cur_recv
    de_flags := { dep.de_flags with DEF_ACK_RECV := true, DEF_READING := false } }

/-- A descriptor word 0 of a complete, error-free frame of `L` bytes that
belongs to the driver. -/
def rx_status (L : Nat) : Nat := (L <<< DES0_FL_SHIFT) ||| DES0_FS ||| DES0_LS

/-- A sample device context with a frame under the receive cursor: one
receive slot whose descriptor reports `L` bytes and whose buffer holds bytes
0xEE. -/
def rxDep (L : Nat) : dpeth_t :=
  { freshDep cfg22 [] with
    descr_recv := [⟨⟨rx_status L, 1536, 0, 0⟩, List.replicate 1536 0xEE⟩] }

/-- A receive vector of 17 entries whose sizes add up to 2045 bytes: 30, then
fifteen times 1, then 2000. -/
def longRecvVec : List iovec_s_t :=
  ⟨30, 30⟩ :: (List.replicate 15 ⟨31, 1⟩ ++ [⟨32, 2000⟩])

/-- A transmit vector of 17 entries whose sizes add up to 1514 bytes: 1400,
then fifteen times 1, then 99. -/
def longSendVec : List iovec_s_t :=
  ⟨40, 1400⟩ :: (List.replicate 15 ⟨41, 1⟩ ++ [⟨42, 99⟩])

/-- A caller with the vectors of `sampleUser` behind grants 1 and 2,
`longRecvVec` behind grant 3 and `longSendVec` behind grant 4; every data
grant except grant 10 holds 2000 zero bytes. -/
def longUser : UserSpace :=
  { iov := fun g =>
      if g = 1 then [⟨10, 64⟩] else if g = 2 then [⟨20, 1514⟩]
      else if g = 3 then longRecvVec else if g = 4 then longSendVec else []
    data := fun g => if g = 10 then List.replicate 64 0xAB else List.replicate 2000 0 }

/-- A receive request to port 0 from process 7 with the 17 entries behind grant 3. -/
def msgLongRecv : message := ⟨0, 7, 17, 3⟩

/-- A transmit request to port 0 from process 7 with the 17 entries behind grant 4. -/
def msgLongSend : message := ⟨0, 7, 17, 4⟩

/-- A simulated loopback: the controller copies the first `n` bytes of the
buffer of transmit slot `j` into the descriptor under the receive cursor and
writes the status `st` into that descriptor's word 0. -/
def loopback (j n st : Nat) (d : dpeth_t) : dpeth_t :=
  match d.descr_tran[j]? with
  | none => d
  | some x => nic_receive d.cur_recv st (x.buf1.take n) d

/-! ## The end-of-ring marker -/

/-- The end-of-ring marks of a ring: for each slot in order, whether word 1
of its descriptor carries `DES1_ER`. -/
def er_marks (l : List de_loc_descr_t) : List Bool :=
  l.map fun x => decide (x.descr.des1 &&& DES1_ER ≠ 0)

/-- The marks of a ring of `n` slots in which the last slot carries the
end-of-ring marker and no other slot does. -/
def last_only (n : Nat) : List Bool :=
  (List.range n).map fun j => decide (j + 1 = n)

/-- In each ring of the device context exactly the last slot carries
`DES1_ER`. -/
def RingInv (cfg : Config) (d : dpeth_t) : Prop :=
  er_marks d.descr_recv = last_only cfg.DE_NB_RECV_DESCR ∧
  er_marks d.descr_tran = last_only cfg.DE_NB_SEND_DESCR

instance (cfg : Config) (d : dpeth_t) : Decidable (RingInv cfg d) := by
  unfold RingInv
  infer_instance

/-- One action on the device context: a call of `de_setup_frame`,
`do_vwrite_s`, `do_vread_s` or `do_interrupt` that returns, a status
write-back of the controller into word 0 of a descriptor, or any change that
leaves both rings as they are (such as the flag update of `do_conf`). -/
inductive Step (cfg : Config) : dpeth_t → dpeth_t → Prop
  | setup (csr6 : Nat) (d d1 : dpeth_t) : de_setup_frame csr6 d = .ok d1 → Step cfg d d1
  | vwrite (U : UserSpace) (snd : SendStatus) (mp : message) (from_int : Bool)
      (d d1 : dpeth_t) : do_vwrite_s cfg U snd d mp from_int = .ok d1 → Step cfg d d1
  | vread (U : UserSpace) (snd : SendStatus) (mp : message) (from_int : Bool)
      (d d1 : dpeth_t) : do_vread_s cfg U snd d mp from_int = .ok d1 → Step cfg d d1
  | interrupt (U : UserSpace) (snd : SendStatus) (val : Nat) (d d1 : dpeth_t) :
      do_interrupt cfg U snd val d = .ok d1 → Step cfg d d1
  | nic_tran (j st : Nat) (d : dpeth_t) : Step cfg d (nic_release_tran j st d)
  | nic_recv (j st : Nat) (frame : List Nat) (d : dpeth_t) :
      Step cfg d (nic_receive j st frame d)
  | other (d d1 : dpeth_t) : d1.descr_recv = d.descr_recv → d1.descr_tran = d.descr_tran →
      Step cfg d d1

/-- The device contexts reached from `dep` by `de_first_init` followed by any
sequence of actions `Step`. -/
inductive Reachable (cfg : Config) (E : InitEnv) (dep : dpeth_t) : dpeth_t → Prop
  | init (d : dpeth_t) : de_first_init cfg E dep = .ok d → Reachable cfg E dep d
  | step (d d1 : dpeth_t) : Reachable cfg E dep d → Step cfg d d1 → Reachable cfg E dep d1

/-! ## Theorems -/

/-! ### Bit masks -/

theorem or_ER_and_ER (t : Nat) : (t ||| DES1_ER) &&& DES1_ER ≠ 0 := by
  have h : ((t ||| DES1_ER) &&& DES1_ER).testBit 25 = true := by
    have h1 : Nat.testBit DES1_ER 25 = true := by decide
    simp [Nat.testBit_and, Nat.testBit_or, h1]
  intro h0
  rw [h0] at h
  simp at h

/-! ### Ring initialisation -/

theorem init_descrs_ok (E : InitEnv) (i n temp : Nat) :
    ∀ (k j : Nat), (∀ m, m < k → ∃ p, E.umap_buf i (j + m) = some p) →
      ∃ l, init_descrs E i n temp k j = .ok l ∧ l.length = k ∧
        ∀ m d, l[m]? = some d →
          d.descr.des0 = (if i = DESCR_RECV then 0 ||| DES0_OWN else 0) ∧
          d.descr.des1 = (if j + m = n - 1 then temp ||| DES1_ER else temp) ∧
          E.umap_buf i (j + m) = some d.descr.des_buf1 ∧
          d.descr.des_buf2 = 0 ∧ d.buf1.length = temp := by
  intro k
  induction k with
  | zero =>
    intro j _
    exact ⟨[], rfl, rfl, by intro m d h; simp at h⟩
  | succ k ih =>
    intro j h
    obtain ⟨p, hp⟩ := h 0 (Nat.succ_pos k)
    have hrest : ∀ m, m < k → ∃ p, E.umap_buf i (j + 1 + m) = some p := by
      intro m hm
      have := h (m + 1) (Nat.succ_lt_succ hm)
      rwa [show j + (m + 1) = j + 1 + m by omega] at this
    obtain ⟨l, hl, hlen, hall⟩ := ih (j + 1) hrest
    simp only [Nat.add_zero] at hp
    have hrun : init_descrs E i n temp (k + 1) j = .ok
        (⟨⟨if i = DESCR_RECV then 0 ||| DES0_OWN else 0,
           if j = n - 1 then temp ||| DES1_ER else temp, p, 0⟩,
          (List.range temp).map (E.mem_buf i j)⟩ :: l) := by
      simp only [init_descrs, hp, hl]
    refine ⟨_, hrun, by simp [hlen], ?_⟩
    intro m d hd
    cases m with
    | zero =>
      simp only [List.getElem?_cons_zero, Option.some.injEq] at hd
      subst hd
      simp [hp]
    | succ m =>
      simp only [List.getElem?_cons_succ] at hd
      have := hall m d hd
      rwa [show j + 1 + m = j + (m + 1) by omega] at this

theorem check_align_ok (E : InitEnv) (i : Nat) :
    ∀ (l : List de_loc_descr_t) (j : Nat),
      (∀ m, ∃ t, E.umap_loc i m = some t ∧ t &&& 0x3 = 0) →
      (∀ d, d ∈ l → d.descr.des_buf1 &&& 0x3 = 0 ∧ d.descr.des_buf2 &&& 0x3 = 0) →
      check_align E i l j = .ok () := by
  intro l
  induction l with
  | nil => intro j _ _; rfl
  | cons d ds ih =>
    intro j hloc hd
    obtain ⟨t, ht, ht0⟩ := hloc j
    obtain ⟨h1, h2⟩ := hd d (List.mem_cons_self d ds)
    simp only [check_align, ht, h1, h2, ht0, ne_eq, not_true_eq_false, or_self, if_false]
    exact ih (j + 1) hloc (fun d' hd' => hd d' (List.mem_cons_of_mem d hd'))

theorem sampleInitEnv_ok : InitEnvOk sampleInitEnv := by
  refine ⟨fun i j => ⟨_, rfl, ?_⟩, fun i => ⟨_, rfl⟩, fun i j => ⟨_, rfl, ?_⟩⟩
  · have h : (4096 * (i + 1) + 2048 * j) % 4 = 0 := by omega
    simpa [Nat.and_pow_two_sub_one_eq_mod _ 2] using h
  · have h : (64 * i + 16 * j) % 4 = 0 := by omega
    simpa [Nat.and_pow_two_sub_one_eq_mod _ 2] using h

/-- What `de_first_init` returns when every `sys_umap` call succeeds with an
aligned address. -/
theorem de_first_init_spec (cfg : Config) (E : InitEnv) (dep : dpeth_t) (hE : InitEnvOk E) :
    ∃ rx tx prx ptx,
      de_first_init cfg E dep = .ok { dep with
        descr_recv := rx
        descr_tran := tx
        sendrecv_descr_phys_addr_recv := prx
        sendrecv_descr_phys_addr_tran := ptx
        cur_tran := 1
        cur_recv := 0
        bytes_rx := 0
        bytes_tx := 0 } ∧
      rx.length = cfg.DE_NB_RECV_DESCR ∧ tx.length = cfg.DE_NB_SEND_DESCR ∧
      (∀ m d, rx[m]? = some d →
        d.descr.des0 = DES0_OWN ∧
        d.descr.des1 = (if m = cfg.DE_NB_RECV_DESCR - 1 then cfg.DE_RECV_BUF_SIZE ||| DES1_ER
                        else cfg.DE_RECV_BUF_SIZE) ∧
        d.buf1.length = cfg.DE_RECV_BUF_SIZE) ∧
      (∀ m d, tx[m]? = some d →
        d.descr.des0 = 0 ∧
        d.descr.des1 = (if m = cfg.DE_NB_SEND_DESCR - 1 then cfg.DE_SEND_BUF_SIZE ||| DES1_ER
                        else cfg.DE_SEND_BUF_SIZE) ∧
        d.buf1.length = cfg.DE_SEND_BUF_SIZE) := by
  obtain ⟨hbuf, hhead, hloc⟩ := hE
  obtain ⟨rx, hrx, hrxlen, hrxall⟩ := init_descrs_ok E DESCR_RECV cfg.DE_NB_RECV_DESCR
    cfg.DE_RECV_BUF_SIZE cfg.DE_NB_RECV_DESCR 0 (fun m _ => (hbuf _ _).imp fun _ h => h.1)
  obtain ⟨tx, htx, htxlen, htxall⟩ := init_descrs_ok E DESCR_TRAN cfg.DE_NB_SEND_DESCR
    cfg.DE_SEND_BUF_SIZE cfg.DE_NB_SEND_DESCR 0 (fun m _ => (hbuf _ _).imp fun _ h => h.1)
  obtain ⟨prx, hprx⟩ := hhead DESCR_RECV
  obtain ⟨ptx, hptx⟩ := hhead DESCR_TRAN
  have aligned : ∀ (i n t : Nat) (l : List de_loc_descr_t),
      (∀ m d, l[m]? = some d → E.umap_buf i (0 + m) = some d.descr.des_buf1 ∧
        d.descr.des_buf2 = 0) →
      ∀ d, d ∈ l → d.descr.des_buf1 &&& 0x3 = 0 ∧ d.descr.des_buf2 &&& 0x3 = 0 := by
    intro i n t l hl d hd
    obtain ⟨m, hm⟩ := List.getElem?_of_mem hd
    obtain ⟨h1, h2⟩ := hl m d hm
    obtain ⟨p, hp, hp0⟩ := hbuf i (0 + m)
    rw [hp] at h1
    simp only [Option.some.injEq] at h1
    subst h1
    exact ⟨hp0, by rw [h2]; rfl⟩
  have harx := check_align_ok E DESCR_RECV rx 0 (hloc _)
    (aligned _ 0 0 rx fun m d h => ⟨(hrxall m d h).2.2.1, (hrxall m d h).2.2.2.1⟩)
  have hatx := check_align_ok E DESCR_TRAN tx 0 (hloc _)
    (aligned _ 0 0 tx fun m d h => ⟨(htxall m d h).2.2.1, (htxall m d h).2.2.2.1⟩)
  refine ⟨rx, tx, prx, ptx, ?_, hrxlen, htxlen, ?_, ?_⟩
  · simp only [de_first_init, hrx, htx, hprx, hptx, harx, hatx]
  · intro m d h
    obtain ⟨h0, h1, _, _, h4⟩ := hrxall m d h
    refine ⟨by rw [h0]; rfl, ?_, h4⟩
    rw [h1, Nat.zero_add]
  · intro m d h
    obtain ⟨h0, h1, _, _, h4⟩ := htxall m d h
    refine ⟨by rw [h0]; rfl, ?_, h4⟩
    rw [h1, Nat.zero_add]

/-- C8. For all capacities of the receive and transmit rings (at least one
slot each), when every `sys_umap` call succeeds with an aligned address and
the buffer sizes do not overlap the end-of-ring bit, `de_first_init` returns
and leaves rings of exactly those capacities in which a descriptor carries
`DES1_ER` exactly when it is the last one (index C-1); every receive
descriptor then has `DES0_OWN` set and every transmit descriptor has it clear. -/
theorem de_first_init_end_of_ring (cfg : Config) (E : InitEnv) (dep : dpeth_t)
    (hE : InitEnvOk E)
    (hrx : 1 ≤ cfg.DE_NB_RECV_DESCR) (htx : 1 ≤ cfg.DE_NB_SEND_DESCR)
    (hrb : cfg.DE_RECV_BUF_SIZE &&& DES1_ER = 0)
    (htb : cfg.DE_SEND_BUF_SIZE &&& DES1_ER = 0) :
    ∃ d, de_first_init cfg E dep = .ok d ∧
      d.descr_recv.length = cfg.DE_NB_RECV_DESCR ∧
      d.descr_tran.length = cfg.DE_NB_SEND_DESCR ∧
      (∃ x, d.descr_recv[cfg.DE_NB_RECV_DESCR - 1]? = some x ∧ x.descr.des1 &&& DES1_ER ≠ 0) ∧
      (∃ x, d.descr_tran[cfg.DE_NB_SEND_DESCR - 1]? = some x ∧ x.descr.des1 &&& DES1_ER ≠ 0) ∧
      (∀ j x, d.descr_recv[j]? = some x →
        (x.descr.des1 &&& DES1_ER ≠ 0 ↔ j = cfg.DE_NB_RECV_DESCR - 1) ∧
        x.descr.des0 &&& DES0_OWN ≠ 0) ∧
      (∀ j x, d.descr_tran[j]? = some x →
        (x.descr.des1 &&& DES1_ER ≠ 0 ↔ j = cfg.DE_NB_SEND_DESCR - 1) ∧
        x.descr.des0 &&& DES0_OWN = 0) := by
  obtain ⟨rx, tx, prx, ptx, hrun, hrl, htl, hrall, htall⟩ := de_first_init_spec cfg E dep hE
  have key : ∀ (t n j : Nat), t &&& DES1_ER = 0 →
      ((if j = n - 1 then t ||| DES1_ER else t) &&& DES1_ER ≠ 0 ↔ j = n - 1) := by
    intro t n j ht
    by_cases hj : j = n - 1
    · simp only [hj, if_true, iff_true]
      exact or_ER_and_ER t
    · simp [hj, ht]
  have last : ∀ (l : List de_loc_descr_t) (n : Nat), l.length = n → 1 ≤ n →
      ∃ x, l[n - 1]? = some x := by
    intro l n hl hn
    exact ⟨l[n - 1], List.getElem?_eq_getElem (by omega)⟩
  refine ⟨_, hrun, hrl, htl, ?_, ?_, ?_, ?_⟩
  · obtain ⟨x, hx⟩ := last rx _ hrl hrx
    refine ⟨x, hx, ?_⟩
    rw [(hrall _ x hx).2.1]
    exact (key _ _ _ hrb).2 rfl
  · obtain ⟨x, hx⟩ := last tx _ htl htx
    refine ⟨x, hx, ?_⟩
    rw [(htall _ x hx).2.1]
    exact (key _ _ _ htb).2 rfl
  · intro j x hx
    obtain ⟨h0, h1, _⟩ := hrall j x hx
    refine ⟨?_, ?_⟩
    · rw [h1]; exact key _ _ _ hrb
    · rw [h0]; decide
  · intro j x hx
    obtain ⟨h0, h1, _⟩ := htall j x hx
    refine ⟨?_, ?_⟩
    · rw [h1]; exact key _ _ _ htb
    · rw [h0]; rfl

/-- A run of C8 on two receive and two transmit descriptors. -/
theorem de_first_init_end_of_ring_witness :
    ∃ d, de_first_init cfg22 sampleInitEnv (freshDep cfg22 [0, 1, 2, 3, 4, 5]) = .ok d ∧
      d.descr_recv.length = cfg22.DE_NB_RECV_DESCR ∧
      d.descr_tran.length = cfg22.DE_NB_SEND_DESCR ∧
      (∃ x, d.descr_recv[cfg22.DE_NB_RECV_DESCR - 1]? = some x ∧ x.descr.des1 &&& DES1_ER ≠ 0) ∧
      (∃ x, d.descr_tran[cfg22.DE_NB_SEND_DESCR - 1]? = some x ∧ x.descr.des1 &&& DES1_ER ≠ 0) ∧
      (∀ j x, d.descr_recv[j]? = some x →
        (x.descr.des1 &&& DES1_ER ≠ 0 ↔ j = cfg22.DE_NB_RECV_DESCR - 1) ∧
        x.descr.des0 &&& DES0_OWN ≠ 0) ∧
      (∀ j x, d.descr_tran[j]? = some x →
        (x.descr.des1 &&& DES1_ER ≠ 0 ↔ j = cfg22.DE_NB_SEND_DESCR - 1) ∧
        x.descr.des0 &&& DES0_OWN = 0) :=
  de_first_init_end_of_ring cfg22 sampleInitEnv _ sampleInitEnv_ok (by decide) (by decide)
    (by decide) (by decide)

/-! ### Cursor advance -/

theorem advance_eq_mod (C c : Nat) (hc : c < C) : advance C c = (c + 1) % C := by
  unfold advance
  by_cases h : c + 1 ≥ C
  · have : c + 1 = C := by omega
    simp [this]
  · rw [if_neg h, Nat.mod_eq_of_lt (by omega)]

theorem advance_iterate (C c : Nat) (hc : c < C) (k : Nat) :
    (advance C)^[k] c = (c + k) % C := by
  induction k with
  | zero => simp [Nat.mod_eq_of_lt hc]
  | succ k ih =>
    rw [Function.iterate_succ_apply', ih, advance_eq_mod C _ (Nat.mod_lt _ (by omega))]
    rw [Nat.add_mod, Nat.mod_mod, ← Nat.add_mod, Nat.add_assoc]

/-- C9, as stated, fails for a transmit ring of one slot: `de_first_init`
leaves the transmit cursor at 1, which is not an index of that ring, and one
advance takes it to 0, not back to 1. -/
theorem tran_cursor_one_slot :
    ∃ d, de_first_init cfg21 sampleInitEnv (freshDep cfg21 []) = .ok d ∧
      ¬ d.cur_tran < cfg21.DE_NB_SEND_DESCR ∧
      (advance cfg21.DE_NB_SEND_DESCR)^[cfg21.DE_NB_SEND_DESCR] d.cur_tran ≠ d.cur_tran := by
  obtain ⟨rx, tx, prx, ptx, hrun, _⟩ :=
    de_first_init_spec cfg21 sampleInitEnv (freshDep cfg21 []) sampleInitEnv_ok
  refine ⟨_, hrun, ?_, ?_⟩
  · show ¬ 1 < cfg21.DE_NB_SEND_DESCR
    decide
  · show (advance cfg21.DE_NB_SEND_DESCR)^[cfg21.DE_NB_SEND_DESCR] 1 ≠ 1
    decide

/-- C9, amended. For every receive ring of at least one slot and every
transmit ring of at least two slots, the cursors `de_first_init` sets (0 for
receive, 1 for transmit) are ring indices, stay ring indices under any number
of advances, and are back at their starting value after as many advances as
the ring has slots. -/
theorem cursor_advance_cycle (cfg : Config) (E : InitEnv) (dep : dpeth_t)
    (hE : InitEnvOk E) (hrx : 1 ≤ cfg.DE_NB_RECV_DESCR) (htx : 2 ≤ cfg.DE_NB_SEND_DESCR) :
    ∃ d, de_first_init cfg E dep = .ok d ∧
      d.cur_recv = 0 ∧ d.cur_tran = 1 ∧
      (advance cfg.DE_NB_RECV_DESCR)^[cfg.DE_NB_RECV_DESCR] d.cur_recv = d.cur_recv ∧
      (advance cfg.DE_NB_SEND_DESCR)^[cfg.DE_NB_SEND_DESCR] d.cur_tran = d.cur_tran ∧
      (∀ k, (advance cfg.DE_NB_RECV_DESCR)^[k] d.cur_recv < cfg.DE_NB_RECV_DESCR) ∧
      (∀ k, (advance cfg.DE_NB_SEND_DESCR)^[k] d.cur_tran < cfg.DE_NB_SEND_DESCR) := by
  obtain ⟨rx, tx, prx, ptx, hrun, _⟩ := de_first_init_spec cfg E dep hE
  refine ⟨_, hrun, rfl, rfl, ?_, ?_, ?_, ?_⟩
  · show (advance cfg.DE_NB_RECV_DESCR)^[cfg.DE_NB_RECV_DESCR] 0 = 0
    rw [advance_iterate _ _ (by omega)]
    simp
  · show (advance cfg.DE_NB_SEND_DESCR)^[cfg.DE_NB_SEND_DESCR] 1 = 1
    rw [advance_iterate _ _ (by omega), Nat.add_mod_right, Nat.mod_eq_of_lt (by omega)]
  · intro k
    show (advance cfg.DE_NB_RECV_DESCR)^[k] 0 < _
    rw [advance_iterate _ _ (by omega)]
    exact Nat.mod_lt _ (by omega)
  · intro k
    show (advance cfg.DE_NB_SEND_DESCR)^[k] 1 < _
    rw [advance_iterate _ _ (by omega)]
    exact Nat.mod_lt _ (by omega)

/-- A run of the amended C9 on two receive and two transmit descriptors. -/
theorem cursor_advance_cycle_witness :
    ∃ d, de_first_init cfg22 sampleInitEnv (freshDep cfg22 []) = .ok d ∧
      d.cur_recv = 0 ∧ d.cur_tran = 1 ∧
      (advance cfg22.DE_NB_RECV_DESCR)^[cfg22.DE_NB_RECV_DESCR] d.cur_recv = d.cur_recv ∧
      (advance cfg22.DE_NB_SEND_DESCR)^[cfg22.DE_NB_SEND_DESCR] d.cur_tran = d.cur_tran ∧
      (∀ k, (advance cfg22.DE_NB_RECV_DESCR)^[k] d.cur_recv < cfg22.DE_NB_RECV_DESCR) ∧
      (∀ k, (advance cfg22.DE_NB_SEND_DESCR)^[k] d.cur_tran < cfg22.DE_NB_SEND_DESCR) :=
  cursor_advance_cycle cfg22 sampleInitEnv _ sampleInitEnv_ok (by decide) (by decide)

/-! ### Serial ROM reader -/

theorem rom_read_loop_val (rd : Nat → Nat) (csr2 : Nat) :
    ∀ (n i r : Nat), n ≤ 16 → r < 2 ^ (16 - n) →
      (rom_read_loop rd csr2 n i r).1 =
        r * 2 ^ n + ((List.range n).map fun k => do_bit (rd (i + k)) * 2 ^ (n - 1 - k)).sum := by
  intro n
  induction n with
  | zero => intro i r _ _; simp [rom_read_loop]
  | succ n ih =>
    intro i r hn hr
    have hpow : 2 ^ (16 - n) = 2 * 2 ^ (16 - (n + 1)) := by
      rw [show 16 - n = (16 - (n + 1)) + 1 by omega, Nat.pow_succ, Nat.mul_comm]
    have h16 : 2 ^ (16 - n) ≤ 65536 := by
      rw [show (65536 : Nat) = 2 ^ 16 by norm_num]
      exact Nat.pow_le_pow_right (by norm_num) (by omega)
    have hb : do_bit (rd i) < 2 ^ 1 := by
      unfold do_bit; split <;> norm_num
    have hshift : (r <<< 1) % 65536 = 2 ^ 1 * r := by
      rw [Nat.shiftLeft_eq, Nat.mul_comm, Nat.mod_eq_of_lt]
      rw [Nat.pow_one]; omega
    have hor : ((r <<< 1) % 65536 ||| (if rd i &&& CSR9_DO = 0 then 0 else 1)) =
        2 * r + do_bit (rd i) := by
      rw [hshift]
      show 2 ^ 1 * r ||| do_bit (rd i) = 2 * r + do_bit (rd i)
      rw [← Nat.mul_add_lt_is_or hb r, Nat.pow_one]
    have hr' : 2 * r + do_bit (rd i) < 2 ^ (16 - n) := by
      rw [Nat.pow_one] at hb; omega
    simp only [rom_read_loop]
    rw [hor, ih (i + 1) _ (by omega) hr', List.range_succ_eq_map, List.map_cons, List.sum_cons,
      List.map_map]
    have hfun : ((fun k => do_bit (rd (i + k)) * 2 ^ (n + 1 - 1 - k)) ∘ Nat.succ) =
        fun k => do_bit (rd (i + 1 + k)) * 2 ^ (n - 1 - k) := by
      funext k
      simp only [Function.comp, Nat.succ_eq_add_one]
      rw [show i + (k + 1) = i + 1 + k by omega, show n + 1 - 1 - (k + 1) = n - 1 - k by omega]
    rw [hfun, Nat.add_zero, show n + 1 - 1 - 0 = n by omega, Nat.pow_succ]
    ring_nf
    omega

theorem rom_read_loop_trace (rd : Nat → Nat) (csr2 : Nat) :
    ∀ (n i r : Nat),
      (rom_read_loop rd csr2 n i r).2 =
        (List.range n).flatMap fun k => read_turn csr2 (rd (i + k)) := by
  intro n
  induction n with
  | zero => intro i r; simp [rom_read_loop]
  | succ n ih =>
    intro i r
    simp only [rom_read_loop]
    rw [ih, List.range_succ_eq_map, List.flatMap_cons, List.flatMap_map]
    have hfun : (fun k => read_turn csr2 (rd (i + Nat.succ k))) =
        fun k => read_turn csr2 (rd (i + 1 + k)) := by
      funext k
      rw [show i + Nat.succ k = i + 1 + k by omega]
    simp only [EMIT, read_turn, Nat.add_zero, List.cons_append, List.nil_append,
      List.append_assoc, Nat.succ_eq_add_one, Nat.add_assoc, Nat.add_comm 1]

theorem rom_addr_loop_out (addr csr2 : Nat) :
    ∀ (n : Nat) (e : IoEv), e ∈ rom_addr_loop addr csr2 n → ∃ r v, e = .out r v := by
  intro n
  induction n with
  | zero => intro e he; simp [rom_addr_loop] at he
  | succ n ih =>
    intro e he
    simp only [rom_addr_loop, EMIT, List.cons_append, List.nil_append, List.mem_cons] at he
    rcases he with h | h | h | h | h | h | h
    · exact ⟨_, _, h⟩
    · exact ⟨_, _, h⟩
    · exact ⟨_, _, h⟩
    · exact ⟨_, _, h⟩
    · exact ⟨_, _, h⟩
    · exact ⟨_, _, h⟩
    · exact ih e h

theorem de_read_rom_val (rd : Nat → Nat) (addr nbAddrBits : Nat) :
    (de_read_rom rd addr nbAddrBits).1 = word_of_bits fun i => do_bit (rd i) := by
  simp only [de_read_rom]
  rw [rom_read_loop_val rd _ 16 0 0 (by norm_num) (by norm_num)]
  simp [word_of_bits]

theorem srom_loop_spec (rom : Nat → Nat → Nat) :
    ∀ (n i : Nat) (srom : List Nat), (i + n) * 2 ≤ srom.length →
      ∃ s, srom_loop rom n i srom = .ok s ∧ s.length = srom.length ∧
        (∀ a, i ≤ a → a < i + n →
          s[2 * a]? = some (rom_word rom a &&& 0xFF) ∧
          s[2 * a + 1]? = some (rom_word rom a >>> 8)) ∧
        (∀ k, k < 2 * i → s[k]? = srom[k]?) := by
  intro n
  induction n with
  | zero =>
    intro i srom _
    exact ⟨srom, rfl, rfl, by intro a h1 h2; omega, fun _ _ => rfl⟩
  | succ n ih =>
    intro i srom hlen
    have hlt : i * 2 + 1 < srom.length := by omega
    obtain ⟨s, hs, hsl, hsw, hsk⟩ := ih (i + 1)
      ((srom.set (i * 2) (rom_word rom i &&& 0xFF)).set (i * 2 + 1) (rom_word rom i >>> 8))
      (by simp only [List.length_set]; omega)
    refine ⟨s, ?_, ?_, ?_, ?_⟩
    · simp only [srom_loop, hlt, if_true]
      exact hs
    · simpa using hsl
    · intro a h1 h2
      by_cases ha : a = i
      · subst ha
        constructor
        · rw [hsk (2 * a) (by omega), List.getElem?_set, List.getElem?_set]
          simp only [List.length_set]
          rw [if_neg (by omega), if_pos (by omega), if_pos (by omega)]
        · rw [hsk (2 * a + 1) (by omega), List.getElem?_set]
          simp only [List.length_set]
          rw [if_pos (by omega), if_pos (by omega)]
      · exact hsw a (by omega) (by omega)
    · intro k hk
      rw [hsk k (by omega), List.getElem?_set, List.getElem?_set]
      rw [if_neg (by omega), if_neg (by omega)]

/-- What the SROM part of `de_probe` returns on an `srom` array of at least
126 bytes. -/
theorem de_probe_srom_spec (rom : Nat → Nat → Nat) (dep : dpeth_t)
    (hs : 126 ≤ dep.srom.length) :
    ∃ s, de_probe_srom rom dep = .ok { dep with
        srom := s
        de_address := (List.range 6).map (fun i => s.getD (i + DE_SROM_EA_OFFSET) 0) } ∧
      s.length = dep.srom.length ∧
      ∀ a, a < 63 →
        s[2 * a]? = some (word_of_bits (fun i => do_bit (rom a i)) &&& 0xFF) ∧
        s[2 * a + 1]? = some (word_of_bits (fun i => do_bit (rom a i)) >>> 8) := by
  obtain ⟨s, hrun, hlen, hw, _⟩ := srom_loop_spec rom 63 0 dep.srom (by omega)
  refine ⟨s, ?_, hlen, ?_⟩
  · have h63 : (1 <<< SROM_BITWIDTH) - 1 = 63 := by decide
    have hl : DE_SROM_EA_OFFSET + 6 ≤ s.length := by
      rw [hlen]; simp only [DE_SROM_EA_OFFSET]; omega
    simp only [de_probe_srom, h63, hrun, hl, if_true]
  · intro a ha
    have := hw a (by omega) (by omega)
    rwa [rom_word, de_read_rom_val, Nat.mod_eq_of_lt (by omega)] at this

/-- C10. For every address, address width and every sequence of CSR9 values
returned by the 16 reads, `de_read_rom` returns the word whose bit `15 - i`
is the data-out bit of the `i`-th read; its port accesses are writes only,
followed by 16 turns "write with the clock bit set, read CSR9, write with the
clock bit clear", followed by one closing write; and on an `srom` array of at
least 126 bytes the SROM part of `de_probe` returns with the station address
equal to bytes `DE_SROM_EA_OFFSET .. DE_SROM_EA_OFFSET+5` of `srom`, which
are the low and high bytes of the words read at addresses 10, 11 and 12. -/
theorem de_read_rom_word (rom : Nat → Nat → Nat) (rd : Nat → Nat) (addr nbAddrBits : Nat)
    (dep : dpeth_t) (hs : 126 ≤ dep.srom.length) :
    (de_read_rom rd addr nbAddrBits).1 = word_of_bits (fun i => do_bit (rd i)) ∧
    (∃ pre, (de_read_rom rd addr nbAddrBits).2 =
        pre ++ ((List.range 16).flatMap fun k => read_turn rom_csr2 (rd k)) ++
          [.out .CSR9 (0 ||| rom_csr2), .out .CSR1 0] ∧
        ∀ e, e ∈ pre → ∃ r v, e = .out r v) ∧
    (CSR9_SRC ||| rom_csr2) &&& CSR9_SRC ≠ 0 ∧ (0 ||| rom_csr2) &&& CSR9_SRC = 0 ∧
    ∃ d, de_probe_srom rom dep = .ok d ∧
      d.de_address = (List.range 6).map (fun i => d.srom.getD (DE_SROM_EA_OFFSET + i) 0) ∧
      d.de_address =
        [word_of_bits (fun i => do_bit (rom 10 i)) &&& 0xFF,
         word_of_bits (fun i => do_bit (rom 10 i)) >>> 8,
         word_of_bits (fun i => do_bit (rom 11 i)) &&& 0xFF,
         word_of_bits (fun i => do_bit (rom 11 i)) >>> 8,
         word_of_bits (fun i => do_bit (rom 12 i)) &&& 0xFF,
         word_of_bits (fun i => do_bit (rom 12 i)) >>> 8] := by
  refine ⟨de_read_rom_val rd addr nbAddrBits, ?_, by decide, by decide, ?_⟩
  · refine ⟨EMIT 0 0 ++ EMIT CSR9_SR 0 ++ EMIT (CSR9_SR ||| CSR9_RD) 0 ++
        EMIT 0 (CSR9_SR ||| CSR9_RD) ++ EMIT 0 rom_csr2 ++ EMIT CSR9_SRC rom_csr2 ++
        EMIT 0 rom_csr2 ++
        (EMIT CSR9_DI rom_csr2 ++ EMIT (CSR9_DI ||| CSR9_SRC) rom_csr2 ++ EMIT CSR9_DI rom_csr2 ++
         EMIT (CSR9_DI ||| CSR9_SRC) rom_csr2 ++ EMIT CSR9_DI rom_csr2 ++ EMIT 0 rom_csr2 ++
         EMIT CSR9_SRC rom_csr2 ++ EMIT 0 rom_csr2) ++
        rom_addr_loop addr rom_csr2 nbAddrBits, ?_, ?_⟩
    · simp only [de_read_rom, rom_read_loop_trace, rom_csr2, EMIT, Nat.zero_add,
        List.append_assoc]
    · intro e he
      have hE : ∀ a b e, e ∈ EMIT a b → ∃ r v, e = IoEv.out r v := by
        intro a b e he
        simp only [EMIT, List.mem_cons, List.mem_singleton, List.not_mem_nil, or_false] at he
        rcases he with h | h <;> exact ⟨_, _, h⟩
      simp only [List.mem_append, or_assoc] at he
      rcases he with h | h | h | h | h | h | h | h | h | h | h | h | h | h | h | h <;>
        first
        | exact hE _ _ _ h
        | exact rom_addr_loop_out _ _ _ e h
  · obtain ⟨s, hrun, hlen, hw⟩ := de_probe_srom_spec rom dep hs
    refine ⟨_, hrun, ?_, ?_⟩
    · simp only [Nat.add_comm DE_SROM_EA_OFFSET]
    · have h10 := hw 10 (by norm_num)
      have h11 := hw 11 (by norm_num)
      have h12 := hw 12 (by norm_num)
      simp only [Nat.reduceMul, Nat.reduceAdd] at h10 h11 h12
      have hr : List.range 6 = [0, 1, 2, 3, 4, 5] := by decide
      simp only [hr, List.map_cons, List.map_nil, DE_SROM_EA_OFFSET, Nat.reduceAdd,
        List.getD_eq_getElem?_getD, h10.1, h10.2, h11.1, h11.2, h12.1, h12.2, Option.getD_some]

/-- A run of C10: a ROM whose data-out line is always high reads as 0xFFFF
and gives the station address FF:FF:FF:FF:FF:FF. -/
theorem de_read_rom_word_witness :
    (de_read_rom (allOnesRom 0) 0 SROM_BITWIDTH).1 = 0xFFFF ∧
    ∃ d, de_probe_srom allOnesRom (freshDep cfg22 []) = .ok d ∧
      d.de_address = [0xFF, 0xFF, 0xFF, 0xFF, 0xFF, 0xFF] := by
  obtain ⟨h1, _, _, _, d, hd, _, hmac⟩ :=
    de_read_rom_word allOnesRom (allOnesRom 0) 0 SROM_BITWIDTH (freshDep cfg22 [])
      (by simp [freshDep])
  refine ⟨?_, d, hd, ?_⟩
  · rw [h1]; decide
  · rw [hmac]; decide

/-! ### The caller's I/O vector -/

theorem toInt32_of_lt (x : Int) (h0 : 0 ≤ x) (h1 : x < 2147483648) : toInt32 x = x := by
  unfold toInt32
  omega

theorem toU32_of_lt (x : Nat) (h1 : x < 4294967296) : toU32 (x : Int) = x := by
  unfold toU32
  omega

theorem de_get_userdata_s_fits (cfg : Config) (U : UserSpace) (g off : Nat)
    (fs loc : List iovec_s_t) (hU : U.iov g = fs) (hn : fs.length < cfg.IOVEC_NR)
    (hN : cfg.IOVEC_NR ≤ 268435456) :
    de_get_userdata_s cfg U g off (fs.length : Int) loc = some (fs ++ loc.drop fs.length) := by
  have hc : ¬ ((fs.length : Int) > (cfg.IOVEC_NR : Int)) := by omega
  have hlen : toU32 ((fs.length : Int) * (sizeof_iovec_t : Nat)) = 8 * fs.length := by
    have : ((fs.length : Int) * ((sizeof_iovec_t : Nat) : Int)) = ((8 * fs.length : Nat) : Int) := by
      simp only [sizeof_iovec_t]; push_cast; ring
    rw [this, toU32_of_lt _ (by omega)]
  simp only [de_get_userdata_s, hc, if_false, hlen, hU]
  have hdiv : 8 * fs.length / sizeof_iovec_t = fs.length := by
    simp only [sizeof_iovec_t]; omega
  rw [hdiv, if_pos (by simp only [sizeof_iovec_t]; omega), List.take_length]

theorem getElem?_pre_cons {α : Type} (pre : List α) (e : α) (t : List α) :
    (pre ++ e :: t)[pre.length]? = some e := by
  rw [List.getElem?_append_right (Nat.le_refl _), Nat.sub_self, List.getElem?_cons_zero]

theorem sum_sizes_cons (e : iovec_s_t) (fs : List iovec_s_t) :
    sum_sizes (e :: fs) = e.iov_size + sum_sizes fs := by
  simp [sum_sizes]

theorem sum_sizes_append (xs ys : List iovec_s_t) :
    sum_sizes (xs ++ ys) = sum_sizes xs + sum_sizes ys := by
  simp [sum_sizes]

/-- The loop of `de_calc_iov_size` on a vector that is wholly in the local
array and does not fill it: it adds the sizes from `ix` on. -/
theorem de_calc_iov_size_loop_fits (cfg : Config) (U : UserSpace) (iovp : iovec_dat_s_t) :
    ∀ (fs pre rest : List iovec_s_t) (e : iovec_s_t) (fuel : Nat) (acc : Int),
      iovp.iod_iovec = pre ++ e :: fs ++ rest →
      iovp.iod_iovec_s = ((pre.length + 1 + fs.length : Nat) : Int) →
      pre.length + 1 + fs.length < cfg.IOVEC_NR →
      fs.length + 1 ≤ fuel → 0 ≤ acc →
      acc + (sum_sizes (e :: fs) : Int) < 2147483648 →
      de_calc_iov_size_loop cfg U fuel iovp acc pre.length =
        .ok (acc + (sum_sizes (e :: fs) : Int), iovp) := by
  intro fs
  induction fs with
  | nil =>
    intro pre rest e fuel acc hv hs hn hf h0 hsum
    obtain ⟨fuel, rfl⟩ : ∃ k, fuel = k + 1 := ⟨fuel - 1, by omega⟩
    have hget : iovp.iod_iovec[pre.length]? = some e := by
      rw [hv, List.append_assoc]; exact getElem?_pre_cons _ _ _
    have hsz : sum_sizes [e] = e.iov_size := by simp [sum_sizes]
    rw [hsz] at hsum ⊢
    simp only [de_calc_iov_size_loop, hget]
    rw [toInt32_of_lt _ (by omega) hsum]
    simp only [List.length_nil, Nat.add_zero] at hn hs
    rw [if_neg (by omega), if_neg (by rw [hs]; omega)]
  | cons e' fs ih =>
    intro pre rest e fuel acc hv hs hn hf h0 hsum
    obtain ⟨fuel, rfl⟩ : ∃ k, fuel = k + 1 := ⟨fuel - 1, by omega⟩
    have hget : iovp.iod_iovec[pre.length]? = some e := by
      rw [hv, List.append_assoc]; exact getElem?_pre_cons _ _ _
    rw [sum_sizes_cons] at hsum ⊢
    simp only [List.length_cons] at hn hs hf
    simp only [de_calc_iov_size_loop, hget]
    rw [toInt32_of_lt _ (by omega) (by push_cast at hsum ⊢; omega)]
    rw [if_neg (by omega), if_pos (by rw [hs]; omega)]
    have := ih (pre ++ [e]) rest e' fuel (acc + e.iov_size)
      (by rw [hv]; simp) (by rw [hs]; simp only [List.length_append, List.length_singleton];
                             congr 1; omega)
      (by simp only [List.length_append, List.length_singleton]; omega) (by omega) (by omega)
      (by push_cast at hsum ⊢; omega)
    simp only [List.length_append, List.length_singleton] at this
    rw [this]
    push_cast
    rw [Int.add_assoc]

theorem de_calc_iov_size_fits (cfg : Config) (U : UserSpace) (mp : message)
    (fs : List iovec_s_t) (old : iovec_dat_s_t) (hR : Request cfg U mp fs) :
    de_calc_iov_size cfg U (loaded_iovec mp fs old) =
      .ok ((sum_sizes fs : Int), loaded_iovec mp fs old) := by
  obtain ⟨_, _, _, hc, h1, hn, _, _, hsum⟩ := hR
  cases fs with
  | nil => simp at h1
  | cons e fs =>
    have := de_calc_iov_size_loop_fits cfg U (loaded_iovec mp (e :: fs) old) fs []
      (old.iod_iovec.drop (e :: fs).length) e
      ((loaded_iovec mp (e :: fs) old).iod_iovec_s.toNat + 1) 0
      (by simp [loaded_iovec])
      (by simp only [loaded_iovec, hc, List.length_cons, List.length_nil]; congr 1; omega)
      (by simp only [List.length_cons, List.length_nil] at hn ⊢; omega)
      (by simp only [loaded_iovec, hc, List.length_cons, Int.toNat_ofNat]; omega)
      (Int.le_refl 0) (by omega)
    simp only [List.length_nil, Int.zero_add] at this
    exact this

theorem frame_bytes_cons (U : UserSpace) (e : iovec_s_t) (fs : List iovec_s_t) :
    frame_bytes U (e :: fs) = (U.data e.iov_grant).take e.iov_size ++ frame_bytes U fs := by
  simp [frame_bytes]

theorem frame_bytes_of_sum_zero (U : UserSpace) :
    ∀ fs : List iovec_s_t, sum_sizes fs = 0 → frame_bytes U fs = [] := by
  intro fs
  induction fs with
  | nil => intro _; rfl
  | cons e fs ih =>
    intro h
    rw [sum_sizes_cons] at h
    rw [frame_bytes_cons, ih (by omega), show e.iov_size = 0 by omega]
    simp

theorem frame_bytes_length (U : UserSpace) :
    ∀ fs : List iovec_s_t, (∀ e, e ∈ fs → e.iov_size ≤ (U.data e.iov_grant).length) →
      (frame_bytes U fs).length = sum_sizes fs := by
  intro fs
  induction fs with
  | nil => intro _; rfl
  | cons e fs ih =>
    intro h
    rw [frame_bytes_cons, sum_sizes_cons, List.length_append, List.length_take,
      ih (fun x hx => h x (List.mem_cons_of_mem e hx)),
      Nat.min_eq_left (h e (List.mem_cons_self e fs))]

theorem splice_splice (buf d1 d2 : List Nat) (off : Nat)
    (h : off + d1.length + d2.length ≤ buf.length) :
    (buf.take off ++ d1 ++ buf.drop (off + d1.length)).take (off + d1.length) ++ d2 ++
      (buf.take off ++ d1 ++ buf.drop (off + d1.length)).drop (off + d1.length + d2.length) =
    buf.take off ++ (d1 ++ d2) ++ buf.drop (off + (d1.length + d2.length)) := by
  have hA : (buf.take off ++ d1).length = off + d1.length := by
    simp only [List.length_append, List.length_take]; omega
  rw [List.take_left' hA]
  have : off + d1.length + d2.length = (buf.take off ++ d1).length + d2.length := by omega
  rw [this, List.drop_append, List.drop_drop]
  simp only [List.append_assoc]
  congr 4
  omega

theorem vwrite_bytes_eq (a s : Nat) (h : a + s < 2147483648) :
    (if toInt32 (a : Int) ≥ ((a + s : Nat) : Int) then ((a + s : Nat) : Int)
      else toInt32 (a : Int)) = (a : Int) := by
  rw [toInt32_of_lt _ (Int.ofNat_nonneg _) (by omega)]
  split
  · omega
  · rfl

/-- The copy loop of `do_vwrite_s` on a vector that is wholly in the local
array and does not fill it: the bytes of the entries from `ix` on are stored
one after the other from `off` on. -/
theorem vwrite_copy_fits (cfg : Config) (U : UserSpace) (iovp : iovec_dat_s_t) :
    ∀ (l pre rest : List iovec_s_t) (fuel off : Nat) (buf : List Nat),
      iovp.iod_iovec = pre ++ l ++ rest →
      pre.length + l.length < cfg.IOVEC_NR →
      l.length ≤ fuel → 0 < sum_sizes l → sum_sizes l < 2147483648 →
      (∀ e, e ∈ l → e.iov_size ≤ (U.data e.iov_grant).length) →
      off + sum_sizes l ≤ buf.length →
      vwrite_copy cfg U fuel iovp pre.length (sum_sizes l : Int) off buf =
        ⟨none, iovp, buf.take off ++ frame_bytes U l ++ buf.drop (off + sum_sizes l)⟩ := by
  intro l
  induction l with
  | nil => intro pre rest fuel off buf _ _ _ h; simp [sum_sizes] at h
  | cons e fs ih =>
    intro pre rest fuel off buf hv hn hf hpos hlt hcap hbuf
    obtain ⟨fuel, rfl⟩ : ∃ k, fuel = k + 1 := ⟨fuel - 1, by simp at hf; omega⟩
    have hget : iovp.iod_iovec[pre.length]? = some e := by
      rw [hv, List.append_assoc]; exact getElem?_pre_cons _ _ _
    rw [sum_sizes_cons] at hpos hlt hbuf ⊢
    have he := hcap e (List.mem_cons_self e fs)
    have hb0 : toInt32 (e.iov_size : Int) = e.iov_size := toInt32_of_lt _ (by omega) (by omega)
    have hsz : toInt32 (((e.iov_size + sum_sizes fs : Nat) : Int) - (e.iov_size : Int)) =
        (sum_sizes fs : Int) := by
      have h : ((e.iov_size + sum_sizes fs : Nat) : Int) - (e.iov_size : Int) =
          (sum_sizes fs : Int) := by
        push_cast; ring
      rw [h]
      exact toInt32_of_lt _ (Int.ofNat_nonneg _)
        (by exact_mod_cast (show sum_sizes fs < 2147483648 by omega))
    have hlen : toU32 (e.iov_size : Int) = e.iov_size := toU32_of_lt _ (by omega)
    simp only [List.length_cons] at hn hf
    simp only [vwrite_copy, hget, vwrite_bytes_eq e.iov_size (sum_sizes fs) hlt, hsz, hlen]
    rw [if_pos he, if_pos (by omega), if_neg (by omega)]
    have hdl : ((U.data e.iov_grant).take e.iov_size).length = e.iov_size := by
      rw [List.length_take]; omega
    by_cases hrest : 0 < sum_sizes fs
    · rw [if_pos (by omega)]
      have := ih (pre ++ [e]) rest fuel (off + e.iov_size)
        (buf.take off ++ (U.data e.iov_grant).take e.iov_size ++ buf.drop (off + e.iov_size))
        (by rw [hv]; simp)
        (by simp only [List.length_append, List.length_singleton]; omega) (by omega) hrest
        (by omega) (fun x hx => hcap x (List.mem_cons_of_mem e hx))
        (by simp only [List.length_append, List.length_take, List.length_drop]; omega)
      simp only [List.length_append, List.length_singleton] at this
      rw [this, frame_bytes_cons]
      refine congrArg (CopyOut.mk none iovp) ?_
      have hs := splice_splice buf ((U.data e.iov_grant).take e.iov_size) (frame_bytes U fs) off
        (by rw [hdl, frame_bytes_length U fs (fun x hx => hcap x (List.mem_cons_of_mem e hx))]
            omega)
      rw [hdl, frame_bytes_length U fs (fun x hx => hcap x (List.mem_cons_of_mem e hx))] at hs
      exact hs
    · have h0 : sum_sizes fs = 0 := by omega
      rw [if_neg (by omega), frame_bytes_cons, frame_bytes_of_sum_zero U fs h0, h0]
      simp

/-! ### Transmit engine -/

/-- A submission that finds the descriptor under the transmit cursor owned by
the driver, with a frame of valid size that fits the descriptor's buffer: the
frame is placed and the function ends through `vwrite_finish`. -/
theorem do_vwrite_s_places (cfg : Config) (U : UserSpace) (snd : SendStatus) (dep : dpeth_t)
    (mp : message) (fs : List iovec_s_t) (from_int : Bool) (descr : de_loc_descr_t)
    (hR : Request cfg U mp fs) (hmode : dep.de_mode = .DEM_ENABLED)
    (hbusy : from_int = false → dep.de_flags.DEF_SENDING = false)
    (hcur : dep.descr_tran[dep.cur_tran]? = some descr)
    (hown : descr.descr.des0 &&& DES0_OWN = 0)
    (hmin : 60 ≤ sum_sizes fs) (hmax : sum_sizes fs ≤ 1514)
    (hbuf : sum_sizes fs ≤ descr.buf1.length) :
    do_vwrite_s cfg U snd dep mp from_int =
      vwrite_finish snd (placed cfg U dep mp fs descr) from_int := by
  have hR' := hR
  obtain ⟨hp0, hp1, hU, hc, h1, hn, hN, hcap, hsum⟩ := hR
  have hport : ¬ (mp.DL_PORT < 0 ∨ mp.DL_PORT ≥ (cfg.DE_PORT_NR : Int)) := by omega
  have hb : (!from_int && dep.de_flags.DEF_SENDING) = false := by
    cases from_int with
    | false => simp [hbusy rfl]
    | true => rfl
  have hget : de_get_userdata_s cfg U mp.DL_GRANT 0 mp.DL_COUNT dep.de_write_iovec.iod_iovec =
      some (fs ++ dep.de_write_iovec.iod_iovec.drop fs.length) := by
    rw [hc]; exact de_get_userdata_s_fits cfg U _ _ fs _ hU hn hN
  have hcalc := de_calc_iov_size_fits cfg U mp fs dep.de_write_iovec hR'
  have hcopy := vwrite_copy_fits cfg U (loaded_iovec mp fs dep.de_write_iovec) fs []
    (dep.de_write_iovec.iod_iovec.drop fs.length) (copy_fuel cfg mp) 0 descr.buf1
    (by simp [loaded_iovec]) (by simpa using hn)
    (by simp only [copy_fuel, hc, Int.toNat_ofNat]; omega) (by omega) hsum hcap (by omega)
  simp only [List.length_nil, List.take_zero, List.nil_append, Nat.zero_add] at hcopy
  have hsz : ¬ ((sum_sizes fs : Int) < ETH_MIN_PACK_SIZE ∨
      (sum_sizes fs : Int) > ETH_MAX_PACK_SIZE) := by
    simp only [ETH_MIN_PACK_SIZE, ETH_MAX_PACK_SIZE]; omega
  unfold do_vwrite_s placed
  simp only [hport, if_false, hmode, if_true, hb, Bool.false_eq_true, hcur, hown, ne_eq,
    not_true_eq_false]
  simp only [loaded_iovec] at hcalc hcopy
  by_cases hs : (!dep.setupDone && decide (dep.cur_tran = 0)) = true
  · simp only [hs, if_true, hget, hcalc, hsz, if_false, hcopy, List.set_set, Int.toNat_ofNat,
      placed, loaded_iovec]
  · simp only [hs, if_false, hget, hcalc, hsz, hcopy, List.set_set, Int.toNat_ofNat,
      placed, loaded_iovec, Bool.false_eq_true]

theorem pokes_ok : ∀ (st : List (Nat × Nat)) (buf : List Nat),
    (∀ p, p ∈ st → p.1 < buf.length) → ∃ b, pokes buf st = some b ∧ b.length = buf.length := by
  intro st
  induction st with
  | nil => intro buf _; exact ⟨buf, rfl, rfl⟩
  | cons p st ih =>
    intro buf h
    obtain ⟨k, v⟩ := p
    have hk : k < buf.length := h (k, v) (List.mem_cons_self _ _)
    obtain ⟨b, hb, hbl⟩ := ih (buf.set k v) (fun q hq => by
      rw [List.length_set]; exact h q (List.mem_cons_of_mem _ hq))
    refine ⟨b, ?_, by rw [hbl, List.length_set]⟩
    simp only [pokes, hk, if_true]
    exact hb

theorem setup_frame_stores_lt (ea : List Nat) :
    ∀ p, p ∈ setup_frame_stores ea → p.1 < 192 := by
  intro p hp
  simp only [setup_frame_stores, List.mem_append, List.mem_cons, List.mem_singleton,
    List.not_mem_nil, or_false, List.mem_flatMap, List.mem_range, List.mem_map] at hp
  rcases hp with h | ⟨t, ht, h⟩
  · rcases h with h | h | h | h | h | h <;> (rw [h]; norm_num)
  · rcases h with ⟨k, hk, h⟩ | h | h | h | h | h | h
    · rw [← h]; simp only; omega
    all_goals (rw [h]; simp only; omega)

/-- A submission that finds the descriptor under the transmit cursor owned by
the controller while no transmit is pending: the request is stored and
`DEF_SENDING` set, nothing else of the ring changes. -/
theorem do_vwrite_s_suspends (cfg : Config) (U : UserSpace) (snd : SendStatus) (dep : dpeth_t)
    (mp : message) (descr : de_loc_descr_t)
    (hp0 : 0 ≤ mp.DL_PORT) (hp1 : mp.DL_PORT < cfg.DE_PORT_NR)
    (hmode : dep.de_mode = .DEM_ENABLED) (hbusy : dep.de_flags.DEF_SENDING = false)
    (hcur : dep.descr_tran[dep.cur_tran]? = some descr)
    (hown : descr.descr.des0 &&& DES0_OWN ≠ 0) :
    do_vwrite_s cfg U snd dep mp false =
      do_reply snd { dep with
        de_client := mp.DL_PROC
        de_stat := { dep.de_stat with
                   ets_transDef := wrap32 (wrap32 (dep.de_stat.ets_transDef + 1) + 1) }
        de_flags := { dep.de_flags with DEF_SENDING := true }
        tx_return_msg := mp } false := by
  have hport : ¬ (mp.DL_PORT < 0 ∨ mp.DL_PORT ≥ (cfg.DE_PORT_NR : Int)) := by omega
  unfold do_vwrite_s
  simp only [hport, if_false, hmode, if_true, hbusy, Bool.and_false, Bool.false_eq_true, hcur,
    hown, ne_eq, not_false_eq_true, vwrite_suspend]

/-- After the initialisation of `do_conf` the transmit side is in the state
"no frame submitted": cursor 1, slot 0 handed to the controller with the
setup frame, every other slot free; the byte counters are zero. -/
theorem do_conf_init_spec (cfg : Config) (E : InitEnv) (csr6 : Nat) (dep : dpeth_t)
    (hE : InitEnvOk E) (hmode : dep.de_mode = .DEM_ENABLED)
    (hflags : dep.de_flags = DEF_EMPTY)
    (hC : 2 ≤ cfg.DE_NB_SEND_DESCR) (hbuf : 1514 ≤ cfg.DE_SEND_BUF_SIZE) :
    ∃ d1, do_conf_init cfg E csr6 dep = .ok d1 ∧ TxState cfg 0 d1 ∧
      d1.bytes_tx = 0 ∧ d1.bytes_rx = 0 ∧ d1.de_stat = dep.de_stat ∧
      d1.de_flags.DEF_READING = dep.de_flags.DEF_READING ∧
      d1.cur_recv = 0 ∧ d1.descr_recv.length = cfg.DE_NB_RECV_DESCR ∧
      (∀ (m : Nat) (x : de_loc_descr_t), d1.descr_recv[m]? = some x →
        x.descr.des0 = DES0_OWN ∧ x.buf1.length = cfg.DE_RECV_BUF_SIZE) ∧
      d1.de_read_iovec = dep.de_read_iovec ∧ d1.de_write_iovec = dep.de_write_iovec ∧
      d1.copied_out = dep.copied_out ∧ d1.replies = dep.replies ∧
      d1.de_read_s = dep.de_read_s ∧ d1.de_flags.DEF_ACK_RECV = dep.de_flags.DEF_ACK_RECV := by
  obtain ⟨rx, tx, prx, ptx, hrun, hrl, htl, hrall, htall⟩ := de_first_init_spec cfg E dep hE
  obtain ⟨x0, hx0⟩ : ∃ x, tx[0]? = some x :=
    ⟨tx[0], List.getElem?_eq_getElem (by omega)⟩
  obtain ⟨_, _, hx0l⟩ := htall 0 x0 hx0
  obtain ⟨b, hb, hbl⟩ := pokes_ok (setup_frame_stores dep.de_address) x0.buf1
    (fun p hp => Nat.lt_of_lt_of_le (setup_frame_stores_lt _ p hp) (by omega))
  refine ⟨(do_conf_init cfg E csr6 dep).dep, ?_, ?_, ?_⟩
  · simp only [do_conf_init, hrun, de_setup_frame, hx0, hb, Res.dep]
  · simp only [do_conf_init, hrun, de_setup_frame, hx0, hb, Res.dep]
    refine ⟨hmode, by rw [hflags]; rfl, by rw [hflags]; rfl, ?_, ?_, ?_, ?_⟩
    · show 1 = if 0 + 1 < cfg.DE_NB_SEND_DESCR then 0 + 1 else 0
      rw [if_pos (by omega)]
    · show (tx.set 0 _).length = _
      rw [List.length_set, htl]
    · refine ⟨{ descr := { x0.descr with
                            des0 := DES0_OWN
                            des1 := DES1_SET ||| DE_SETUP_FRAME_SIZE ||| DES1_IC }
                buf1 := b }, ?_, ?_, ?_⟩
      · show (tx.set 0 _)[0]? = some _
        rw [List.getElem?_set_self (by omega)]
      · show DES0_OWN &&& DES0_OWN ≠ 0
        decide
      · show 1514 ≤ b.length
        rw [hbl, hx0l]; exact hbuf
    · intro j hj hjC
      obtain ⟨x, hx⟩ : ∃ x, tx[j]? = some x :=
        ⟨tx[j], List.getElem?_eq_getElem (by omega)⟩
      refine ⟨x, ?_, ?_, ?_⟩
      · show (tx.set 0 _)[j]? = some x
        rw [List.getElem?_set_ne (by omega), hx]
      · rw [(htall j x hx).1]; rfl
      · rw [(htall j x hx).2.2]; exact hbuf
  · simp only [do_conf_init, hrun, de_setup_frame, hx0, hb, Res.dep, true_and, and_true]
    refine ⟨hrl, ?_⟩
    intro m x hx
    exact ⟨(hrall m x hx).1, (hrall m x hx).2.2⟩

/-- One immediate submission: with `k` frames submitted and a free slot left,
`do_vwrite_s(mp, FALSE)` returns with the frame in slot `k + 1`, that slot
handed to the controller, the cursor advanced, the counters updated and no
transmit pending. -/
theorem do_vwrite_s_step (cfg : Config) (U : UserSpace) (d : dpeth_t) (k : Nat)
    (mp : message) (fs : List iovec_s_t)
    (hT : TxState cfg k d) (hk : k + 1 < cfg.DE_NB_SEND_DESCR)
    (hR : Request cfg U mp fs) (hmin : 60 ≤ sum_sizes fs) (hmax : sum_sizes fs ≤ 1514) :
    ∃ d2, do_vwrite_s cfg U .OK d mp false = .ok d2 ∧ TxState cfg (k + 1) d2 ∧
      (∃ x, d2.descr_tran[k + 1]? = some x ∧ x.descr.des0 = DES0_OWN ∧
        x.buf1.take (sum_sizes fs) = frame_bytes U fs) ∧
      d2.bytes_tx = wrap32 (d.bytes_tx + sum_sizes fs) ∧
      d2.de_stat.ets_packetT = wrap32 (d.de_stat.ets_packetT + 1) ∧
      d2.de_flags.DEF_ACK_SEND = false ∧
      d2.replies = d.replies ++ [⟨true, d.de_flags.DEF_ACK_RECV, d.de_read_s⟩] ∧
      d2.tx_return_msg = d.tx_return_msg := by
  obtain ⟨hmode, hsend, hack, hcur, hlen, h0, hfree⟩ := hT
  rw [if_pos hk] at hcur
  obtain ⟨x, hx, hxown, hxlen⟩ := hfree (k + 1) (by omega) hk
  have hR' := hR
  obtain ⟨_, _, _, _, _, _, _, hcap, _⟩ := hR'
  have hrun := do_vwrite_s_places cfg U .OK d mp fs false x hR hmode (fun _ => hsend)
    (by rw [hcur]; exact hx) hxown hmin hmax (by omega)
  refine ⟨(vwrite_finish .OK (placed cfg U d mp fs x) false).dep, by rw [hrun]; rfl,
    ⟨hmode, hsend, rfl, ?_, ?_, ?_, ?_⟩, ?_, rfl, rfl, rfl, rfl, rfl⟩
  · show advance cfg.DE_NB_SEND_DESCR d.cur_tran = _
    rw [hcur, advance]
    by_cases h : k + 1 + 1 < cfg.DE_NB_SEND_DESCR
    · rw [if_neg (by omega), if_pos h]
    · rw [if_pos (by omega), if_neg h]
  · show (d.descr_tran.set d.cur_tran _).length = _
    rw [List.length_set, hlen]
  · obtain ⟨x0, hx0, hx0own⟩ := h0
    refine ⟨x0, ?_, hx0own⟩
    show (d.descr_tran.set d.cur_tran _)[0]? = some x0
    rw [hcur, List.getElem?_set_ne (by omega), hx0]
  · intro j hj hjC
    obtain ⟨y, hy, hyown, hylen⟩ := hfree j (by omega) hjC
    refine ⟨y, ?_, hyown, hylen⟩
    show (d.descr_tran.set d.cur_tran _)[j]? = some y
    rw [hcur, List.getElem?_set_ne (by omega), hy]
  · refine ⟨{ descr := { x.descr with
                          des0 := DES0_OWN
                          des1 := (x.descr.des1 &&& DES1_ER) ||| DES1_FS ||| DES1_LS |||
                                  DES1_IC ||| sum_sizes fs }
              buf1 := frame_bytes U fs ++ x.buf1.drop (sum_sizes fs) }, ?_, rfl, ?_⟩
    · show (d.descr_tran.set d.cur_tran _)[k + 1]? = some _
      rw [hcur, List.getElem?_set_self (by omega)]
    · show (frame_bytes U fs ++ x.buf1.drop (sum_sizes fs)).take (sum_sizes fs) = _
      rw [List.take_left' (frame_bytes_length U fs hcap)]

theorem submit_all_spec (cfg : Config) (U : UserSpace) :
    ∀ (reqs : List (message × List iovec_s_t)) (k : Nat) (d : dpeth_t),
      TxState cfg k d → k + reqs.length < cfg.DE_NB_SEND_DESCR →
      (∀ r, r ∈ reqs → Request cfg U r.1 r.2 ∧ 60 ≤ sum_sizes r.2 ∧ sum_sizes r.2 ≤ 1514) →
      ∃ d2, submit_all cfg U (reqs.map Prod.fst) d = .ok d2 ∧
        TxState cfg (k + reqs.length) d2 ∧
        d2.tx_return_msg = d.tx_return_msg := by
  intro reqs
  induction reqs with
  | nil =>
    intro k d hT _ _
    exact ⟨d, rfl, hT, rfl⟩
  | cons r reqs ih =>
    intro k d hT hk hall
    simp only [List.length_cons] at hk
    obtain ⟨hR, hmin, hmax⟩ := hall r (List.mem_cons_self _ _)
    obtain ⟨d1, hrun, hT1, _, _, _, _, _, htx⟩ :=
      do_vwrite_s_step cfg U d k r.1 r.2 hT (by omega) hR hmin hmax
    obtain ⟨d2, hrun2, hT2, htx2⟩ := ih (k + 1) d1 hT1 (by omega)
      (fun q hq => hall q (List.mem_cons_of_mem _ hq))
    refine ⟨d2, ?_, ?_, ?_⟩
    · simp only [List.map_cons, submit_all, hrun, Res.andThen]
      exact hrun2
    · rw [List.length_cons, show k + (reqs.length + 1) = k + 1 + reqs.length by omega]
      exact hT2
    · rw [htx2, htx]

/-- A submission on a used-up ring: with all slots but slot 0 filled and
nothing released, `do_vwrite_s(mp, FALSE)` stores the request, sets
`DEF_SENDING`, answers without `DL_PACK_SEND` and leaves ring, cursor and
counters as they are. -/
theorem do_vwrite_s_pending (cfg : Config) (U : UserSpace) (d : dpeth_t) (k : Nat)
    (mp : message) (hT : TxState cfg k d) (hk : k + 1 = cfg.DE_NB_SEND_DESCR)
    (hp0 : 0 ≤ mp.DL_PORT) (hp1 : mp.DL_PORT < cfg.DE_PORT_NR) :
    ∃ d2, do_vwrite_s cfg U .OK d mp false = .ok d2 ∧
      d2.de_flags.DEF_SENDING = true ∧ d2.tx_return_msg = mp ∧
      d2.descr_tran = d.descr_tran ∧ d2.cur_tran = d.cur_tran ∧
      d2.bytes_tx = d.bytes_tx ∧ d2.de_stat.ets_packetT = d.de_stat.ets_packetT ∧
      d2.replies = d.replies ++ [⟨false, d.de_flags.DEF_ACK_RECV, d.de_read_s⟩] := by
  obtain ⟨hmode, hsend, hack, hcur, hlen, ⟨x0, hx0, hx0own, _⟩, _⟩ := hT
  rw [if_neg (by omega)] at hcur
  have hrun := do_vwrite_s_suspends cfg U .OK d mp x0 hp0 hp1 hmode hsend
    (by rw [hcur]; exact hx0) hx0own
  refine ⟨(do_vwrite_s cfg U .OK d mp false).dep, ?_, ?_⟩
  · rw [hrun]; rfl
  · rw [hrun]
    simp only [do_reply, Res.dep, hack, true_and]

theorem sample_request (cfg : Config) (h1 : 1 ≤ cfg.DE_PORT_NR) (h2 : 2 ≤ cfg.IOVEC_NR)
    (h3 : cfg.IOVEC_NR ≤ 268435456) : Request cfg sampleUser msg64 [⟨10, 64⟩] := by
  refine ⟨by decide, ?_, rfl, rfl, by decide, ?_, h3, ?_, by decide⟩
  · show (0 : Int) < cfg.DE_PORT_NR
    omega
  · show 1 < cfg.IOVEC_NR
    omega
  · intro e he
    simp only [List.mem_singleton] at he
    subst he
    show 64 ≤ (List.replicate 64 0xAB).length
    rw [List.length_replicate]

/-- C1, as stated, fails for N below C - 1: on a transmit ring of three slots
the very first submission after initialisation (N = 0) is not answered
"pending"; it returns with `DEF_SENDING` clear and the frame in slot 1. -/
theorem first_submission_not_pending :
    ∃ d1 d2, do_conf_init cfg23 sampleInitEnv 0 (freshDep cfg23 []) = .ok d1 ∧
      do_vwrite_s cfg23 sampleUser .OK d1 msg64 false = .ok d2 ∧
      d2.de_flags.DEF_SENDING = false ∧
      ∃ x, d2.descr_tran[1]? = some x ∧ x.descr.des0 = DES0_OWN := by
  obtain ⟨d1, h1, hT, _⟩ := do_conf_init_spec cfg23 sampleInitEnv 0 (freshDep cfg23 [])
    sampleInitEnv_ok rfl rfl (by decide) (by decide)
  obtain ⟨d2, h2, hT2, ⟨x, hx, hxo, _⟩, _⟩ := do_vwrite_s_step cfg23 sampleUser d1 0 msg64
    [⟨10, 64⟩] hT (by decide) (sample_request cfg23 (by decide) (by decide) (by decide))
    (by decide) (by decide)
  exact ⟨d1, d2, h1, h2, hT2.2.1, x, hx, hxo⟩

/-- C1, amended. For every transmit ring of C >= 2 slots: after the
initialisation of `do_conf` (`de_first_init`, then `de_setup_frame`), with
every reply sent successfully and nothing released by the controller, each of
the first C - 1 submissions `do_vwrite_s(mp, FALSE)` of a frame of valid size
(given as fewer than `IOVEC_NR` entries) returns with `DEF_SENDING` clear and
the frame placed in the ring (submission number k in slot k + 1, handed to
the controller), and the C-th submission returns with `DEF_SENDING` set, the
request stored in `tx_return_msg`, a reply without `DL_PACK_SEND`, and ring
and cursor untouched. -/
theorem transmit_ring_fills (cfg : Config) (E : InitEnv) (csr6 : Nat) (U : UserSpace)
    (dep : dpeth_t) (reqs : List (message × List iovec_s_t)) (last : message)
    (hE : InitEnvOk E) (hmode : dep.de_mode = .DEM_ENABLED) (hflags : dep.de_flags = DEF_EMPTY)
    (hC : 2 ≤ cfg.DE_NB_SEND_DESCR) (hbuf : 1514 ≤ cfg.DE_SEND_BUF_SIZE)
    (hlen : reqs.length + 1 = cfg.DE_NB_SEND_DESCR)
    (hreq : ∀ r, r ∈ reqs → Request cfg U r.1 r.2 ∧ 60 ≤ sum_sizes r.2 ∧ sum_sizes r.2 ≤ 1514)
    (hp0 : 0 ≤ last.DL_PORT) (hp1 : last.DL_PORT < cfg.DE_PORT_NR) :
    ∃ d1, do_conf_init cfg E csr6 dep = .ok d1 ∧
      (∀ (k : Nat) (hk : k < reqs.length), ∃ dk dk2,
        submit_all cfg U ((reqs.take k).map Prod.fst) d1 = .ok dk ∧
        do_vwrite_s cfg U .OK dk (reqs[k]).1 false = .ok dk2 ∧
        dk2.de_flags.DEF_SENDING = false ∧
        dk2.replies = dk.replies ++ [⟨true, dk.de_flags.DEF_ACK_RECV, dk.de_read_s⟩] ∧
        ∃ x, dk2.descr_tran[k + 1]? = some x ∧ x.descr.des0 = DES0_OWN ∧
          x.buf1.take (sum_sizes (reqs[k]).2) = frame_bytes U (reqs[k]).2) ∧
      ∃ dC dP, submit_all cfg U (reqs.map Prod.fst) d1 = .ok dC ∧
        do_vwrite_s cfg U .OK dC last false = .ok dP ∧
        dP.de_flags.DEF_SENDING = true ∧ dP.tx_return_msg = last ∧
        dP.replies = dC.replies ++ [⟨false, dC.de_flags.DEF_ACK_RECV, dC.de_read_s⟩] ∧
        dP.descr_tran = dC.descr_tran ∧ dP.cur_tran = dC.cur_tran := by
  obtain ⟨d1, h1, hT, _⟩ := do_conf_init_spec cfg E csr6 dep hE hmode hflags hC hbuf
  refine ⟨d1, h1, ?_, ?_⟩
  · intro k hk
    obtain ⟨dk, hdk, hTk, _⟩ := submit_all_spec cfg U (reqs.take k) 0 d1 hT
      (by rw [List.length_take]; omega) (fun r hr => hreq r (List.mem_of_mem_take hr))
    have hkl : (reqs.take k).length = k := by rw [List.length_take]; omega
    rw [hkl, Nat.zero_add] at hTk
    obtain ⟨hR, hmin, hmax⟩ := hreq reqs[k] (List.getElem_mem _)
    obtain ⟨dk2, hrun, hT2, hx, _, _, _, hrep, _⟩ :=
      do_vwrite_s_step cfg U dk k (reqs[k]).1 (reqs[k]).2 hTk (by omega) hR hmin hmax
    exact ⟨dk, dk2, hdk, hrun, hT2.2.1, hrep, hx⟩
  · obtain ⟨dC, hdC, hTC, _⟩ := submit_all_spec cfg U reqs 0 d1 hT (by omega) hreq
    rw [Nat.zero_add] at hTC
    obtain ⟨dP, hrun, hs, hm, hd, hc, _, _, hrep⟩ :=
      do_vwrite_s_pending cfg U dC reqs.length last hTC hlen hp0 hp1
    exact ⟨dC, dP, hdC, hrun, hs, hm, hrep, hd, hc⟩

/-- A run of the amended C1 on a ring of two transmit slots: the first
submission of a 64-byte frame is immediate, the second is pending. -/
theorem transmit_ring_fills_witness :
    ∃ d1 dC dP, do_conf_init cfg22 sampleInitEnv 0 (freshDep cfg22 []) = .ok d1 ∧
      submit_all cfg22 sampleUser [msg64] d1 = .ok dC ∧
      dC.de_flags.DEF_SENDING = false ∧
      do_vwrite_s cfg22 sampleUser .OK dC msg64 false = .ok dP ∧
      dP.de_flags.DEF_SENDING = true ∧ dP.tx_return_msg = msg64 := by
  obtain ⟨d1, h1, hk, dC, dP, hC, hP, hs, hm, _⟩ :=
    transmit_ring_fills cfg22 sampleInitEnv 0 sampleUser (freshDep cfg22 [])
      [(msg64, [⟨10, 64⟩])] msg64 sampleInitEnv_ok rfl rfl (by decide) (by decide) rfl
      (fun r hr => by
        simp only [List.mem_singleton] at hr
        subst hr
        exact ⟨sample_request cfg22 (by decide) (by decide) (by decide), by decide, by decide⟩)
      (by decide) (by decide)
  obtain ⟨dk, dk2, hdk, hrun, hsend, _⟩ := hk 0 (by decide)
  have hd : dk = d1 := by
    simp only [List.take_zero, List.map_nil, submit_all, Res.ok.injEq] at hdk
    exact hdk.symm
  subst hd
  have hC2 : dC = dk2 := by
    simp only [List.map_cons, List.map_nil, submit_all, Res.andThen] at hC
    simp only [List.getElem_cons_zero] at hrun
    rw [hrun] at hC
    simp only [Res.ok.injEq] at hC
    exact hC.symm
  subst hC2
  exact ⟨dk, dC, dP, h1, by simp only [List.map_cons, List.map_nil] at hC; exact hC, hsend,
    hP, hs, hm⟩

theorem release_slot_self (j st : Nat) (l : List de_loc_descr_t) (x : de_loc_descr_t)
    (h : l[j]? = some x) :
    (release_slot j st l)[j]? = some { x with descr := { x.descr with des0 := st } } := by
  have hj : j < l.length := by
    rcases Nat.lt_or_ge j l.length with h1 | h1
    · exact h1
    · rw [List.getElem?_eq_none h1] at h; cases h
  simp only [release_slot, h]
  rw [List.getElem?_set_self hj]

theorem release_slot_other (i j st : Nat) (l : List de_loc_descr_t) (h : j ≠ i) :
    (release_slot j st l)[i]? = l[i]? := by
  unfold release_slot
  split
  · rfl
  · rw [List.getElem?_set_ne h]

/-- A submission while a transmit is pending stops the driver; only
`de_client` has been assigned by then. -/
theorem do_vwrite_s_busy (cfg : Config) (U : UserSpace) (snd : SendStatus) (dep : dpeth_t)
    (mp : message) (hmode : dep.de_mode = .DEM_ENABLED)
    (hsend : dep.de_flags.DEF_SENDING = true) :
    do_vwrite_s cfg U snd dep mp false =
      if mp.DL_PORT < 0 ∨ mp.DL_PORT ≥ (cfg.DE_PORT_NR : Int) then .fatal .port dep
      else .fatal .busy { dep with de_client := mp.DL_PROC } := by
  unfold do_vwrite_s
  split
  · rfl
  · simp only [hmode, if_true, hsend, Bool.not_false, Bool.and_self]

/-- The dispatcher completing a pending transmit: with the abnormal-summary
bit clear, the transmit-complete bit set, no receive to complete and the
descriptor under the transmit cursor back with the driver, `do_interrupt`
places the stored frame, sets `DEF_ACK_SEND`, clears `DEF_SENDING` and
acknowledges the interrupt. -/
theorem do_interrupt_completes_tx (cfg : Config) (U : UserSpace) (snd : SendStatus)
    (val : Nat) (d : dpeth_t) (fs : List iovec_s_t) (x : de_loc_descr_t)
    (hais : val &&& CSR5_AIS = 0) (hti : val &&& CSR5_TI ≠ 0)
    (hmode : d.de_mode = .DEM_ENABLED) (hread : d.de_flags.DEF_READING = false)
    (hsend : d.de_flags.DEF_SENDING = true)
    (hR : Request cfg U d.tx_return_msg fs)
    (hcur : d.descr_tran[d.cur_tran]? = some x) (hown : x.descr.des0 &&& DES0_OWN = 0)
    (hmin : 60 ≤ sum_sizes fs) (hmax : sum_sizes fs ≤ 1514)
    (hbuf : sum_sizes fs ≤ x.buf1.length) :
    do_interrupt cfg U snd val d =
      .ok { placed cfg U { d with iolog := d.iolog ++ [.inp .CSR5 val] } d.tx_return_msg fs x with
            de_flags := { d.de_flags with DEF_ACK_SEND := true, DEF_SENDING := false }
            iolog := d.iolog ++ [.inp .CSR5 val, .out .CSR1 0xFFFFFFFF, .out .CSR5 0xFFFFFFFF] } := by
  have hrun := do_vwrite_s_places cfg U snd { d with iolog := d.iolog ++ [.inp .CSR5 val] }
    d.tx_return_msg fs true x hR hmode (fun h => by cases h) hcur hown hmin hmax hbuf
  unfold do_interrupt
  simp only [hais, ne_eq, not_true_eq_false, if_false, hread, Bool.false_eq_true, false_and,
    Res.andThen, hsend, hti, not_false_eq_true, and_self, if_true, hrun, vwrite_finish, placed,
    List.append_assoc, List.singleton_append, List.cons_append, List.nil_append]

/-- C2, amended. On a device initialised with two receive and two transmit
descriptors (flags empty and packet counter zero before, every `sys_umap`
call succeeding), with three frames of 64 bytes, each passed as at least one
and fewer than `IOVEC_NR` fragments covered by their grants, and every reply
sent successfully: the first submission is immediate; once the controller
has released slot 0 (the setup frame) the second is immediate too; the third
is pending; and once the controller has released the slot under the cursor,
one `do_interrupt` with the transmit-complete bit set and the
abnormal-summary bit clear completes the third transmit (`DEF_SENDING`
clear, `DEF_ACK_SEND` set) and leaves `ets_packetT = 3` and
`bytes_tx = 192`. -/
theorem scenario_three_transmits (cfg : Config) (E : InitEnv) (csr6 : Nat) (U : UserSpace)
    (dep : dpeth_t) (m1 m2 m3 : message) (fs1 fs2 fs3 : List iovec_s_t) (st0 st1 val : Nat)
    (hE : InitEnvOk E) (hmode : dep.de_mode = .DEM_ENABLED) (hflags : dep.de_flags = DEF_EMPTY)
    (hstat : dep.de_stat.ets_packetT = 0)
    (hrx : cfg.DE_NB_RECV_DESCR = 2) (htx : cfg.DE_NB_SEND_DESCR = 2)
    (hbuf : 1514 ≤ cfg.DE_SEND_BUF_SIZE)
    (h1 : Request cfg U m1 fs1) (s1 : sum_sizes fs1 = 64)
    (h2 : Request cfg U m2 fs2) (s2 : sum_sizes fs2 = 64)
    (h3 : Request cfg U m3 fs3) (s3 : sum_sizes fs3 = 64)
    (hst0 : st0 &&& DES0_OWN = 0) (hst1 : st1 &&& DES0_OWN = 0)
    (hais : val &&& CSR5_AIS = 0) (hti : val &&& CSR5_TI ≠ 0) :
    ∃ d1 d2 d3 d4 d5,
      do_conf_init cfg E csr6 dep = .ok d1 ∧
      do_vwrite_s cfg U .OK d1 m1 false = .ok d2 ∧ d2.de_flags.DEF_SENDING = false ∧
      do_vwrite_s cfg U .OK (nic_release_tran 0 st0 d2) m2 false = .ok d3 ∧
      d3.de_flags.DEF_SENDING = false ∧
      do_vwrite_s cfg U .OK d3 m3 false = .ok d4 ∧
      d4.de_flags.DEF_SENDING = true ∧ d4.tx_return_msg = m3 ∧
      do_interrupt cfg U .OK val (nic_release_tran 1 st1 d4) = .ok d5 ∧
      d5.de_flags.DEF_SENDING = false ∧ d5.de_flags.DEF_ACK_SEND = true ∧
      d5.de_stat.ets_packetT = 3 ∧ d5.bytes_tx = 192 := by
  obtain ⟨d1, hd1, hT, hb1, _, hs1, hr1, _⟩ :=
    do_conf_init_spec cfg E csr6 dep hE hmode hflags (by omega) hbuf
  obtain ⟨hm1, hsd1, hak1, hc1, hl1, ⟨x0, hx0, hx0o, hx0l⟩, hfree⟩ := hT
  rw [if_pos (by omega), Nat.zero_add] at hc1
  obtain ⟨x1, hx1, hx1o, hx1l⟩ := hfree 1 (by omega) (by omega)
  rw [hflags] at hr1
  -- first submission
  have e2 := do_vwrite_s_places cfg U .OK d1 m1 fs1 false x1 h1 hm1 (fun _ => hsd1)
    (by rw [hc1]; exact hx1) hx1o (by omega) (by omega) (by omega)
  obtain ⟨d2, hd2⟩ : ∃ d2, d2 = (vwrite_finish .OK (placed cfg U d1 m1 fs1 x1) false).dep :=
    ⟨_, rfl⟩
  have e2 : do_vwrite_s cfg U .OK d1 m1 false = .ok d2 := by rw [e2, hd2]; rfl
  obtain ⟨X1, hX1⟩ : ∃ X1 : de_loc_descr_t, X1 =
      { descr := { x1.descr with
                   des0 := DES0_OWN
                   des1 := (x1.descr.des1 &&& DES1_ER) ||| DES1_FS ||| DES1_LS ||| DES1_IC |||
                           sum_sizes fs1 }
        buf1 := frame_bytes U fs1 ++ x1.buf1.drop (sum_sizes fs1) } := ⟨_, rfl⟩
  have hd2t : d2.descr_tran = d1.descr_tran.set 1 X1 := by rw [hd2, hX1, ← hc1]; rfl
  have hd2c : d2.cur_tran = 0 := by
    rw [hd2]; show advance cfg.DE_NB_SEND_DESCR d1.cur_tran = 0
    rw [hc1, htx]; rfl
  have hX1l : 64 ≤ X1.buf1.length := by
    rw [hX1]; simp only [List.length_append, List.length_drop]; omega
  -- the controller releases slot 0; second submission
  have hr0 : (nic_release_tran 0 st0 d2).descr_tran[(nic_release_tran 0 st0 d2).cur_tran]? =
      some { x0 with descr := { x0.descr with des0 := st0 } } := by
    show (release_slot 0 st0 d2.descr_tran)[d2.cur_tran]? = _
    rw [hd2c]
    exact release_slot_self 0 st0 _ x0 (by rw [hd2t, List.getElem?_set_ne (by omega), hx0])
  have e3 := do_vwrite_s_places cfg U .OK (nic_release_tran 0 st0 d2) m2 fs2 false _ h2
    (by rw [hd2]; exact hm1) (fun _ => by rw [hd2]; exact hsd1) hr0 hst0 (by omega) (by omega)
    (by show sum_sizes fs2 ≤ x0.buf1.length; omega)
  obtain ⟨d3, hd3⟩ : ∃ d3, d3 = (vwrite_finish .OK (placed cfg U (nic_release_tran 0 st0 d2) m2
      fs2 { x0 with descr := { x0.descr with des0 := st0 } }) false).dep := ⟨_, rfl⟩
  have e3 : do_vwrite_s cfg U .OK (nic_release_tran 0 st0 d2) m2 false = .ok d3 := by
    rw [e3, hd3]; rfl
  have hd3c : d3.cur_tran = 1 := by
    rw [hd3]; show advance cfg.DE_NB_SEND_DESCR d2.cur_tran = 1
    rw [hd2c, htx]; rfl
  have hd3t : d3.descr_tran[1]? = some X1 := by
    rw [hd3]
    show ((release_slot 0 st0 d2.descr_tran).set d2.cur_tran _)[1]? = _
    rw [hd2c, List.getElem?_set_ne (by omega), release_slot_other 1 0 st0 _ (by omega), hd2t,
      List.getElem?_set_self (by omega)]
  -- third submission
  have e4 := do_vwrite_s_suspends cfg U .OK d3 m3 X1 h3.1 h3.2.1 (by rw [hd3, hd2]; exact hm1)
    (by rw [hd3, hd2]; exact hsd1) (by rw [hd3c]; exact hd3t)
    (by rw [hX1]; show DES0_OWN &&& DES0_OWN ≠ 0; decide)
  obtain ⟨d4, hd4⟩ : ∃ d4, d4 = (do_vwrite_s cfg U .OK d3 m3 false).dep := ⟨_, rfl⟩
  have e4ok : do_vwrite_s cfg U .OK d3 m3 false = .ok d4 := by rw [hd4, e4]; rfl
  rw [e4] at hd4
  -- the controller releases slot 1; the interrupt
  have hr1s : (nic_release_tran 1 st1 d4).descr_tran[(nic_release_tran 1 st1 d4).cur_tran]? =
      some { X1 with descr := { X1.descr with des0 := st1 } } := by
    show (release_slot 1 st1 d4.descr_tran)[d4.cur_tran]? = _
    have hc : d4.cur_tran = 1 := by rw [hd4]; exact hd3c
    have ht : d4.descr_tran = d3.descr_tran := by rw [hd4]; rfl
    rw [hc, ht]
    exact release_slot_self 1 st1 _ X1 hd3t
  have e5 := do_interrupt_completes_tx cfg U .OK val (nic_release_tran 1 st1 d4) fs3 _ hais hti
    (by rw [hd4, hd3, hd2]; exact hm1) (by rw [hd4, hd3, hd2]; exact hr1) (by rw [hd4]; rfl)
    (by rw [hd4]; exact h3) hr1s hst1 (by omega) (by omega)
    (by show sum_sizes fs3 ≤ X1.buf1.length; omega)
  refine ⟨d1, d2, d3, d4, _, hd1, e2, by rw [hd2]; exact hsd1, e3, by rw [hd3, hd2]; exact hsd1,
    e4ok, by rw [hd4]; rfl, by rw [hd4]; rfl, e5, rfl, rfl, ?_, ?_⟩
  · show wrap32 ((nic_release_tran 1 st1 d4).de_stat.ets_packetT + 1) = 3
    rw [hd4, hd3, hd2]
    show wrap32 (wrap32 (wrap32 (d1.de_stat.ets_packetT + 1) + 1) + 1) = 3
    rw [hs1, hstat]
    decide
  · show wrap32 ((nic_release_tran 1 st1 d4).bytes_tx + sum_sizes fs3) = 192
    rw [hd4, hd3, hd2]
    show wrap32 (wrap32 (wrap32 (d1.bytes_tx + sum_sizes fs1) + sum_sizes fs2) +
      sum_sizes fs3) = 192
    rw [hb1, s1, s2, s3]
    decide

/-- C2, as stated, fails when the controller releases nothing before the
interrupt: on two transmit slots, slot 0 still holds the setup frame, so the
second submission already is pending and the third one stops the driver. -/
theorem second_submission_pending :
    ∃ d1 d2 d3 d4, do_conf_init cfg22 sampleInitEnv 0 (freshDep cfg22 []) = .ok d1 ∧
      do_vwrite_s cfg22 sampleUser .OK d1 msg64 false = .ok d2 ∧
      do_vwrite_s cfg22 sampleUser .OK d2 msg64 false = .ok d3 ∧
      d3.de_flags.DEF_SENDING = true ∧
      do_vwrite_s cfg22 sampleUser .OK d3 msg64 false = .fatal .busy d4 := by
  obtain ⟨d1, h1, hT, _⟩ := do_conf_init_spec cfg22 sampleInitEnv 0 (freshDep cfg22 [])
    sampleInitEnv_ok rfl rfl (by decide) (by decide)
  obtain ⟨d2, h2, hT2, _⟩ := do_vwrite_s_step cfg22 sampleUser d1 0 msg64
    [⟨10, 64⟩] hT (by decide) (sample_request cfg22 (by decide) (by decide) (by decide))
    (by decide) (by decide)
  obtain ⟨hmode, hsend, hack, hcur, hlen, ⟨x0, hx0, hx0own, _⟩, _⟩ := hT2
  rw [if_neg (by decide)] at hcur
  have h3 := do_vwrite_s_suspends cfg22 sampleUser .OK d2 msg64 x0 (by decide) (by decide)
    hmode hsend (by rw [hcur]; exact hx0) hx0own
  obtain ⟨d3, hd3⟩ : ∃ d3, d3 = (do_vwrite_s cfg22 sampleUser .OK d2 msg64 false).dep := ⟨_, rfl⟩
  have h3ok : do_vwrite_s cfg22 sampleUser .OK d2 msg64 false = .ok d3 := by
    rw [hd3, h3]; rfl
  rw [h3] at hd3
  have h4 := do_vwrite_s_busy cfg22 sampleUser .OK d3 msg64 (by rw [hd3]; exact hmode)
    (by rw [hd3]; rfl)
  rw [if_neg (by decide)] at h4
  exact ⟨d1, d2, d3, _, h1, h2, h3ok, by rw [hd3]; rfl, h4⟩

/-- A run of the amended C2: three one-entry frames of 64 bytes, status 0
written by the controller, status register reading "transmit complete". -/
theorem scenario_three_transmits_witness :
    ∃ d1 d2 d3 d4 d5,
      do_conf_init cfg22 sampleInitEnv 0 (freshDep cfg22 []) = .ok d1 ∧
      do_vwrite_s cfg22 sampleUser .OK d1 msg64 false = .ok d2 ∧
      d2.de_flags.DEF_SENDING = false ∧
      do_vwrite_s cfg22 sampleUser .OK (nic_release_tran 0 0 d2) msg64 false = .ok d3 ∧
      d3.de_flags.DEF_SENDING = false ∧
      do_vwrite_s cfg22 sampleUser .OK d3 msg64 false = .ok d4 ∧
      d4.de_flags.DEF_SENDING = true ∧ d4.tx_return_msg = msg64 ∧
      do_interrupt cfg22 sampleUser .OK CSR5_TI (nic_release_tran 1 0 d4) = .ok d5 ∧
      d5.de_flags.DEF_SENDING = false ∧ d5.de_flags.DEF_ACK_SEND = true ∧
      d5.de_stat.ets_packetT = 3 ∧ d5.bytes_tx = 192 :=
  scenario_three_transmits cfg22 sampleInitEnv 0 sampleUser (freshDep cfg22 [])
    msg64 msg64 msg64 [⟨10, 64⟩] [⟨10, 64⟩] [⟨10, 64⟩] 0 0 CSR5_TI
    sampleInitEnv_ok rfl rfl rfl rfl rfl (by decide)
    (sample_request cfg22 (by decide) (by decide) (by decide)) (by decide)
    (sample_request cfg22 (by decide) (by decide) (by decide)) (by decide)
    (sample_request cfg22 (by decide) (by decide) (by decide)) (by decide)
    (by decide) (by decide) (by decide) (by decide)

/-- C6. On an enabled device with a transmit pending (`DEF_SENDING` set), a
new submission `do_vwrite_s(mp, FALSE)` stops the driver whatever the rings,
the cursors and the request are (with the "busy" panic when the port is
valid, with the "illegal port" panic otherwise), and at that point the
rings, the cursors, the counters, the flags, the stored requests and the
traces of replies and port accesses are as they were before the call. -/
theorem pending_transmit_rejects_submission (cfg : Config) (U : UserSpace) (snd : SendStatus)
    (dep : dpeth_t) (mp : message) (hmode : dep.de_mode = .DEM_ENABLED)
    (hsend : dep.de_flags.DEF_SENDING = true) :
    ∃ f d, do_vwrite_s cfg U snd dep mp false = .fatal f d ∧
      ((0 ≤ mp.DL_PORT ∧ mp.DL_PORT < cfg.DE_PORT_NR) → f = .busy) ∧
      d.descr_tran = dep.descr_tran ∧ d.descr_recv = dep.descr_recv ∧
      d.cur_tran = dep.cur_tran ∧ d.cur_recv = dep.cur_recv ∧
      d.bytes_tx = dep.bytes_tx ∧ d.bytes_rx = dep.bytes_rx ∧ d.de_stat = dep.de_stat ∧
      d.de_flags = dep.de_flags ∧
      d.tx_return_msg = dep.tx_return_msg ∧ d.rx_return_msg = dep.rx_return_msg ∧
      d.replies = dep.replies ∧ d.iolog = dep.iolog ∧ d.copied_out = dep.copied_out := by
  have h := do_vwrite_s_busy cfg U snd dep mp hmode hsend
  by_cases hp : mp.DL_PORT < 0 ∨ mp.DL_PORT ≥ (cfg.DE_PORT_NR : Int)
  · rw [if_pos hp] at h
    exact ⟨_, _, h, fun hv => by omega, rfl, rfl, rfl, rfl, rfl, rfl, rfl, rfl, rfl, rfl, rfl,
      rfl, rfl⟩
  · rw [if_neg hp] at h
    exact ⟨_, _, h, fun _ => rfl, rfl, rfl, rfl, rfl, rfl, rfl, rfl, rfl, rfl, rfl, rfl, rfl, rfl⟩

/-- A run of C6: a 64-byte frame submitted while a transmit is pending. -/
theorem pending_transmit_rejects_submission_witness :
    ∃ d, do_vwrite_s cfg22 sampleUser .OK pendingDep msg64 false = .fatal .busy d ∧
      d.descr_tran = pendingDep.descr_tran ∧ d.cur_tran = pendingDep.cur_tran ∧
      d.de_stat = pendingDep.de_stat ∧ d.tx_return_msg = pendingDep.tx_return_msg := by
  obtain ⟨f, d, h, hf, h1, _, h2, _, _, _, h3, _, h4, _⟩ :=
    pending_transmit_rejects_submission cfg22 sampleUser .OK pendingDep msg64 rfl rfl
  have hb : f = .busy := hf ⟨by decide, by decide⟩
  subst hb
  exact ⟨d, h, h1, h2, h3, h4⟩

/-! ### Receive engine -/

theorem vread_bytes_eq (a size : Nat) (ha : a < 4294967296) :
    (if a % 4294967296 ≥ size then size else a % 4294967296) = min a size := by
  rw [Nat.mod_eq_of_lt ha]
  split
  · rw [Nat.min_eq_right (by omega)]
  · rw [Nat.min_eq_left (by omega)]

theorem iov_size_le_sum (e : iovec_s_t) :
    ∀ fs : List iovec_s_t, e ∈ fs → e.iov_size ≤ sum_sizes fs := by
  intro fs
  induction fs with
  | nil => intro h; cases h
  | cons x fs ih =>
    intro h
    rw [sum_sizes_cons]
    rcases List.mem_cons.1 h with h | h
    · subst h; omega
    · have := ih h; omega

/-- The copy loop of `do_vread_s` on a vector that is wholly in the local
array and does not fill it: the `size` bytes of the buffer from `off` on are
handed to the entries from `ix` on, in order. -/
theorem vread_copy_fits (cfg : Config) (U : UserSpace) (iovp : iovec_dat_s_t) :
    ∀ (l pre rest : List iovec_s_t) (fuel size off : Nat) (buf : List Nat)
      (log : List (Nat × List Nat)),
      iovp.iod_iovec = pre ++ l ++ rest →
      pre.length + l.length < cfg.IOVEC_NR →
      l.length ≤ fuel → 0 < size → size ≤ sum_sizes l → sum_sizes l < 4294967296 →
      (∀ e, e ∈ l → e.iov_size ≤ (U.data e.iov_grant).length) →
      off + size ≤ buf.length →
      vread_copy cfg U fuel iovp pre.length size off buf log =
        ⟨none, iovp, log ++ scatter l ((buf.drop off).take size)⟩ := by
  intro l
  induction l with
  | nil => intro pre rest fuel size off buf log _ _ _ h1 h2; simp [sum_sizes] at h2; omega
  | cons e fs ih =>
    intro pre rest fuel size off buf log hv hn hf hpos hle hlt hcap hbuf
    obtain ⟨fuel, rfl⟩ : ∃ k, fuel = k + 1 := ⟨fuel - 1, by simp at hf; omega⟩
    have hget : iovp.iod_iovec[pre.length]? = some e := by
      rw [hv, List.append_assoc]; exact getElem?_pre_cons _ _ _
    rw [sum_sizes_cons] at hle hlt
    have he := hcap e (List.mem_cons_self e fs)
    simp only [List.length_cons] at hn hf
    have hdl : ((buf.drop off).take size).length = size := by
      rw [List.length_take, List.length_drop]; omega
    simp only [vread_copy, hget, vread_bytes_eq e.iov_size size (by omega)]
    by_cases hcase : size ≤ e.iov_size
    · rw [Nat.min_eq_right hcase, if_pos (by omega), if_pos hbuf, if_neg (by omega),
        if_neg (by omega)]
      simp only [scatter, hdl]
      rw [if_neg (by omega), List.take_take, Nat.min_eq_right hcase]
    · rw [Nat.min_eq_left (by omega), if_pos he, if_pos (by omega), if_neg (by omega),
        if_pos (by omega)]
      have := ih (pre ++ [e]) rest fuel (size - e.iov_size) (off + e.iov_size) buf
        (log ++ [(e.iov_grant, (buf.drop off).take e.iov_size)])
        (by rw [hv]; simp)
        (by simp only [List.length_append, List.length_singleton]; omega) (by omega) (by omega)
        (by omega) (by omega) (fun x hx => hcap x (List.mem_cons_of_mem e hx)) (by omega)
      simp only [List.length_append, List.length_singleton] at this
      rw [this]
      simp only [scatter, hdl]
      rw [if_pos (by omega), List.take_take, Nat.min_eq_left (by omega), List.drop_take,
        List.drop_drop, List.append_assoc]
      rfl

/-- What `scatter` hands out, put together again, is the data, when the
buffers are large enough for it. -/
theorem scatter_flatten :
    ∀ (fs : List iovec_s_t) (data : List Nat), data.length ≤ sum_sizes fs →
      (scatter fs data).flatMap Prod.snd = data := by
  intro fs
  induction fs with
  | nil =>
    intro data h
    simp only [sum_sizes, List.map_nil, List.sum_nil, Nat.le_zero, List.length_eq_zero] at h
    subst h; rfl
  | cons e fs ih =>
    intro data h
    rw [sum_sizes_cons] at h
    simp only [scatter, List.flatMap_cons]
    by_cases hc : e.iov_size < data.length
    · rw [if_pos hc, ih (data.drop e.iov_size) (by rw [List.length_drop]; omega),
        List.take_append_drop]
    · rw [if_neg hc, List.flatMap_nil, List.append_nil, List.take_of_length_le (by omega)]

theorem padded_length (buf : List Nat) (L : Nat) (h : L < 60 → 60 ≤ buf.length) :
    (padded buf L).length = buf.length := by
  unfold padded
  split
  · have := h (by assumption)
    simp only [List.length_append, List.length_take, List.length_replicate, List.length_drop]
    omega
  · rfl

/-- A receive request that finds a complete frame under the receive cursor,
with buffers of at least the maximum frame size: the frame is delivered and
the function ends through `vread_finish`. -/
theorem do_vread_s_delivers (cfg : Config) (U : UserSpace) (snd : SendStatus) (dep : dpeth_t)
    (mp : message) (fs : List iovec_s_t) (from_int : Bool) (descr : de_loc_descr_t)
    (hR : Request cfg U mp fs) (hmode : dep.de_mode = .DEM_ENABLED)
    (hcur : dep.descr_recv[dep.cur_recv]? = some descr)
    (hready : Ready descr.descr.des0)
    (hcap : 1514 ≤ sum_sizes fs)
    (hfit : delivered_len descr.descr.des0 ≤ sum_sizes fs)
    (hbuf : delivered_len descr.descr.des0 ≤ descr.buf1.length) :
    do_vread_s cfg U snd dep mp from_int =
      vread_finish snd (delivered cfg U dep mp fs descr) from_int := by
  have hR' := hR
  obtain ⟨hp0, hp1, hU, hc, h1, hn, hN, hgr, hsum⟩ := hR
  obtain ⟨hown, hfs, hls, hes, hre⟩ := hready
  have hport : ¬ (mp.DL_PORT < 0 ∨ mp.DL_PORT ≥ (cfg.DE_PORT_NR : Int)) := by omega
  have hget : de_get_userdata_s cfg U mp.DL_GRANT 0 mp.DL_COUNT dep.de_read_iovec.iod_iovec =
      some (fs ++ dep.de_read_iovec.iod_iovec.drop fs.length) := by
    rw [hc]; exact de_get_userdata_s_fits cfg U _ _ fs _ hU hn hN
  have hcalc := de_calc_iov_size_fits cfg U mp fs dep.de_read_iovec hR'
  have hsz : ¬ (((toU32 (sum_sizes fs : Int) : Nat) : Int) < ETH_MAX_PACK_SIZE) := by
    rw [toU32_of_lt _ (by omega)]
    simp only [ETH_MAX_PACK_SIZE]; omega
  have hdpos : 0 < delivered_len descr.descr.des0 := by
    unfold delivered_len; split <;> omega
  have hpl : (padded descr.buf1 (frame_len descr.descr.des0)).length = descr.buf1.length :=
    padded_length _ _ (fun h => by
      have : delivered_len descr.descr.des0 = 60 := by unfold delivered_len; rw [if_pos h]
      omega)
  have hcopy := vread_copy_fits cfg U (loaded_iovec mp fs dep.de_read_iovec) fs []
    (dep.de_read_iovec.iod_iovec.drop fs.length) (copy_fuel cfg mp)
    (delivered_len descr.descr.des0) 0 (padded descr.buf1 (frame_len descr.descr.des0)) []
    (by simp [loaded_iovec]) (by simpa using hn)
    (by simp only [copy_fuel, hc, Int.toNat_ofNat]; omega) hdpos hfit (by omega) hgr
    (by rw [hpl]; omega)
  simp only [List.length_nil, List.drop_zero, List.nil_append] at hcopy
  have hnb : ¬ (frame_len descr.descr.des0 < 60 ∧ descr.buf1.length < 60) := by
    intro h
    have : delivered_len descr.descr.des0 = 60 := by unfold delivered_len; rw [if_pos h.1]
    omega
  simp only [loaded_iovec, delivered_len, padded, frame_len] at hcalc hcopy hnb
  unfold do_vread_s delivered
  simp only [hport, if_false, hmode, if_true, hcur, hown, hfs, hls, hes, hre, ne_eq,
    not_false_eq_true, not_true_eq_false, and_self, or_self, hget, hcalc, hsz, hnb, hcopy,
    List.set_set, loaded_iovec, delivered_len, padded, frame_len]

/-- A receive request that finds the descriptor under the receive cursor not
ready while no receive is pending: the request is stored and `DEF_READING`
set; nothing is delivered and the ring is left alone. -/
theorem do_vread_s_suspends (cfg : Config) (U : UserSpace) (snd : SendStatus) (dep : dpeth_t)
    (mp : message) (descr : de_loc_descr_t)
    (hp0 : 0 ≤ mp.DL_PORT) (hp1 : mp.DL_PORT < cfg.DE_PORT_NR)
    (hmode : dep.de_mode = .DEM_ENABLED) (hread : dep.de_flags.DEF_READING = false)
    (hcur : dep.descr_recv[dep.cur_recv]? = some descr)
    (hown : descr.descr.des0 &&& DES0_OWN ≠ 0) :
    do_vread_s cfg U snd dep mp false =
      do_reply snd { dep with
        de_client := mp.DL_PROC
        rx_return_msg := mp
        de_flags := { dep.de_flags with DEF_READING := true } } false := by
  have hport : ¬ (mp.DL_PORT < 0 ∨ mp.DL_PORT ≥ (cfg.DE_PORT_NR : Int)) := by omega
  unfold do_vread_s
  simp only [hport, if_false, hmode, if_true, hcur, hown, false_and, not_false_eq_true,
    vread_suspend, Bool.false_eq_true, hread]

/-- The dispatcher completing a pending receive: with the abnormal-summary
bit clear, the receive-complete bit set, no transmit to complete and a
complete frame under the receive cursor, `do_interrupt` delivers the frame to
the stored request, sets `DEF_ACK_RECV`, clears `DEF_READING` and
acknowledges the interrupt. -/
theorem do_interrupt_completes_rx (cfg : Config) (U : UserSpace) (snd : SendStatus)
    (val : Nat) (d : dpeth_t) (fs : List iovec_s_t) (x : de_loc_descr_t)
    (hais : val &&& CSR5_AIS = 0) (hri : val &&& CSR5_RI ≠ 0)
    (hmode : d.de_mode = .DEM_ENABLED) (hread : d.de_flags.DEF_READING = true)
    (hsend : d.de_flags.DEF_SENDING = false ∨ val &&& CSR5_TI = 0)
    (hR : Request cfg U d.rx_return_msg fs)
    (hcur : d.descr_recv[d.cur_recv]? = some x) (hready : Ready x.descr.des0)
    (hcap : 1514 ≤ sum_sizes fs) (hfit : delivered_len x.descr.des0 ≤ sum_sizes fs)
    (hbuf : delivered_len x.descr.des0 ≤ x.buf1.length) :
    do_interrupt cfg U snd val d =
      .ok { delivered cfg U { d with iolog := d.iolog ++ [.inp .CSR5 val] } d.rx_return_msg fs x
            with iolog := d.iolog ++ [.inp .CSR5 val, .out .CSR5 0xFFFFFFFF] } := by
  have hrun := do_vread_s_delivers cfg U snd { d with iolog := d.iolog ++ [.inp .CSR5 val] }
    d.rx_return_msg fs true x hR hmode hcur hready hcap hfit hbuf
  have hs2 : ¬ (d.de_flags.DEF_SENDING = true ∧ val &&& CSR5_TI ≠ 0) := by
    rcases hsend with h | h
    · rw [h]; simp
    · simp [h]
  unfold do_interrupt
  simp only [hais, ne_eq, not_true_eq_false, if_false, hread, hri, not_false_eq_true, and_self,
    if_true, hrun, vread_finish, Res.andThen, delivered, hs2, List.append_assoc,
    List.singleton_append]

/-- A receive request whose buffers the driver adds up to less than the
maximum frame size stops the driver with the "illegal packet size" panic. -/
theorem do_vread_s_rejects_size (cfg : Config) (U : UserSpace) (snd : SendStatus)
    (dep : dpeth_t) (mp : message) (from_int : Bool) (descr : de_loc_descr_t)
    (v : List iovec_s_t) (total : Int) (iovp : iovec_dat_s_t)
    (hp0 : 0 ≤ mp.DL_PORT) (hp1 : mp.DL_PORT < cfg.DE_PORT_NR)
    (hmode : dep.de_mode = .DEM_ENABLED)
    (hcur : dep.descr_recv[dep.cur_recv]? = some descr) (hready : Ready descr.descr.des0)
    (hget : de_get_userdata_s cfg U mp.DL_GRANT 0 mp.DL_COUNT dep.de_read_iovec.iod_iovec =
      some v)
    (hcalc : de_calc_iov_size cfg U
      { iod_iovec := v, iod_iovec_s := mp.DL_COUNT, iod_proc_nr := mp.DL_PROC,
        iod_grant := mp.DL_GRANT, iod_iovec_offset := 0 } = .ok (total, iovp))
    (hsmall : ((toU32 total : Nat) : Int) < ETH_MAX_PACK_SIZE) :
    do_vread_s cfg U snd dep mp from_int =
      .fatal .size { dep with de_client := mp.DL_PROC, de_read_iovec := iovp } := by
  obtain ⟨hown, hfs, hls, hes, hre⟩ := hready
  have hport : ¬ (mp.DL_PORT < 0 ∨ mp.DL_PORT ≥ (cfg.DE_PORT_NR : Int)) := by omega
  unfold do_vread_s
  simp only [hport, if_false, hmode, if_true, hcur, hown, hfs, hls, hes, hre, ne_eq,
    not_false_eq_true, not_true_eq_false, and_self, or_self, hget, hcalc, hsmall]

/-- A submission whose frame the driver adds up to a size outside
[`ETH_MIN_PACK_SIZE`, `ETH_MAX_PACK_SIZE`] stops the driver with the "illegal
packet size" panic; nothing has been placed in the ring by then. -/
theorem do_vwrite_s_rejects_size (cfg : Config) (U : UserSpace) (snd : SendStatus)
    (dep : dpeth_t) (mp : message) (from_int : Bool) (descr : de_loc_descr_t)
    (v : List iovec_s_t) (size : Int) (iovp : iovec_dat_s_t)
    (hp0 : 0 ≤ mp.DL_PORT) (hp1 : mp.DL_PORT < cfg.DE_PORT_NR)
    (hmode : dep.de_mode = .DEM_ENABLED)
    (hbusy : from_int = false → dep.de_flags.DEF_SENDING = false)
    (hcur : dep.descr_tran[dep.cur_tran]? = some descr)
    (hown : descr.descr.des0 &&& DES0_OWN = 0)
    (hget : de_get_userdata_s cfg U mp.DL_GRANT 0 mp.DL_COUNT dep.de_write_iovec.iod_iovec =
      some v)
    (hcalc : de_calc_iov_size cfg U
      { iod_iovec := v, iod_iovec_s := mp.DL_COUNT, iod_proc_nr := mp.DL_PROC,
        iod_grant := mp.DL_GRANT, iod_iovec_offset := 0 } = .ok (size, iovp))
    (hsize : size < ETH_MIN_PACK_SIZE ∨ size > ETH_MAX_PACK_SIZE) :
    ∃ d, do_vwrite_s cfg U snd dep mp from_int = .fatal .size d ∧
      d.bytes_tx = dep.bytes_tx ∧ d.de_stat = dep.de_stat ∧ d.cur_tran = dep.cur_tran ∧
      d.de_flags = dep.de_flags ∧
      ∀ j : Nat, (d.descr_tran[j]?).map (fun (y : de_loc_descr_t) => y.buf1) =
        (dep.descr_tran[j]?).map (fun (y : de_loc_descr_t) => y.buf1) := by
  have hport : ¬ (mp.DL_PORT < 0 ∨ mp.DL_PORT ≥ (cfg.DE_PORT_NR : Int)) := by omega
  have hb : (!from_int && dep.de_flags.DEF_SENDING) = false := by
    cases from_int with
    | false => simp [hbusy rfl]
    | true => rfl
  have hlt : dep.cur_tran < dep.descr_tran.length := by
    rcases Nat.lt_or_ge dep.cur_tran dep.descr_tran.length with h1 | h1
    · exact h1
    · rw [List.getElem?_eq_none h1] at hcur; cases hcur
  unfold do_vwrite_s
  simp only [hport, if_false, hmode, if_true, hb, Bool.false_eq_true, hcur, hown, ne_eq,
    not_true_eq_false]
  by_cases hs : (!dep.setupDone && decide (dep.cur_tran = 0)) = true
  · simp only [hs, if_true, hget, hcalc, hsize]
    refine ⟨_, rfl, rfl, rfl, rfl, rfl, ?_⟩
    intro j
    show ((dep.descr_tran.set dep.cur_tran _)[j]?).map _ = _
    by_cases hj : dep.cur_tran = j
    · subst hj
      rw [List.getElem?_set_self hlt, hcur]
      rfl
    · rw [List.getElem?_set_ne hj]
  · simp only [hs, if_false, hget, hcalc, hsize, Bool.false_eq_true, if_true]
    exact ⟨_, rfl, rfl, rfl, rfl, rfl, fun _ => rfl⟩

theorem padded_take_short (buf : List Nat) (L : Nat) (hL : L < 60) (hb : 60 ≤ buf.length) :
    (padded buf L).take 60 = buf.take L ++ List.replicate (60 - L) 0 := by
  unfold padded
  rw [if_pos hL]
  exact List.take_left' (by
    simp only [List.length_append, List.length_take, List.length_replicate]; omega)

/-- C5, amended. When `do_vread_s` on an enabled device finds a complete,
error-free frame under the receive cursor (the descriptor's buffer holding
the reported bytes and at least 60) and the request passes its buffers as at
least one and fewer than `IOVEC_NR` entries, each covered by its grant, that
hold the frame and at least the maximum frame size, it delivers `de_read_s`
bytes, adds them to `bytes_rx` modulo 2^32 and reports them in its reply: for
a reported frame length L < 60 these are exactly 60 bytes, the first L bytes
of the descriptor's buffer followed by 60 - L zero bytes; for L >= 60 they
are exactly the first L bytes of the buffer. The bytes go to the request's
buffers in order. -/
theorem short_frames_are_padded (cfg : Config) (U : UserSpace) (snd : SendStatus)
    (dep : dpeth_t) (mp : message) (fs : List iovec_s_t) (from_int : Bool)
    (descr : de_loc_descr_t)
    (hR : Request cfg U mp fs) (hmode : dep.de_mode = .DEM_ENABLED)
    (hcur : dep.descr_recv[dep.cur_recv]? = some descr)
    (hready : Ready descr.descr.des0) (hcap : 1514 ≤ sum_sizes fs)
    (hfit : frame_len descr.descr.des0 ≤ sum_sizes fs)
    (hbuf : frame_len descr.descr.des0 ≤ descr.buf1.length) (h60 : 60 ≤ descr.buf1.length) :
    ∃ d, do_vread_s cfg U snd dep mp from_int = vread_finish snd d from_int ∧
      (from_int = true → do_vread_s cfg U snd dep mp from_int = .ok d) ∧
      (from_int = false → snd = .OK →
        ∃ d2, do_vread_s cfg U snd dep mp from_int = .ok d2 ∧
          d2.replies = dep.replies ++ [⟨dep.de_flags.DEF_ACK_SEND, true, d.de_read_s⟩] ∧
          d2.copied_out = d.copied_out ∧ d2.bytes_rx = d.bytes_rx) ∧
      d.bytes_rx = wrap32 (dep.bytes_rx + d.de_read_s) ∧
      ∃ chunks, d.copied_out = dep.copied_out ++ chunks ∧
        chunks = scatter fs (chunks.flatMap Prod.snd) ∧
        (frame_len descr.descr.des0 < 60 →
          d.de_read_s = 60 ∧
          chunks.flatMap Prod.snd = descr.buf1.take (frame_len descr.descr.des0) ++
            List.replicate (60 - frame_len descr.descr.des0) 0) ∧
        (60 ≤ frame_len descr.descr.des0 →
          d.de_read_s = frame_len descr.descr.des0 ∧
          chunks.flatMap Prod.snd = descr.buf1.take (frame_len descr.descr.des0)) := by
  have hdl : delivered_len descr.descr.des0 ≤ sum_sizes fs ∧
      delivered_len descr.descr.des0 ≤ descr.buf1.length := by
    unfold delivered_len; split <;> omega
  have hrun := do_vread_s_delivers cfg U snd dep mp fs from_int descr hR hmode hcur hready hcap
    hdl.1 hdl.2
  have hpl : (padded descr.buf1 (frame_len descr.descr.des0)).length = descr.buf1.length :=
    padded_length _ _ (fun _ => h60)
  have hflat := scatter_flatten fs ((padded descr.buf1 (frame_len descr.descr.des0)).take
    (delivered_len descr.descr.des0)) (by rw [List.length_take]; omega)
  refine ⟨delivered cfg U dep mp fs descr, hrun, ?_, ?_, rfl, _, rfl, ?_, ?_, ?_⟩
  · intro h; rw [hrun, h]; rfl
  · intro h hs
    rw [hrun, h, hs]
    exact ⟨_, rfl, rfl, rfl, rfl⟩
  · rw [hflat]
  · intro hL
    have hd : delivered_len descr.descr.des0 = 60 := by unfold delivered_len; rw [if_pos hL]
    refine ⟨hd, ?_⟩
    rw [hflat, hd]
    exact padded_take_short _ _ hL h60
  · intro hL
    have hd : delivered_len descr.descr.des0 = frame_len descr.descr.des0 := by
      unfold delivered_len; rw [if_neg (by omega)]
    refine ⟨hd, ?_⟩
    rw [hflat, hd]
    unfold padded
    rw [if_neg (by omega)]

theorem buffer_request (cfg : Config) (h1 : 1 ≤ cfg.DE_PORT_NR) (h2 : 2 ≤ cfg.IOVEC_NR)
    (h3 : cfg.IOVEC_NR ≤ 268435456) : Request cfg sampleUser msgBuf [⟨20, 1514⟩] := by
  refine ⟨by decide, ?_, rfl, rfl, by decide, ?_, h3, ?_, by decide⟩
  · show (0 : Int) < cfg.DE_PORT_NR
    omega
  · show 1 < cfg.IOVEC_NR
    omega
  · intro e he
    simp only [List.mem_singleton] at he
    subst he
    show 1514 ≤ (List.replicate 1514 0).length
    rw [List.length_replicate]

/-- A run of the amended C5: a frame reported with 42 bytes is delivered as
60 bytes, the 42 bytes of the buffer followed by 18 zero bytes. -/
theorem short_frames_are_padded_witness :
    ∃ d chunks, do_vread_s cfg22 sampleUser .OK (rxDep 42) msgBuf true = .ok d ∧
      d.de_read_s = 60 ∧ d.bytes_rx = 60 ∧ d.copied_out = chunks ∧
      chunks.flatMap Prod.snd = List.replicate 42 0xEE ++ List.replicate 18 0 := by
  have hlen : (List.replicate 1536 0xEE).length = 1536 := List.length_replicate _ _
  obtain ⟨d, _, hok, _, hb, chunks, hc, _, hshort, _⟩ :=
    short_frames_are_padded cfg22 sampleUser .OK (rxDep 42) msgBuf [⟨20, 1514⟩] true
      ⟨⟨rx_status 42, 1536, 0, 0⟩, List.replicate 1536 0xEE⟩
      (buffer_request cfg22 (by decide) (by decide) (by decide)) rfl rfl
      (by decide) (by decide) (by decide)
      (by show frame_len (rx_status 42) ≤ (List.replicate 1536 0xEE).length
          rw [hlen]; decide)
      (by show 60 ≤ (List.replicate 1536 0xEE).length
          rw [hlen]; decide)
  obtain ⟨hs, hdata⟩ := hshort (by decide)
  refine ⟨d, chunks, hok rfl, hs, ?_, ?_, ?_⟩
  · rw [hb, hs]; rfl
  · rw [hc]; rfl
  · rw [hdata]
    show List.take (frame_len (rx_status 42)) (List.replicate 1536 0xEE) ++
      List.replicate (60 - frame_len (rx_status 42)) 0 = _
    have h42 : frame_len (rx_status 42) = 42 := by decide
    rw [h42, List.take_replicate]
    rfl

/-- C5, as stated, fails when the byte counter wraps. On a device whose
`bytes_rx` stands at 4294967280 (0xFFFFFFF0), a frame reported with 42 bytes
is delivered as 60 bytes (`de_read_s = 60`), and `bytes_rx` is 44 afterwards:
the counter has not grown by 60. -/
theorem byte_counter_wraps_on_delivery :
    ∃ d, do_vread_s cfg22 sampleUser .OK { rxDep 42 with bytes_rx := 4294967280 } msgBuf true =
        .ok d ∧
      d.de_read_s = 60 ∧ d.bytes_rx = 44 ∧ d.bytes_rx ≠ 4294967280 + 60 := by
  have hlen : (List.replicate 1536 0xEE).length = 1536 := List.length_replicate _ _
  have hrun := do_vread_s_delivers cfg22 sampleUser .OK
    { rxDep 42 with bytes_rx := 4294967280 } msgBuf [⟨20, 1514⟩] true
    ⟨⟨rx_status 42, 1536, 0, 0⟩, List.replicate 1536 0xEE⟩
    (buffer_request cfg22 (by decide) (by decide) (by decide)) rfl rfl
    (by show Ready (rx_status 42); decide) (by decide)
    (by show delivered_len (rx_status 42) ≤ sum_sizes [⟨20, 1514⟩]; decide)
    (by show delivered_len (rx_status 42) ≤ (List.replicate 1536 0xEE).length
        rw [hlen]; decide)
  have h60 : delivered_len (rx_status 42) = 60 := by decide
  refine ⟨_, hrun, h60, ?_, ?_⟩
  · show wrap32 (4294967280 + delivered_len (rx_status 42)) = 44
    rw [h60]; decide
  · show wrap32 (4294967280 + delivered_len (rx_status 42)) ≠ 4294967280 + 60
    rw [h60]; decide

/-! ### Vectors of more than `IOVEC_NR` entries -/

/-- On the 17-entry receive vector the driver fetches the first 16 entries,
then the first entry once more, and adds up 75 bytes where the vector holds
2045. -/
theorem long_recv_vector_size :
    sum_sizes longRecvVec = 2045 ∧
    de_get_userdata_s cfg22 longUser 3 0 17 (emptyIovec 16).iod_iovec =
      some (longRecvVec.take 16) ∧
    de_calc_iov_size cfg22 longUser
        { iod_iovec := longRecvVec.take 16, iod_iovec_s := 17, iod_proc_nr := 7,
          iod_grant := 3, iod_iovec_offset := 0 } =
      .ok (75, { iod_iovec := longRecvVec.take 16, iod_iovec_s := 1, iod_proc_nr := 7,
                 iod_grant := 3, iod_iovec_offset := 128 }) := by
  refine ⟨by decide, by decide, by decide⟩

/-- On the 17-entry transmit vector the driver adds up 2815 bytes where the
vector holds 1514. -/
theorem long_send_vector_size :
    sum_sizes longSendVec = 1514 ∧
    de_get_userdata_s cfg22 longUser 4 0 17 (emptyIovec 16).iod_iovec =
      some (longSendVec.take 16) ∧
    de_calc_iov_size cfg22 longUser
        { iod_iovec := longSendVec.take 16, iod_iovec_s := 17, iod_proc_nr := 7,
          iod_grant := 4, iod_iovec_offset := 0 } =
      .ok (2815, { iod_iovec := longSendVec.take 16, iod_iovec_s := 1, iod_proc_nr := 7,
                   iod_grant := 4, iod_iovec_offset := 128 }) := by
  refine ⟨by decide, by decide, by decide⟩

theorem longUser_data_length (g : Nat) (h : g ≠ 10) : (longUser.data g).length = 2000 := by
  simp only [longUser, h, if_false, List.length_replicate]

/-- Every entry of the two 17-entry vectors is covered by its grant. -/
theorem long_vectors_covered :
    (∀ e, e ∈ longRecvVec → e.iov_size ≤ (longUser.data e.iov_grant).length) ∧
    (∀ e, e ∈ longSendVec → e.iov_size ≤ (longUser.data e.iov_grant).length) := by
  constructor
  · intro e he
    simp only [longRecvVec, List.mem_cons, List.mem_append, List.mem_replicate,
      List.mem_singleton, List.not_mem_nil, or_false] at he
    rcases he with h | ⟨_, h⟩ | h <;> subst h <;>
      (rw [longUser_data_length _ (by decide)] <;> decide)
  · intro e he
    simp only [longSendVec, List.mem_cons, List.mem_append, List.mem_replicate,
      List.mem_singleton, List.not_mem_nil, or_false] at he
    rcases he with h | ⟨_, h⟩ | h <;> subst h <;>
      (rw [longUser_data_length _ (by decide)]; decide)

/-- The size check of `do_vwrite_s` on vectors that fit the local array
(fewer than `IOVEC_NR` entries): a frame below `ETH_MIN_PACK_SIZE` or above
`ETH_MAX_PACK_SIZE` stops the driver with the size panic, and a frame within
the bounds is placed in the ring. -/
theorem size_check_short_vectors (cfg : Config) (U : UserSpace) (snd : SendStatus)
    (dep : dpeth_t) (mp : message) (fs : List iovec_s_t) (from_int : Bool)
    (descr : de_loc_descr_t)
    (hR : Request cfg U mp fs) (hmode : dep.de_mode = .DEM_ENABLED)
    (hbusy : from_int = false → dep.de_flags.DEF_SENDING = false)
    (hcur : dep.descr_tran[dep.cur_tran]? = some descr)
    (hown : descr.descr.des0 &&& DES0_OWN = 0) (hbuf : 1514 ≤ descr.buf1.length) :
    ((sum_sizes fs < 60 ∨ 1514 < sum_sizes fs) →
      ∃ d, do_vwrite_s cfg U snd dep mp from_int = .fatal .size d) ∧
    ((60 ≤ sum_sizes fs ∧ sum_sizes fs ≤ 1514) →
      do_vwrite_s cfg U snd dep mp from_int =
        vwrite_finish snd (placed cfg U dep mp fs descr) from_int) := by
  constructor
  · intro hs
    have hR' := hR
    obtain ⟨hp0, hp1, hU, hc, h1, hn, hN, hcap, hsum⟩ := hR'
    have hget : de_get_userdata_s cfg U mp.DL_GRANT 0 mp.DL_COUNT
        dep.de_write_iovec.iod_iovec = some (fs ++ dep.de_write_iovec.iod_iovec.drop fs.length) := by
      rw [hc]; exact de_get_userdata_s_fits cfg U _ _ fs _ hU hn hN
    have hcalc := de_calc_iov_size_fits cfg U mp fs dep.de_write_iovec hR
    obtain ⟨d, hd, _⟩ := do_vwrite_s_rejects_size cfg U snd dep mp from_int descr _ _ _ hp0 hp1
      hmode hbusy hcur hown hget hcalc
      (by simp only [ETH_MIN_PACK_SIZE, ETH_MAX_PACK_SIZE]; omega)
    exact ⟨d, hd⟩
  · intro hs
    exact do_vwrite_s_places cfg U snd dep mp fs from_int descr hR hmode hbusy hcur hown hs.1
      hs.2 (by omega)

/-- C7 fails on a frame of valid size that is passed as more than `IOVEC_NR`
entries: after initialisation, a frame of 1514 bytes given as 17 entries
(1400, fifteen times 1, 99), each covered by its grant, is rejected with the
"illegal packet size" panic, because the driver adds up 2815 bytes. -/
theorem long_frame_rejected_for_size :
    sum_sizes longSendVec = 1514 ∧
    (∀ e, e ∈ longSendVec → e.iov_size ≤ (longUser.data e.iov_grant).length) ∧
    ∃ d1 d2, do_conf_init cfg22 sampleInitEnv 0 (freshDep cfg22 []) = .ok d1 ∧
      do_vwrite_s cfg22 longUser .OK d1 msgLongSend false = .fatal .size d2 := by
  refine ⟨by decide, long_vectors_covered.2, ?_⟩
  obtain ⟨d1, h1, hT, _, _, _, _, _, _, _, _, hw, _⟩ :=
    do_conf_init_spec cfg22 sampleInitEnv 0 (freshDep cfg22 []) sampleInitEnv_ok rfl rfl
      (by decide) (by decide)
  obtain ⟨hmode, hsend, _, hcur, _, _, hfree⟩ := hT
  rw [if_pos (by decide)] at hcur
  obtain ⟨x, hx, hxo, _⟩ := hfree 1 (by decide) (by decide)
  obtain ⟨_, hget, hcalc⟩ := long_send_vector_size
  obtain ⟨d2, h2, _⟩ := do_vwrite_s_rejects_size cfg22 longUser .OK d1 msgLongSend false x
    (longSendVec.take 16) 2815 _ (by decide) (by decide) hmode (fun _ => hsend)
    (by rw [hcur]; exact hx) hxo (by rw [hw]; exact hget) hcalc (by decide)
  exact ⟨d1, d2, h1, h2⟩

theorem nic_receive_self (j st : Nat) (frame : List Nat) (d : dpeth_t) (x : de_loc_descr_t)
    (h : d.descr_recv[j]? = some x) :
    (nic_receive j st frame d).descr_recv[j]? =
      some { descr := { x.descr with des0 := st }, buf1 := frame ++ x.buf1.drop frame.length } := by
  have hj : j < d.descr_recv.length := by
    rcases Nat.lt_or_ge j d.descr_recv.length with h1 | h1
    · exact h1
    · rw [List.getElem?_eq_none h1] at h; cases h
  simp only [nic_receive, h]
  rw [List.getElem?_set_self hj]

/-- The receive engine on vectors that fit the local array: a request made
while the descriptor under the receive cursor belongs to the controller is
stored (`DEF_READING` set, nothing delivered); once the controller has put a
complete frame into that descriptor, `do_interrupt` with the
receive-complete bit completes the request: `DEF_READING` clear,
`DEF_ACK_RECV` set, `de_read_s` the frame length, 60 for a shorter frame. -/
theorem receive_pending_then_completed (cfg : Config) (U : UserSpace) (snd : SendStatus)
    (val st : Nat) (frame : List Nat) (dep : dpeth_t) (mp : message) (fs : List iovec_s_t)
    (descr : de_loc_descr_t)
    (hR : Request cfg U mp fs) (hcap : 1514 ≤ sum_sizes fs)
    (hmode : dep.de_mode = .DEM_ENABLED) (hread : dep.de_flags.DEF_READING = false)
    (hcur : dep.descr_recv[dep.cur_recv]? = some descr)
    (hown : descr.descr.des0 &&& DES0_OWN ≠ 0)
    (hready : Ready st) (hfit : delivered_len st ≤ sum_sizes fs)
    (hbuf : delivered_len st ≤ descr.buf1.length)
    (hais : val &&& CSR5_AIS = 0) (hri : val &&& CSR5_RI ≠ 0)
    (hsend : dep.de_flags.DEF_SENDING = false ∨ val &&& CSR5_TI = 0) :
    ∃ d1 d2, do_vread_s cfg U .OK dep mp false = .ok d1 ∧
      d1.de_flags.DEF_READING = true ∧ d1.rx_return_msg = mp ∧
      d1.copied_out = dep.copied_out ∧ d1.descr_recv = dep.descr_recv ∧
      d1.cur_recv = dep.cur_recv ∧
      do_interrupt cfg U snd val (nic_receive d1.cur_recv st frame d1) = .ok d2 ∧
      d2.de_flags.DEF_READING = false ∧ d2.de_flags.DEF_ACK_RECV = true ∧
      d2.de_read_s = delivered_len st ∧
      (frame_len st < 60 → d2.de_read_s = 60) ∧
      (60 ≤ frame_len st → d2.de_read_s = frame_len st) := by
  have e1 := do_vread_s_suspends cfg U .OK dep mp descr hR.1 hR.2.1 hmode hread hcur hown
  obtain ⟨d1, hd1⟩ : ∃ d1, d1 = (do_vread_s cfg U .OK dep mp false).dep := ⟨_, rfl⟩
  have e1ok : do_vread_s cfg U .OK dep mp false = .ok d1 := by rw [hd1, e1]; rfl
  rw [e1] at hd1
  have hc1 : d1.cur_recv = dep.cur_recv := by rw [hd1]; rfl
  have hslot := nic_receive_self d1.cur_recv st frame d1 descr (by rw [hd1]; exact hcur)
  have e2 := do_interrupt_completes_rx cfg U snd val (nic_receive d1.cur_recv st frame d1) fs
    { descr := { descr.descr with des0 := st }, buf1 := frame ++ descr.buf1.drop frame.length }
    hais hri (by rw [hd1]; exact hmode) (by rw [hd1]; rfl)
    (by rw [hd1]; exact hsend) (by rw [hd1]; exact hR) hslot hready hcap hfit
    (by simp only [List.length_append, List.length_drop]; omega)
  refine ⟨d1, _, e1ok, by rw [hd1]; rfl, by rw [hd1]; rfl, by rw [hd1]; rfl,
    by rw [hd1]; rfl, hc1, e2, rfl, rfl, rfl, ?_, ?_⟩
  · intro h
    show delivered_len st = 60
    unfold delivered_len; rw [if_pos h]
  · intro h
    show delivered_len st = frame_len st
    unfold delivered_len; rw [if_neg (by omega)]

/-- When a receive is pending, the abnormal-summary bit is clear and the
receive-complete bit set, a panic of the receive engine is the outcome of
`do_interrupt`. -/
theorem do_interrupt_rx_fatal (cfg : Config) (U : UserSpace) (snd : SendStatus) (val : Nat)
    (d dX : dpeth_t) (f : Fault)
    (hais : val &&& CSR5_AIS = 0) (hri : val &&& CSR5_RI ≠ 0)
    (hread : d.de_flags.DEF_READING = true)
    (h : do_vread_s cfg U snd { d with iolog := d.iolog ++ [.inp .CSR5 val] }
      d.rx_return_msg true = .fatal f dX) :
    do_interrupt cfg U snd val d = .fatal f dX := by
  unfold do_interrupt
  simp only [hais, ne_eq, not_true_eq_false, if_false, hread, hri, not_false_eq_true, and_self,
    if_true, h, Res.andThen]

/-- C3 fails when the pending request's buffers are passed as more than
`IOVEC_NR` entries: a receive request with 17 buffers of 2045 bytes in all
(30, fifteen times 1, 2000), each covered by its grant, is stored as pending;
after the controller has put a complete frame of 64 bytes into the
descriptor, `do_interrupt` with the receive-complete bit stops the driver
with the "illegal packet size" panic instead of completing the request,
because the driver adds up 75 bytes. -/
theorem long_vector_receive_not_completed :
    sum_sizes longRecvVec = 2045 ∧
    (∀ e, e ∈ longRecvVec → e.iov_size ≤ (longUser.data e.iov_grant).length) ∧
    Ready (rx_status 64) ∧ frame_len (rx_status 64) = 64 ∧
    ∃ d1 d2 d3, do_conf_init cfg22 sampleInitEnv 0 (freshDep cfg22 []) = .ok d1 ∧
      do_vread_s cfg22 longUser .OK d1 msgLongRecv false = .ok d2 ∧
      d2.de_flags.DEF_READING = true ∧ d2.rx_return_msg = msgLongRecv ∧
      do_interrupt cfg22 longUser .OK CSR5_RI
        (nic_receive d2.cur_recv (rx_status 64) (List.replicate 64 0xAB) d2) = .fatal .size d3 := by
  refine ⟨by decide, long_vectors_covered.1, by decide, by decide, ?_⟩
  obtain ⟨d1, h1, hT, _, _, _, hr, hc, hl, hall, hri, _⟩ :=
    do_conf_init_spec cfg22 sampleInitEnv 0 (freshDep cfg22 []) sampleInitEnv_ok rfl rfl
      (by decide) (by decide)
  have hlt : 0 < d1.descr_recv.length := by rw [hl]; decide
  obtain ⟨x, hx⟩ : ∃ x, d1.descr_recv[0]? = some x :=
    ⟨d1.descr_recv[0], List.getElem?_eq_getElem hlt⟩
  have e2 := do_vread_s_suspends cfg22 longUser .OK d1 msgLongRecv x (by decide) (by decide)
    hT.1 hr (by rw [hc]; exact hx) (by rw [(hall 0 x hx).1]; decide)
  obtain ⟨d2, hd2⟩ : ∃ d2, d2 = (do_vread_s cfg22 longUser .OK d1 msgLongRecv false).dep :=
    ⟨_, rfl⟩
  have e2ok : do_vread_s cfg22 longUser .OK d1 msgLongRecv false = .ok d2 := by
    rw [hd2, e2]; rfl
  rw [e2] at hd2
  subst hd2
  have hslot := nic_receive_self d1.cur_recv (rx_status 64) (List.replicate 64 0xAB)
    (do_reply .OK { d1 with
        de_client := msgLongRecv.DL_PROC
        rx_return_msg := msgLongRecv
        de_flags := { d1.de_flags with DEF_READING := true } } false).dep x
    (by show d1.descr_recv[d1.cur_recv]? = some x; rw [hc]; exact hx)
  obtain ⟨_, hget, hcalc⟩ := long_recv_vector_size
  have e3 := do_vread_s_rejects_size cfg22 longUser .OK
    { nic_receive d1.cur_recv (rx_status 64) (List.replicate 64 0xAB)
        (do_reply .OK { d1 with
          de_client := msgLongRecv.DL_PROC
          rx_return_msg := msgLongRecv
          de_flags := { d1.de_flags with DEF_READING := true } } false).dep with
      iolog := d1.iolog ++ [.inp .CSR5 CSR5_RI] }
    msgLongRecv true _ (longRecvVec.take 16) 75 _ (by decide) (by decide)
    hT.1 hslot (by show Ready (rx_status 64); decide)
    (by show de_get_userdata_s cfg22 longUser 3 0 17 d1.de_read_iovec.iod_iovec = _
        rw [hri]; exact hget)
    hcalc (by decide)
  have h3 := do_interrupt_rx_fatal cfg22 longUser .OK CSR5_RI
    (nic_receive d1.cur_recv (rx_status 64) (List.replicate 64 0xAB)
      (do_reply .OK { d1 with
        de_client := msgLongRecv.DL_PROC
        rx_return_msg := msgLongRecv
        de_flags := { d1.de_flags with DEF_READING := true } } false).dep) _ .size
    (by decide) (by decide) rfl e3
  exact ⟨d1, _, _, h1, e2ok, rfl, rfl, h3⟩

/-! ### Round trip -/

theorem loopback_eq (j n st : Nat) (d : dpeth_t) (x : de_loc_descr_t)
    (h : d.descr_tran[j]? = some x) :
    loopback j n st d = nic_receive d.cur_recv st (x.buf1.take n) d := by
  simp only [loopback, h]

/-- Round trip on vectors that fit the local array: a frame of S bytes
(60 <= S <= 1514) that `do_vwrite_s` places in the descriptor under the
transmit cursor, copied by a loopback into the descriptor under the receive
cursor and marked there as a complete frame of S bytes, is delivered by
`do_vread_s` as exactly S bytes, the bytes of the transmitted entries in
order. -/
theorem loopback_round_trip (cfg : Config) (U : UserSpace) (dep : dpeth_t)
    (mtx mrx : message) (ftx frx : List iovec_s_t) (xt xr : de_loc_descr_t) (st : Nat)
    (hRt : Request cfg U mtx ftx) (hmin : 60 ≤ sum_sizes ftx) (hmax : sum_sizes ftx ≤ 1514)
    (hRr : Request cfg U mrx frx) (hcap : 1514 ≤ sum_sizes frx)
    (hmode : dep.de_mode = .DEM_ENABLED) (hsend : dep.de_flags.DEF_SENDING = false)
    (htx : dep.descr_tran[dep.cur_tran]? = some xt)
    (hown : xt.descr.des0 &&& DES0_OWN = 0) (hbuf : sum_sizes ftx ≤ xt.buf1.length)
    (hrx : dep.descr_recv[dep.cur_recv]? = some xr)
    (hst : Ready st) (hlen : frame_len st = sum_sizes ftx) :
    ∃ d1 X d2 chunks,
      do_vwrite_s cfg U .OK dep mtx false = .ok d1 ∧
      d1.descr_tran[dep.cur_tran]? = some X ∧ X.descr.des0 = DES0_OWN ∧
      X.descr.des1 = (xt.descr.des1 &&& DES1_ER) ||| DES1_FS ||| DES1_LS ||| DES1_IC |||
        sum_sizes ftx ∧
      X.buf1.take (sum_sizes ftx) = frame_bytes U ftx ∧
      do_vread_s cfg U .OK (loopback dep.cur_tran (sum_sizes ftx) st d1) mrx false = .ok d2 ∧
      d2.copied_out = d1.copied_out ++ chunks ∧
      chunks = scatter frx (frame_bytes U ftx) ∧
      chunks.flatMap Prod.snd = frame_bytes U ftx ∧
      (chunks.flatMap Prod.snd).length = sum_sizes ftx ∧
      d2.replies = d1.replies ++ [⟨false, true, sum_sizes ftx⟩] := by
  have hfl : (frame_bytes U ftx).length = sum_sizes ftx := frame_bytes_length U ftx hRt.2.2.2.2.2.2.2.1
  have hlt : dep.cur_tran < dep.descr_tran.length := by
    rcases Nat.lt_or_ge dep.cur_tran dep.descr_tran.length with h1 | h1
    · exact h1
    · rw [List.getElem?_eq_none h1] at htx; cases htx
  have e1 := do_vwrite_s_places cfg U .OK dep mtx ftx false xt hRt hmode (fun _ => hsend) htx
    hown hmin hmax hbuf
  obtain ⟨d1, hd1⟩ : ∃ d1, d1 = (vwrite_finish .OK (placed cfg U dep mtx ftx xt) false).dep :=
    ⟨_, rfl⟩
  have e1ok : do_vwrite_s cfg U .OK dep mtx false = .ok d1 := by rw [e1, hd1]; rfl
  obtain ⟨X, hX⟩ : ∃ X : de_loc_descr_t, X =
      { descr := { xt.descr with
                   des0 := DES0_OWN
                   des1 := (xt.descr.des1 &&& DES1_ER) ||| DES1_FS ||| DES1_LS ||| DES1_IC |||
                           sum_sizes ftx }
        buf1 := frame_bytes U ftx ++ xt.buf1.drop (sum_sizes ftx) } := ⟨_, rfl⟩
  have hXslot : d1.descr_tran[dep.cur_tran]? = some X := by
    rw [hd1, hX]
    show (dep.descr_tran.set dep.cur_tran _)[dep.cur_tran]? = _
    rw [List.getElem?_set_self hlt]
  have hXtake : X.buf1.take (sum_sizes ftx) = frame_bytes U ftx := by
    rw [hX]; exact List.take_left' hfl
  have hloop : loopback dep.cur_tran (sum_sizes ftx) st d1 =
      nic_receive d1.cur_recv st (frame_bytes U ftx) d1 := by
    rw [loopback_eq _ _ _ _ X hXslot, hXtake]
  have hslot := nic_receive_self d1.cur_recv st (frame_bytes U ftx) d1 xr
    (by rw [hd1]; exact hrx)
  have hdl : delivered_len st = sum_sizes ftx := by
    unfold delivered_len; rw [hlen, if_neg (by omega)]
  have e2 := do_vread_s_delivers cfg U .OK (nic_receive d1.cur_recv st (frame_bytes U ftx) d1)
    mrx frx false _ hRr (by rw [hd1]; exact hmode) hslot hst hcap
    (by show delivered_len st ≤ _; omega)
    (by show delivered_len st ≤ (frame_bytes U ftx ++ _).length
        rw [List.length_append]; omega)
  have hdata : (padded (frame_bytes U ftx ++ xr.buf1.drop (frame_bytes U ftx).length)
      (frame_len st)).take (delivered_len st) = frame_bytes U ftx := by
    rw [hdl, padded, if_neg (by omega)]
    exact List.take_left' hfl
  have hflat := scatter_flatten frx (frame_bytes U ftx) (by omega)
  refine ⟨d1, X, (do_vread_s cfg U .OK (loopback dep.cur_tran (sum_sizes ftx) st d1) mrx
    false).dep, scatter frx (frame_bytes U ftx), e1ok, hXslot, by rw [hX], by rw [hX], hXtake,
    ?_, ?_, rfl, hflat, by rw [hflat, hfl], ?_⟩
  · rw [hloop, e2]; rfl
  · rw [hloop, e2]
    show _ ++ scatter frx _ = _
    rw [hdata]; rfl
  · rw [hloop, e2]
    show _ ++ [(⟨_, true, delivered_len st⟩ : Reply)] = _
    rw [hdl, hd1]; rfl

theorem long_user_request (cfg : Config) (h1 : 1 ≤ cfg.DE_PORT_NR) (h2 : 2 ≤ cfg.IOVEC_NR)
    (h3 : cfg.IOVEC_NR ≤ 268435456) : Request cfg longUser msg64 [⟨10, 64⟩] := by
  refine ⟨by decide, ?_, rfl, rfl, by decide, ?_, h3, ?_, by decide⟩
  · show (0 : Int) < cfg.DE_PORT_NR
    omega
  · show 1 < cfg.IOVEC_NR
    omega
  · intro e he
    simp only [List.mem_singleton] at he
    subst he
    show 64 ≤ (List.replicate 64 0xAB).length
    rw [List.length_replicate]

/-- C4 fails when the receiving caller's buffers are passed as more than
`IOVEC_NR` entries: a frame of 64 bytes is placed in transmit slot 1 and
looped back into the descriptor under the receive cursor as a complete frame
of 64 bytes; `do_vread_s` into 17 buffers of 2045 bytes in all (30, fifteen
times 1, 2000) then stops the driver with the "illegal packet size" panic
and delivers nothing, because the driver adds up 75 bytes. -/
theorem long_vector_round_trip_fails :
    sum_sizes longRecvVec = 2045 ∧
    (∀ e, e ∈ longRecvVec → e.iov_size ≤ (longUser.data e.iov_grant).length) ∧
    Ready (rx_status 64) ∧ frame_len (rx_status 64) = 64 ∧
    ∃ d1 d2 X d3, do_conf_init cfg22 sampleInitEnv 0 (freshDep cfg22 []) = .ok d1 ∧
      do_vwrite_s cfg22 longUser .OK d1 msg64 false = .ok d2 ∧
      d2.descr_tran[1]? = some X ∧ X.buf1.take 64 = frame_bytes longUser [⟨10, 64⟩] ∧
      do_vread_s cfg22 longUser .OK (loopback 1 64 (rx_status 64) d2) msgLongRecv false =
        .fatal .size d3 ∧
      d3.copied_out = d2.copied_out := by
  refine ⟨by decide, long_vectors_covered.1, by decide, by decide, ?_⟩
  obtain ⟨d1, h1, hT, _, _, _, hr, hc, hl, hall, hri, _⟩ :=
    do_conf_init_spec cfg22 sampleInitEnv 0 (freshDep cfg22 []) sampleInitEnv_ok rfl rfl
      (by decide) (by decide)
  have hR := long_user_request cfg22 (by decide) (by decide) (by decide)
  obtain ⟨hmode, hsend, _, hcur, hlen, _, hfree⟩ := hT
  rw [if_pos (by decide)] at hcur
  obtain ⟨x1, hx1, hx1o, hx1l⟩ := hfree 1 (by decide) (by decide)
  have hltr : 0 < d1.descr_recv.length := by rw [hl]; decide
  obtain ⟨xr, hxr⟩ : ∃ x, d1.descr_recv[0]? = some x :=
    ⟨d1.descr_recv[0], List.getElem?_eq_getElem hltr⟩
  have hfl : (frame_bytes longUser [⟨10, 64⟩]).length = 64 :=
    frame_bytes_length longUser _ hR.2.2.2.2.2.2.2.1
  have e2 := do_vwrite_s_places cfg22 longUser .OK d1 msg64 [⟨10, 64⟩] false x1 hR hmode
    (fun _ => hsend) (by rw [hcur]; exact hx1) hx1o (by decide) (by decide)
    (by show 64 ≤ x1.buf1.length; omega)
  obtain ⟨d2, hd2⟩ : ∃ d2, d2 =
      (vwrite_finish .OK (placed cfg22 longUser d1 msg64 [⟨10, 64⟩] x1) false).dep := ⟨_, rfl⟩
  have e2ok : do_vwrite_s cfg22 longUser .OK d1 msg64 false = .ok d2 := by rw [e2, hd2]; rfl
  subst hd2
  have hlt1 : 1 < d1.descr_tran.length := by rw [hlen]; decide
  have hXslot : (vwrite_finish .OK (placed cfg22 longUser d1 msg64 [⟨10, 64⟩] x1)
      false).dep.descr_tran[1]? = some
        { descr := { x1.descr with
                     des0 := DES0_OWN
                     des1 := (x1.descr.des1 &&& DES1_ER) ||| DES1_FS ||| DES1_LS ||| DES1_IC |||
                             sum_sizes [(⟨10, 64⟩ : iovec_s_t)] }
          buf1 := frame_bytes longUser [⟨10, 64⟩] ++
            x1.buf1.drop (sum_sizes [(⟨10, 64⟩ : iovec_s_t)]) } := by
    show (d1.descr_tran.set d1.cur_tran _)[1]? = _
    rw [hcur, List.getElem?_set_self hlt1]
  have hXtake : (frame_bytes longUser [⟨10, 64⟩] ++
      x1.buf1.drop (sum_sizes [(⟨10, 64⟩ : iovec_s_t)])).take 64 =
      frame_bytes longUser [⟨10, 64⟩] := List.take_left' hfl
  have hloop := loopback_eq 1 64 (rx_status 64) _ _ hXslot
  have hslot := nic_receive_self d1.cur_recv (rx_status 64)
    ((frame_bytes longUser [⟨10, 64⟩] ++
      x1.buf1.drop (sum_sizes [(⟨10, 64⟩ : iovec_s_t)])).take 64)
    (vwrite_finish .OK (placed cfg22 longUser d1 msg64 [⟨10, 64⟩] x1) false).dep xr
    (by show d1.descr_recv[d1.cur_recv]? = some xr; rw [hc]; exact hxr)
  obtain ⟨_, hget, hcalc⟩ := long_recv_vector_size
  have e3 := do_vread_s_rejects_size cfg22 longUser .OK
    (nic_receive d1.cur_recv (rx_status 64)
      ((frame_bytes longUser [⟨10, 64⟩] ++
        x1.buf1.drop (sum_sizes [(⟨10, 64⟩ : iovec_s_t)])).take 64)
      (vwrite_finish .OK (placed cfg22 longUser d1 msg64 [⟨10, 64⟩] x1) false).dep)
    msgLongRecv false _ (longRecvVec.take 16) 75 _ (by decide) (by decide)
    hmode hslot (by show Ready (rx_status 64); decide)
    (by show de_get_userdata_s cfg22 longUser 3 0 17 d1.de_read_iovec.iod_iovec = _
        rw [hri]; exact hget)
    hcalc (by decide)
  have e4 : ∃ d3, do_vread_s cfg22 longUser .OK (loopback 1 64 (rx_status 64)
      (vwrite_finish .OK (placed cfg22 longUser d1 msg64 [⟨10, 64⟩] x1) false).dep)
      msgLongRecv false = .fatal .size d3 ∧ d3.copied_out = d1.copied_out := by
    rw [hloop]
    exact ⟨_, e3, rfl⟩
  obtain ⟨d3, h3, hco⟩ := e4
  exact ⟨d1, _, _, d3, h1, e2ok, hXslot, hXtake, h3, hco⟩

/-! ### Idle interrupts -/

/-- C11. With no receive and no transmit pending and the abnormal-summary bit
clear in the value read from CSR5, `do_interrupt` returns and leaves the
device context as it was (rings, cursors, counters, flags, stored requests,
vector records, replies, delivered data), whatever the other status bits are:
its port accesses are the read of CSR5 and the single write of 0xFFFFFFFF to
CSR5. With the abnormal-summary bit set `do_interrupt` stops the driver,
whatever the flags are, after the read of CSR5 alone. -/
theorem do_interrupt_idle (cfg : Config) (U : UserSpace) (snd : SendStatus) (val : Nat)
    (dep : dpeth_t) :
    (dep.de_flags.DEF_READING = false → dep.de_flags.DEF_SENDING = false →
      val &&& CSR5_AIS = 0 →
      do_interrupt cfg U snd val dep =
        .ok { dep with iolog := dep.iolog ++ [.inp .CSR5 val, .out .CSR5 0xFFFFFFFF] }) ∧
    (val &&& CSR5_AIS ≠ 0 →
      do_interrupt cfg U snd val dep =
        .fatal .abnormal { dep with iolog := dep.iolog ++ [.inp .CSR5 val] }) := by
  constructor
  · intro hr hs hais
    unfold do_interrupt
    simp only [hais, ne_eq, not_true_eq_false, if_false, hr, hs, Bool.false_eq_true, false_and,
      Res.andThen, List.append_assoc, List.singleton_append]
  · intro hais
    unfold do_interrupt
    simp only [hais, ne_eq, not_false_eq_true, if_true]

/-- A run of C11: an idle device takes an interrupt whose status has the
receive-complete and transmit-complete bits set, and one whose status has the
abnormal-summary bit set. -/
theorem do_interrupt_idle_witness :
    do_interrupt cfg22 sampleUser .OK (CSR5_RI ||| CSR5_TI) (freshDep cfg22 []) =
      .ok { freshDep cfg22 [] with
            iolog := [.inp .CSR5 (CSR5_RI ||| CSR5_TI), .out .CSR5 0xFFFFFFFF] } ∧
    do_interrupt cfg22 sampleUser .OK CSR5_AIS (freshDep cfg22 []) =
      .fatal .abnormal { freshDep cfg22 [] with iolog := [.inp .CSR5 CSR5_AIS] } :=
  ⟨(do_interrupt_idle cfg22 sampleUser .OK (CSR5_RI ||| CSR5_TI) (freshDep cfg22 [])).1
      rfl rfl (by decide),
   (do_interrupt_idle cfg22 sampleUser .OK CSR5_AIS (freshDep cfg22 [])).2 (by decide)⟩

/-! ### A second receive request -/

/-- A receive request made while a receive is pending and the descriptor
under the receive cursor is not ready fails the assertion of the `suspend`
path. -/
theorem do_vread_s_pending_not_ready (cfg : Config) (U : UserSpace) (snd : SendStatus)
    (dep : dpeth_t) (mp : message) (descr : de_loc_descr_t)
    (hp0 : 0 ≤ mp.DL_PORT) (hp1 : mp.DL_PORT < cfg.DE_PORT_NR)
    (hmode : dep.de_mode = .DEM_ENABLED) (hread : dep.de_flags.DEF_READING = true)
    (hcur : dep.descr_recv[dep.cur_recv]? = some descr)
    (hown : descr.descr.des0 &&& DES0_OWN ≠ 0) :
    do_vread_s cfg U snd dep mp false =
      .fatal .assertion { dep with de_client := mp.DL_PROC } := by
  have hport : ¬ (mp.DL_PORT < 0 ∨ mp.DL_PORT ≥ (cfg.DE_PORT_NR : Int)) := by omega
  unfold do_vread_s
  simp only [hport, if_false, hmode, if_true, hcur, hown, false_and, not_false_eq_true,
    vread_suspend, Bool.false_eq_true, hread]

/-- C12 fails when the frame is already in the ring. After initialisation a
receive request is stored as pending (`DEF_READING` set). A second request
made while the descriptor under the cursor still belongs to the controller
fails the assertion, as claimed; but a second request made after the
controller has put a complete frame of 64 bytes into that descriptor, before
the interrupt is handled, is served: it returns, the 64 bytes are copied to
its buffer, the reply reports a received frame of 64 bytes, and `DEF_READING`
is cleared. -/
theorem second_receive_is_served :
    ∃ d1 d2 dA d3, do_conf_init cfg22 sampleInitEnv 0 (freshDep cfg22 []) = .ok d1 ∧
      do_vread_s cfg22 sampleUser .OK d1 msgBuf false = .ok d2 ∧
      d2.de_flags.DEF_READING = true ∧
      do_vread_s cfg22 sampleUser .OK d2 msgBuf false = .fatal .assertion dA ∧
      do_vread_s cfg22 sampleUser .OK
        (nic_receive d2.cur_recv (rx_status 64) (List.replicate 64 0xAB) d2) msgBuf false =
          .ok d3 ∧
      d3.de_flags.DEF_READING = false ∧
      d3.replies = d2.replies ++ [⟨false, true, 64⟩] ∧
      d3.copied_out = d2.copied_out ++ [(20, List.replicate 64 0xAB)] := by
  obtain ⟨d1, h1, hT, _, _, _, hr, hc, hl, hall, hri, _⟩ :=
    do_conf_init_spec cfg22 sampleInitEnv 0 (freshDep cfg22 []) sampleInitEnv_ok rfl rfl
      (by decide) (by decide)
  have hR := buffer_request cfg22 (by decide) (by decide) (by decide)
  have hlt : 0 < d1.descr_recv.length := by rw [hl]; decide
  obtain ⟨x, hx⟩ : ∃ x, d1.descr_recv[0]? = some x :=
    ⟨d1.descr_recv[0], List.getElem?_eq_getElem hlt⟩
  obtain ⟨hx0, hxl⟩ := hall 0 x hx
  have e2 := do_vread_s_suspends cfg22 sampleUser .OK d1 msgBuf x (by decide) (by decide)
    hT.1 hr (by rw [hc]; exact hx) (by rw [hx0]; decide)
  obtain ⟨d2, hd2⟩ : ∃ d2, d2 = (do_vread_s cfg22 sampleUser .OK d1 msgBuf false).dep :=
    ⟨_, rfl⟩
  have e2ok : do_vread_s cfg22 sampleUser .OK d1 msgBuf false = .ok d2 := by
    rw [hd2, e2]; rfl
  rw [e2] at hd2
  subst hd2
  have eA := do_vread_s_pending_not_ready cfg22 sampleUser .OK
    (do_reply .OK { d1 with
        de_client := msgBuf.DL_PROC
        rx_return_msg := msgBuf
        de_flags := { d1.de_flags with DEF_READING := true } } false).dep msgBuf x
    (by decide) (by decide) hT.1 rfl
    (by show d1.descr_recv[d1.cur_recv]? = some x; rw [hc]; exact hx)
    (by rw [hx0]; decide)
  have hslot := nic_receive_self d1.cur_recv (rx_status 64) (List.replicate 64 0xAB)
    (do_reply .OK { d1 with
        de_client := msgBuf.DL_PROC
        rx_return_msg := msgBuf
        de_flags := { d1.de_flags with DEF_READING := true } } false).dep x
    (by show d1.descr_recv[d1.cur_recv]? = some x; rw [hc]; exact hx)
  have hbl : (List.replicate 64 0xAB ++ x.buf1.drop (List.replicate 64 0xAB).length).length
      = 1536 := by
    have : x.buf1.length = 1536 := hxl
    simp only [List.length_append, List.length_replicate, List.length_drop]
    omega
  have e3 := do_vread_s_delivers cfg22 sampleUser .OK
    (nic_receive d1.cur_recv (rx_status 64) (List.replicate 64 0xAB)
      (do_reply .OK { d1 with
        de_client := msgBuf.DL_PROC
        rx_return_msg := msgBuf
        de_flags := { d1.de_flags with DEF_READING := true } } false).dep)
    msgBuf [⟨20, 1514⟩] false _ hR hT.1 hslot (by show Ready (rx_status 64); decide)
    (by decide)
    (by show delivered_len (rx_status 64) ≤ sum_sizes [⟨20, 1514⟩]
        decide)
    (by show delivered_len (rx_status 64) ≤ _
        rw [hbl]; decide)
  refine ⟨d1, _, _, _, h1, e2ok, rfl, eA, e3.trans rfl, rfl, ?_, ?_⟩
  · have h64 : delivered_len (rx_status 64) = 64 := by decide
    simp only [delivered, nic_receive, do_reply, Res.dep, h64]
  · have h1 : delivered_len (rx_status 64) = 64 := by decide
    have h2 : frame_len (rx_status 64) = 64 := by decide
    have h3 : padded (List.replicate 64 0xAB ++
      x.buf1.drop (List.replicate 64 0xAB).length) 64 = List.replicate 64 0xAB ++
      x.buf1.drop (List.replicate 64 0xAB).length := by
      unfold padded; rw [if_neg (by decide)]
    simp only [delivered, nic_receive, do_reply, Res.dep, h1, h2, h3]
    rw [List.take_left' (List.length_replicate _ _)]
    simp only [scatter, List.length_replicate]
    rfl

/-! ### The end-of-ring marker -/

theorem and_ER_ne_zero_iff (x : Nat) : x &&& DES1_ER ≠ 0 ↔ x.testBit 25 = true := by
  constructor
  · intro h
    by_contra hb
    apply h
    apply Nat.eq_of_testBit_eq
    intro i
    have hE : DES1_ER = 2 ^ 25 := by decide
    rw [Nat.testBit_and, hE, Nat.testBit_two_pow, Nat.zero_testBit]
    by_cases hi : 25 = i
    · subst hi; simp at hb; simp [hb]
    · simp [hi]
  · intro h h0
    have h1 : Nat.testBit DES1_ER 25 = true := by decide
    have h2 : (x &&& DES1_ER).testBit 25 = true := by
      rw [Nat.testBit_and, h, h1]; rfl
    rw [h0] at h2
    simp at h2

/-- The descriptor word 1 `do_vwrite_s` writes carries `DES1_ER` exactly when
the old word did, the frame size being below 2^25. -/
theorem ER_kept_by_vwrite (a s : Nat) (hs : s < 2 ^ 25) :
    ((a &&& DES1_ER) ||| DES1_FS ||| DES1_LS ||| DES1_IC ||| s) &&& DES1_ER ≠ 0 ↔
      a &&& DES1_ER ≠ 0 := by
  rw [and_ER_ne_zero_iff, and_ER_ne_zero_iff]
  have h1 : Nat.testBit DES1_ER 25 = true := by decide
  have h2 : Nat.testBit DES1_FS 25 = false := by decide
  have h3 : Nat.testBit DES1_LS 25 = false := by decide
  have h4 : Nat.testBit DES1_IC 25 = false := by decide
  have h5 : s.testBit 25 = false := Nat.testBit_lt_two_pow hs
  simp only [Nat.testBit_or, Nat.testBit_and, h1, h2, h3, h4, h5, Bool.and_true, Bool.or_false]

theorem er_marks_set (l : List de_loc_descr_t) (i : Nat) (y : de_loc_descr_t) :
    er_marks (l.set i y) = (er_marks l).set i (decide (y.descr.des1 &&& DES1_ER ≠ 0)) := by
  simp only [er_marks, List.map_set]

/-- Replacing a slot by one with the same mark leaves the marks as they were. -/
theorem er_marks_set_same (l : List de_loc_descr_t) (i : Nat) (x y : de_loc_descr_t)
    (hx : l[i]? = some x)
    (h : (y.descr.des1 &&& DES1_ER ≠ 0) ↔ (x.descr.des1 &&& DES1_ER ≠ 0)) :
    er_marks (l.set i y) = er_marks l := by
  rw [er_marks_set]
  apply List.ext_getElem?
  intro j
  rw [List.getElem?_set]
  by_cases hj : i = j
  · subst hj
    have hi : i < l.length := by
      rcases Nat.lt_or_ge i l.length with h1 | h1
      · exact h1
      · rw [List.getElem?_eq_none h1] at hx; cases hx
    rw [if_pos rfl, if_pos (by simpa [er_marks] using hi)]
    simp only [er_marks, List.getElem?_map, hx, Option.map_some', decide_eq_decide.2 h]
  · rw [if_neg hj]

theorem do_reply_rings (snd : SendStatus) (dep d1 : dpeth_t) (b : Bool)
    (h : do_reply snd dep b = .ok d1) :
    d1.descr_recv = dep.descr_recv ∧ d1.descr_tran = dep.descr_tran := by
  unfold do_reply at h
  cases snd
  · simp only [Res.ok.injEq] at h
    subst h
    exact ⟨rfl, rfl⟩
  · simp only at h
    split at h
    · simp only [Res.ok.injEq] at h
      subst h
      exact ⟨rfl, rfl⟩
    · cases h
  · cases h

theorem vwrite_finish_rings (snd : SendStatus) (dep d1 : dpeth_t) (b : Bool)
    (h : vwrite_finish snd dep b = .ok d1) :
    d1.descr_recv = dep.descr_recv ∧ d1.descr_tran = dep.descr_tran := by
  unfold vwrite_finish at h
  simp only at h
  split at h
  · simp only [Res.ok.injEq] at h
    subst h
    exact ⟨rfl, rfl⟩
  · have h1 := do_reply_rings _ _ _ _ h
    exact h1

theorem vwrite_suspend_rings (snd : SendStatus) (dep d1 : dpeth_t) (mp : message) (b : Bool)
    (h : vwrite_suspend snd dep mp b = .ok d1) :
    d1.descr_recv = dep.descr_recv ∧ d1.descr_tran = dep.descr_tran := by
  unfold vwrite_suspend at h
  split at h
  · cases h
  · have h1 := do_reply_rings _ _ _ _ h
    exact h1

theorem vread_finish_rings (snd : SendStatus) (dep d1 : dpeth_t) (b : Bool)
    (h : vread_finish snd dep b = .ok d1) :
    d1.descr_recv = dep.descr_recv ∧ d1.descr_tran = dep.descr_tran := by
  unfold vread_finish at h
  split at h
  · simp only [Res.ok.injEq] at h
    subst h
    exact ⟨rfl, rfl⟩
  · have h1 := do_reply_rings _ _ _ _ h
    exact h1

theorem vread_suspend_rings (snd : SendStatus) (dep d1 : dpeth_t) (mp : message) (b : Bool)
    (h : vread_suspend snd dep mp b = .ok d1) :
    d1.descr_recv = dep.descr_recv ∧ d1.descr_tran = dep.descr_tran := by
  unfold vread_suspend at h
  split at h
  · split at h
    · simp only [Res.ok.injEq] at h
      subst h
      exact ⟨rfl, rfl⟩
    · cases h
  · split at h
    · cases h
    · have h1 := do_reply_rings _ _ _ _ h
      exact h1

/-- What a call of `do_vwrite_s` that returns has done to the rings: the
receive ring is as it was; the transmit ring is as it was when the device is
not enabled or the slot under the cursor belongs to the controller, and
otherwise the slot under the cursor has word 0 equal to `DES0_OWN` and word 1
equal to `(old DES1 & DES1_ER) | DES1_FS | DES1_LS | DES1_IC | size`, `size`
being the value `de_calc_iov_size` returned, within the frame size bounds. -/
theorem do_vwrite_s_rings (cfg : Config) (U : UserSpace) (snd : SendStatus) (d d1 : dpeth_t)
    (mp : message) (from_int : Bool) (h : do_vwrite_s cfg U snd d mp from_int = .ok d1) :
    d1.descr_recv = d.descr_recv ∧
    ((d1.descr_tran = d.descr_tran ∧
        (d.de_mode ≠ .DEM_ENABLED ∨
          ∃ x, d.descr_tran[d.cur_tran]? = some x ∧ x.descr.des0 &&& DES0_OWN ≠ 0)) ∨
      ∃ (x : de_loc_descr_t) (v : List iovec_s_t) (size : Int) (iovp : iovec_dat_s_t)
          (buf : List Nat),
        d.de_mode = .DEM_ENABLED ∧
        d.descr_tran[d.cur_tran]? = some x ∧ x.descr.des0 &&& DES0_OWN = 0 ∧
        de_get_userdata_s cfg U mp.DL_GRANT 0 mp.DL_COUNT d.de_write_iovec.iod_iovec = some v ∧
        de_calc_iov_size cfg U
          { iod_iovec := v, iod_iovec_s := mp.DL_COUNT, iod_proc_nr := mp.DL_PROC,
            iod_grant := mp.DL_GRANT, iod_iovec_offset := 0 } = .ok (size, iovp) ∧
        ETH_MIN_PACK_SIZE ≤ size ∧ size ≤ ETH_MAX_PACK_SIZE ∧
        d1.descr_tran = d.descr_tran.set d.cur_tran
          { descr := { x.descr with
                       des0 := DES0_OWN
                       des1 := (x.descr.des1 &&& DES1_ER) ||| DES1_FS ||| DES1_LS ||| DES1_IC |||
                               size.toNat }
            buf1 := buf }) := by
  unfold do_vwrite_s at h
  split at h
  · cases h
  simp only at h
  split at h
  swap
  · rename_i hm
    obtain ⟨h1, h2⟩ := vwrite_finish_rings _ _ _ _ h
    exact ⟨h1, Or.inl ⟨h2, Or.inl hm⟩⟩
  rename_i hm
  split at h
  · cases h
  split at h
  · cases h
  rename_i x hx
  split at h
  · rename_i hown
    obtain ⟨h1, h2⟩ := vwrite_suspend_rings _ _ _ _ _ h
    exact ⟨h1, Or.inl ⟨h2, Or.inr ⟨x, hx, hown⟩⟩⟩
  rename_i hown
  have hown0 : x.descr.des0 &&& DES0_OWN = 0 := by
    by_contra hne; exact hown hne
  by_cases hs : (!d.setupDone && decide (d.cur_tran = 0)) = true
  · simp only [hs, if_true] at h
    split at h
    · cases h
    rename_i v hv
    split at h
    · cases h
    rename_i size iovp hcalc
    split at h
    · cases h
    rename_i hsize
    split at h
    · cases h
    have h1 := vwrite_finish_rings _ _ _ _ h
    simp only [List.set_set] at h1
    exact ⟨h1.1, Or.inr ⟨x, v, size, iovp, _, hm, hx, hown0, hv, hcalc, by omega, by omega, h1.2⟩⟩
  · simp only [hs, if_false] at h
    split at h
    · cases h
    rename_i v hv
    split at h
    · cases h
    rename_i size iovp hcalc
    split at h
    · cases h
    rename_i hsize
    split at h
    · cases h
    have h1 := vwrite_finish_rings _ _ _ _ h
    simp only [List.set_set] at h1
    exact ⟨h1.1, Or.inr ⟨x, v, size, iovp, _, hm, hx, hown0, hv, hcalc, by omega, by omega, h1.2⟩⟩

/-- What a call of `do_vread_s` that returns has done to the rings: the
transmit ring is as it was, and in the receive ring at most word 0 and the
buffer of the slot under the cursor have changed. -/
theorem do_vread_s_rings (cfg : Config) (U : UserSpace) (snd : SendStatus) (d d1 : dpeth_t)
    (mp : message) (from_int : Bool) (h : do_vread_s cfg U snd d mp from_int = .ok d1) :
    d1.descr_tran = d.descr_tran ∧
    (d1.descr_recv = d.descr_recv ∨
      ∃ (x : de_loc_descr_t) (buf : List Nat), d.descr_recv[d.cur_recv]? = some x ∧
        d1.descr_recv = d.descr_recv.set d.cur_recv
          { descr := { x.descr with des0 := DES0_OWN }, buf1 := buf }) := by
  unfold do_vread_s at h
  split at h
  · cases h
  simp only at h
  split at h
  swap
  · have h1 := vread_finish_rings _ _ _ _ h
    exact ⟨h1.2, Or.inl h1.1⟩
  split at h
  · cases h
  rename_i x hx
  split at h
  · have h1 := vread_suspend_rings _ _ _ _ _ h
    exact ⟨h1.2, Or.inl h1.1⟩
  split at h
  · cases h
  split at h
  · cases h
  split at h
  · cases h
  split at h
  · cases h
  split at h
  · cases h
  split at h
  · cases h
  have h1 := vread_finish_rings _ _ _ _ h
  simp only [List.set_set] at h1
  exact ⟨h1.2, Or.inr ⟨x, _, hx, h1.1⟩⟩

theorem do_vwrite_s_marks (cfg : Config) (U : UserSpace) (snd : SendStatus) (d d1 : dpeth_t)
    (mp : message) (from_int : Bool) (h : do_vwrite_s cfg U snd d mp from_int = .ok d1) :
    er_marks d1.descr_recv = er_marks d.descr_recv ∧
    er_marks d1.descr_tran = er_marks d.descr_tran := by
  obtain ⟨h1, h2⟩ := do_vwrite_s_rings cfg U snd d d1 mp from_int h
  refine ⟨by rw [h1], ?_⟩
  rcases h2 with ⟨h2, _⟩ | ⟨x, v, size, iovp, buf, _, hx, _, _, _, hlo, hhi, h2⟩
  · rw [h2]
  · rw [h2]
    refine er_marks_set_same _ _ x _ hx ?_
    simp only [ETH_MIN_PACK_SIZE, ETH_MAX_PACK_SIZE] at hlo hhi
    exact ER_kept_by_vwrite _ _ (by omega)

theorem do_vread_s_marks (cfg : Config) (U : UserSpace) (snd : SendStatus) (d d1 : dpeth_t)
    (mp : message) (from_int : Bool) (h : do_vread_s cfg U snd d mp from_int = .ok d1) :
    er_marks d1.descr_recv = er_marks d.descr_recv ∧
    er_marks d1.descr_tran = er_marks d.descr_tran := by
  obtain ⟨h1, h2⟩ := do_vread_s_rings cfg U snd d d1 mp from_int h
  refine ⟨?_, by rw [h1]⟩
  rcases h2 with h2 | ⟨x, buf, hx, h2⟩
  · rw [h2]
  · rw [h2]
    exact er_marks_set_same _ _ x _ hx Iff.rfl

theorem andThen_ok (r : Res) (f : dpeth_t → Res) (d1 : dpeth_t) (h : r.andThen f = .ok d1) :
    ∃ d, r = .ok d ∧ f d = .ok d1 := by
  cases r with
  | ok d => exact ⟨d, rfl, h⟩
  | fatal f0 d => cases h

theorem do_interrupt_marks (cfg : Config) (U : UserSpace) (snd : SendStatus) (val : Nat)
    (d d1 : dpeth_t) (h : do_interrupt cfg U snd val d = .ok d1) :
    er_marks d1.descr_recv = er_marks d.descr_recv ∧
    er_marks d1.descr_tran = er_marks d.descr_tran := by
  unfold do_interrupt at h
  simp only at h
  split at h
  · cases h
  obtain ⟨d2, hr1, h⟩ := andThen_ok _ _ _ h
  obtain ⟨d3, hr2, h⟩ := andThen_ok _ _ _ h
  simp only [Res.ok.injEq] at h
  subst h
  have m1 : er_marks d2.descr_recv = er_marks d.descr_recv ∧
      er_marks d2.descr_tran = er_marks d.descr_tran := by
    split at hr1
    · have m := do_vread_s_marks _ _ _ _ _ _ _ hr1
      exact m
    · simp only [Res.ok.injEq] at hr1
      subst hr1
      exact ⟨rfl, rfl⟩
  have m2 : er_marks d3.descr_recv = er_marks d2.descr_recv ∧
      er_marks d3.descr_tran = er_marks d2.descr_tran := by
    split at hr2
    · have m := do_vwrite_s_marks _ _ _ _ _ _ _ hr2
      exact m
    · simp only [Res.ok.injEq] at hr2
      subst hr2
      exact ⟨rfl, rfl⟩
  exact ⟨m2.1.trans m1.1, m2.2.trans m1.2⟩

/-- What `de_setup_frame` does to the rings when slot 0 of the transmit ring
exists and its buffer holds at least 192 bytes. -/
theorem de_setup_frame_spec (csr6 : Nat) (d : dpeth_t) (x0 : de_loc_descr_t)
    (hx : d.descr_tran[0]? = some x0) (hb : 192 ≤ x0.buf1.length) :
    ∃ buf, de_setup_frame csr6 d = .ok { d with
      descr_tran := d.descr_tran.set 0
        { descr := { x0.descr with
                     des0 := DES0_OWN
                     des1 := DES1_SET ||| DE_SETUP_FRAME_SIZE ||| DES1_IC }
          buf1 := buf }
      iolog := d.iolog ++ [.inp .CSR6 csr6, .out .CSR6 (csr6 ||| CSR6_ST),
                           .out .CSR1 0xFFFFFFFF] } := by
  obtain ⟨b, hb1, _⟩ := pokes_ok (setup_frame_stores d.de_address) x0.buf1
    (fun p hp => Nat.lt_of_lt_of_le (setup_frame_stores_lt _ p hp) hb)
  exact ⟨b, by simp only [de_setup_frame, hx, hb1]⟩

/-- What a call of `de_setup_frame` that returns has done to the rings: word
1 of slot 0 of the transmit ring no longer carries `DES1_ER`. -/
theorem de_setup_frame_rings (csr6 : Nat) (d d1 : dpeth_t)
    (h : de_setup_frame csr6 d = .ok d1) :
    d1.descr_recv = d.descr_recv ∧
    ∃ y, d1.descr_tran = d.descr_tran.set 0 y ∧ y.descr.des1 &&& DES1_ER = 0 := by
  unfold de_setup_frame at h
  split at h
  · cases h
  split at h
  · cases h
  simp only [Res.ok.injEq] at h
  subst h
  refine ⟨rfl, _, rfl, ?_⟩
  show (DES1_SET ||| DE_SETUP_FRAME_SIZE ||| DES1_IC) &&& DES1_ER = 0
  decide

theorem last_only_getElem? (n j : Nat) (h : j < n) :
    (last_only n)[j]? = some (decide (j + 1 = n)) := by
  simp only [last_only, List.getElem?_map, List.getElem?_range h, Option.map_some']

theorem last_only_length (n : Nat) : (last_only n).length = n := by
  simp only [last_only, List.length_map, List.length_range]

theorem last_only_set_zero (n : Nat) (h : 2 ≤ n) : (last_only n).set 0 false = last_only n := by
  apply List.ext_getElem?
  intro j
  rw [List.getElem?_set]
  by_cases hj : 0 = j
  · subst hj
    rw [if_pos rfl, if_pos (by rw [last_only_length]; omega), last_only_getElem? n 0 (by omega)]
    have : ¬ (0 + 1 = n) := by omega
    simp only [this, decide_False]
  · rw [if_neg hj]

/-- The marks of a ring say that its last slot alone carries `DES1_ER`. -/
theorem er_marks_last_only (l : List de_loc_descr_t) (n : Nat) (h : er_marks l = last_only n) :
    l.length = n ∧
    ∀ j x, l[j]? = some x → (x.descr.des1 &&& DES1_ER ≠ 0 ↔ j = n - 1) := by
  have hl : l.length = n := by
    have := congrArg List.length h
    simpa [er_marks, last_only] using this
  refine ⟨hl, ?_⟩
  intro j x hx
  have hj : j < n := by
    rcases Nat.lt_or_ge j l.length with h1 | h1
    · omega
    · rw [List.getElem?_eq_none h1] at hx; cases hx
  have h1 := congrArg (fun m => m[j]?) h
  simp only [er_marks, List.getElem?_map, hx, Option.map_some', last_only_getElem? n j hj,
    Option.some.injEq, decide_eq_decide] at h1
  rw [h1]
  omega

/-- The marks of a ring as `de_first_init` builds it. -/
theorem er_marks_init (l : List de_loc_descr_t) (n temp : Nat) (hl : l.length = n)
    (hall : ∀ m d, l[m]? = some d →
      d.descr.des1 = (if m = n - 1 then temp ||| DES1_ER else temp))
    (ht : temp &&& DES1_ER = 0) : er_marks l = last_only n := by
  apply List.ext_getElem?
  intro j
  rcases Nat.lt_or_ge j n with hj | hj
  · have hjl : j < l.length := by omega
    rw [last_only_getElem? n j hj]
    simp only [er_marks, List.getElem?_map, List.getElem?_eq_getElem hjl, Option.map_some',
      Option.some.injEq, decide_eq_decide]
    rw [hall j l[j] (List.getElem?_eq_getElem hjl)]
    by_cases hm : j = n - 1
    · rw [if_pos hm]
      exact ⟨fun _ => by omega, fun _ => or_ER_and_ER temp⟩
    · rw [if_neg hm]
      exact ⟨fun h => absurd ht h, fun h => by omega⟩
  · rw [List.getElem?_eq_none (by simp only [er_marks, List.length_map]; omega),
      List.getElem?_eq_none (by rw [last_only_length]; omega)]

theorem release_slot_marks (j st : Nat) (l : List de_loc_descr_t) :
    er_marks (release_slot j st l) = er_marks l := by
  unfold release_slot
  split
  · rfl
  · rename_i x hx
    exact er_marks_set_same _ _ x _ hx Iff.rfl

theorem nic_receive_marks (j st : Nat) (frame : List Nat) (d : dpeth_t) :
    er_marks (nic_receive j st frame d).descr_recv = er_marks d.descr_recv := by
  unfold nic_receive
  simp only
  split
  · rfl
  · rename_i x hx
    exact er_marks_set_same _ _ x _ hx Iff.rfl

/-- Every action keeps the end-of-ring invariant when the transmit ring has
at least two slots. -/
theorem Step_keeps_RingInv (cfg : Config) (d d1 : dpeth_t) (htx : 2 ≤ cfg.DE_NB_SEND_DESCR)
    (hs : Step cfg d d1) (hi : RingInv cfg d) : RingInv cfg d1 := by
  obtain ⟨hr, ht⟩ := hi
  cases hs with
  | setup csr6 _ _ h =>
    obtain ⟨h1, y, h2, hy⟩ := de_setup_frame_rings csr6 d d1 h
    refine ⟨by rw [h1]; exact hr, ?_⟩
    rw [h2, er_marks_set, ht]
    have : decide (y.descr.des1 &&& DES1_ER ≠ 0) = false := by
      simp only [hy, ne_eq, not_true_eq_false, decide_False]
    rw [this]
    exact last_only_set_zero _ htx
  | vwrite U snd mp from_int _ _ h =>
    obtain ⟨h1, h2⟩ := do_vwrite_s_marks cfg U snd d d1 mp from_int h
    exact ⟨h1.trans hr, h2.trans ht⟩
  | vread U snd mp from_int _ _ h =>
    obtain ⟨h1, h2⟩ := do_vread_s_marks cfg U snd d d1 mp from_int h
    exact ⟨h1.trans hr, h2.trans ht⟩
  | interrupt U snd val _ _ h =>
    obtain ⟨h1, h2⟩ := do_interrupt_marks cfg U snd val d d1 h
    exact ⟨h1.trans hr, h2.trans ht⟩
  | nic_tran j st _ =>
    exact ⟨hr, (release_slot_marks j st d.descr_tran).trans ht⟩
  | nic_recv j st frame _ =>
    exact ⟨(nic_receive_marks j st frame d).trans hr, ht⟩
  | other _ _ h1 h2 =>
    exact ⟨by rw [h1]; exact hr, by rw [h2]; exact ht⟩

theorem do_conf_init_reachable (cfg : Config) (E : InitEnv) (csr6 : Nat) (dep d1 : dpeth_t)
    (h : do_conf_init cfg E csr6 dep = .ok d1) : Reachable cfg E dep d1 := by
  unfold do_conf_init at h
  split at h
  · cases h
  · rename_i d0 h0
    have r1 : Reachable cfg E dep
        { d0 with de_flags := { d0.de_flags with DEF_ENABLED := true } } :=
      Reachable.step d0 _ (Reachable.init d0 h0) (Step.other _ _ rfl rfl)
    exact Reachable.step _ _ r1 (Step.setup csr6 _ _ h)

/-- C13, as stated, fails for a transmit ring of one slot: `de_first_init`
puts `DES1_ER` on its only descriptor, and `de_setup_frame`, which writes
`DES1_SET | DE_SETUP_FRAME_SIZE | DES1_IC` into word 1 of slot 0, removes it:
afterwards no descriptor of the transmit ring carries `DES1_ER`. -/
theorem setup_frame_clears_end_of_ring :
    ∃ (d0 d1 : dpeth_t), de_first_init cfg21 sampleInitEnv (freshDep cfg21 []) = .ok d0 ∧
      (∃ x, d0.descr_tran[cfg21.DE_NB_SEND_DESCR - 1]? = some x ∧
        x.descr.des1 &&& DES1_ER ≠ 0) ∧
      de_setup_frame 0 d0 = .ok d1 ∧
      d1.descr_tran.length = cfg21.DE_NB_SEND_DESCR ∧
      ∀ (j : Nat) (x : de_loc_descr_t), d1.descr_tran[j]? = some x →
        x.descr.des1 &&& DES1_ER = 0 := by
  obtain ⟨rx, tx, prx, ptx, hrun, _, htl, _, htall⟩ :=
    de_first_init_spec cfg21 sampleInitEnv (freshDep cfg21 []) sampleInitEnv_ok
  have htl1 : tx.length = 1 := htl
  obtain ⟨x0, hx0⟩ : ∃ x, tx[0]? = some x :=
    ⟨tx[0], List.getElem?_eq_getElem (by omega)⟩
  obtain ⟨_, h1, hbl⟩ := htall 0 x0 hx0
  obtain ⟨buf, hsf⟩ := de_setup_frame_spec 0
    { freshDep cfg21 [] with
      descr_recv := rx
      descr_tran := tx
      sendrecv_descr_phys_addr_recv := prx
      sendrecv_descr_phys_addr_tran := ptx
      cur_tran := 1
      cur_recv := 0
      bytes_rx := 0
      bytes_tx := 0 } x0 hx0 (by rw [hbl]; decide)
  refine ⟨_, _, hrun, ⟨x0, hx0, ?_⟩, hsf, ?_, ?_⟩
  · rw [h1]
    decide
  · show (tx.set 0 _).length = 1
    rw [List.length_set, htl1]
  · intro j x hx
    have hx1 : (tx.set 0 _)[j]? = some x := hx
    have hj : j < (tx.set 0 (⟨{ x0.descr with
          des0 := DES0_OWN
          des1 := DES1_SET ||| DE_SETUP_FRAME_SIZE ||| DES1_IC }, buf⟩ : de_loc_descr_t)).length := by
      rcases Nat.lt_or_ge j (tx.set 0 (⟨{ x0.descr with
          des0 := DES0_OWN
          des1 := DES1_SET ||| DE_SETUP_FRAME_SIZE ||| DES1_IC }, buf⟩ : de_loc_descr_t)).length
        with h | h
      · exact h
      · rw [List.getElem?_eq_none h] at hx1; cases hx1
    rw [List.length_set, htl1] at hj
    have hj0 : j = 0 := by omega
    subst hj0
    rw [List.getElem?_set_self (by omega)] at hx1
    simp only [Option.some.injEq] at hx1
    subst hx1
    show (DES1_SET ||| DE_SETUP_FRAME_SIZE ||| DES1_IC) &&& DES1_ER = 0
    decide

/-- C13, amended. For every receive ring of at least one slot and every
transmit ring of at least two slots (buffer sizes not overlapping the
end-of-ring bit, every `sys_umap` call succeeding with an aligned address),
`de_first_init` returns, and in every device context reached from it by any
sequence of calls of `de_setup_frame`, `do_vwrite_s`, `do_vread_s` and
`do_interrupt` that return, of status write-backs of the controller and of
changes that leave the rings alone, both rings keep their capacity and a
descriptor carries `DES1_ER` exactly when it is the last one (index C-1).
Moreover a call of `do_vwrite_s` that returns on an enabled device whose slot
under the transmit cursor is free leaves in that slot the control word
`(old DES1 & DES1_ER) | DES1_FS | DES1_LS | DES1_IC | size` and the status
word `DES0_OWN`, `size` being the total `de_calc_iov_size` returned, between
`ETH_MIN_PACK_SIZE` and `ETH_MAX_PACK_SIZE`. -/
theorem end_of_ring_invariant (cfg : Config) (E : InitEnv) (dep : dpeth_t)
    (hE : InitEnvOk E)
    (hrx : 1 ≤ cfg.DE_NB_RECV_DESCR) (htx : 2 ≤ cfg.DE_NB_SEND_DESCR)
    (hrb : cfg.DE_RECV_BUF_SIZE &&& DES1_ER = 0)
    (htb : cfg.DE_SEND_BUF_SIZE &&& DES1_ER = 0) :
    (∃ d0, de_first_init cfg E dep = .ok d0) ∧
    (∀ d, Reachable cfg E dep d →
      d.descr_recv.length = cfg.DE_NB_RECV_DESCR ∧
      d.descr_tran.length = cfg.DE_NB_SEND_DESCR ∧
      (∀ j x, d.descr_recv[j]? = some x →
        (x.descr.des1 &&& DES1_ER ≠ 0 ↔ j = cfg.DE_NB_RECV_DESCR - 1)) ∧
      (∀ j x, d.descr_tran[j]? = some x →
        (x.descr.des1 &&& DES1_ER ≠ 0 ↔ j = cfg.DE_NB_SEND_DESCR - 1))) ∧
    (∀ (U : UserSpace) (snd : SendStatus) (mp : message) (from_int : Bool) (d d1 : dpeth_t)
        (x : de_loc_descr_t),
      do_vwrite_s cfg U snd d mp from_int = .ok d1 → d.de_mode = .DEM_ENABLED →
      d.descr_tran[d.cur_tran]? = some x → x.descr.des0 &&& DES0_OWN = 0 →
      ∃ (v : List iovec_s_t) (size : Int) (iovp : iovec_dat_s_t) (x1 : de_loc_descr_t),
        de_get_userdata_s cfg U mp.DL_GRANT 0 mp.DL_COUNT d.de_write_iovec.iod_iovec = some v ∧
        de_calc_iov_size cfg U
          { iod_iovec := v, iod_iovec_s := mp.DL_COUNT, iod_proc_nr := mp.DL_PROC,
            iod_grant := mp.DL_GRANT, iod_iovec_offset := 0 } = .ok (size, iovp) ∧
        ETH_MIN_PACK_SIZE ≤ size ∧ size ≤ ETH_MAX_PACK_SIZE ∧
        d1.descr_tran[d.cur_tran]? = some x1 ∧
        x1.descr.des1 =
          (x.descr.des1 &&& DES1_ER) ||| DES1_FS ||| DES1_LS ||| DES1_IC ||| size.toNat ∧
        x1.descr.des0 = DES0_OWN) := by
  obtain ⟨rx, tx, prx, ptx, hrun, hrl, htl, hrall, htall⟩ := de_first_init_spec cfg E dep hE
  refine ⟨⟨_, hrun⟩, ?_, ?_⟩
  · intro d hd
    have hinv : RingInv cfg d := by
      induction hd with
      | init d0 h0 =>
        rw [hrun] at h0
        simp only [Except.ok.injEq] at h0
        subst h0
        exact ⟨er_marks_init rx _ _ hrl (fun m x hx => (hrall m x hx).2.1) hrb,
          er_marks_init tx _ _ htl (fun m x hx => (htall m x hx).2.1) htb⟩
      | step d2 d3 _ hs ih => exact Step_keeps_RingInv cfg d2 d3 htx hs ih
    obtain ⟨h1, h2⟩ := er_marks_last_only _ _ hinv.1
    obtain ⟨h3, h4⟩ := er_marks_last_only _ _ hinv.2
    exact ⟨h1, h3, h2, h4⟩
  · intro U snd mp from_int d d1 x h hm hx hown
    obtain ⟨_, h2⟩ := do_vwrite_s_rings cfg U snd d d1 mp from_int h
    rcases h2 with ⟨_, hne | ⟨y, hy, hyo⟩⟩ | ⟨y, v, size, iovp, buf, _, hy, _, hv, hcalc, hlo, hhi, h2⟩
    · exact absurd hm hne
    · rw [hx] at hy
      simp only [Option.some.injEq] at hy
      subst hy
      exact absurd hown hyo
    · rw [hx] at hy
      simp only [Option.some.injEq] at hy
      subst hy
      have hc : d.cur_tran < d.descr_tran.length := by
        rcases Nat.lt_or_ge d.cur_tran d.descr_tran.length with h1 | h1
        · exact h1
        · rw [List.getElem?_eq_none h1] at hx; cases hx
      refine ⟨v, size, iovp,
        { descr := { x.descr with
                     des0 := DES0_OWN
                     des1 := (x.descr.des1 &&& DES1_ER) ||| DES1_FS ||| DES1_LS ||| DES1_IC |||
                             size.toNat }
          buf1 := buf }, hv, hcalc, hlo, hhi, ?_, rfl, rfl⟩
      rw [h2, List.getElem?_set_self hc]

/-- A run of C13 on two receive and two transmit descriptors: after the
initialisation of `do_conf` (`de_first_init`, flag update, `de_setup_frame`)
the second transmit descriptor alone carries `DES1_ER`. -/
theorem end_of_ring_invariant_witness :
    ∃ d1, do_conf_init cfg22 sampleInitEnv 0 (freshDep cfg22 []) = .ok d1 ∧
      d1.descr_tran.length = 2 ∧
      ∀ (j : Nat) (x : de_loc_descr_t), d1.descr_tran[j]? = some x →
        (x.descr.des1 &&& DES1_ER ≠ 0 ↔ j = 1) := by
  obtain ⟨d1, h1, _⟩ :=
    do_conf_init_spec cfg22 sampleInitEnv 0 (freshDep cfg22 []) sampleInitEnv_ok rfl rfl
      (by decide) (by decide)
  obtain ⟨_, hl, _, ht⟩ :=
    (end_of_ring_invariant cfg22 sampleInitEnv (freshDep cfg22 []) sampleInitEnv_ok
      (by decide) (by decide) (by decide) (by decide)).2.1 d1
      (do_conf_init_reachable _ _ _ _ _ h1)
  exact ⟨d1, h1, hl, ht⟩

/-! ### The size of a vector of more than `IOVEC_NR` entries -/

/-- C14 fails for a list of more than `IOVEC_NR` fragments. On the list of 17
fragments of 30, fifteen times 1 and 2000 bytes (2045 bytes in all) with
`IOVEC_NR = 16`, `de_next_iov` moves the offset to 128 but the local array it
leaves holds the first 16 fragments of the list again, so the fragment used
after the sixteenth is the first one (30 bytes) and not the seventeenth (2000
bytes); `de_calc_iov_size` terminates and returns 75. -/
theorem long_vector_size_is_not_the_sum :
    longRecvVec.length = 17 ∧ sum_sizes longRecvVec = 2045 ∧
    longRecvVec[0]? = some ⟨30, 30⟩ ∧ longRecvVec[16]? = some ⟨32, 2000⟩ ∧
    (∃ v, de_next_iov cfg22 longUser
        { iod_iovec := longRecvVec.take 16, iod_iovec_s := 17, iod_proc_nr := 7,
          iod_grant := 3, iod_iovec_offset := 0 } =
        some { iod_iovec := v, iod_iovec_s := 1, iod_proc_nr := 7, iod_grant := 3,
               iod_iovec_offset := 128 } ∧
      v[0]? = some ⟨30, 30⟩) ∧
    ∃ iovp, de_calc_iov_size cfg22 longUser
        { iod_iovec := longRecvVec.take 16, iod_iovec_s := 17, iod_proc_nr := 7,
          iod_grant := 3, iod_iovec_offset := 0 } = .ok (75, iovp) := by
  refine ⟨by decide, by decide, by decide, by decide, ⟨longRecvVec.take 16, by decide, by decide⟩,
    ⟨{ iod_iovec := longRecvVec.take 16, iod_iovec_s := 1, iod_proc_nr := 7,
       iod_grant := 3, iod_iovec_offset := 128 }, by decide⟩⟩

/-! ### The last word of the serial ROM -/

/-- The SROM loop leaves the bytes from index `2 * (i + n)` on as they were. -/
theorem srom_loop_rest (rom : Nat → Nat → Nat) :
    ∀ (n i : Nat) (srom s : List Nat), srom_loop rom n i srom = .ok s →
      ∀ k, 2 * (i + n) ≤ k → s[k]? = srom[k]? := by
  intro n
  induction n with
  | zero =>
    intro i srom s h k _
    simp only [srom_loop, Except.ok.injEq] at h
    rw [h]
  | succ n ih =>
    intro i srom s h k hk
    simp only [srom_loop] at h
    split at h
    · rw [ih (i + 1) _ s h k (by omega), List.getElem?_set, List.getElem?_set]
      rw [if_neg (by omega), if_neg (by omega)]
    · cases h

/-- C15 fails at the last word address, 63. On a serial ROM whose data-out
line is always high (every word reads 0xFFFF) and a zeroed `srom` array of
128 bytes, the SROM part of `de_probe` returns with bytes 124 and 125 (word
62) equal to 0xFF and with bytes 126 and 127 (word 63) still zero: the loop
runs for the addresses below `(1 << SROM_BITWIDTH) - 1 = 63` only. On an
array of 126 bytes it returns as well, and there is no byte 126 at all. -/
theorem srom_last_word_not_read :
    (1 <<< SROM_BITWIDTH) - 1 = 63 ∧
    (de_read_rom (allOnesRom 63) 63 SROM_BITWIDTH).1 = 0xFFFF ∧
    ∃ d, de_probe_srom allOnesRom
        { freshDep cfg22 [] with srom := List.replicate 128 0 } = .ok d ∧
      d.srom.length = 128 ∧
      d.srom[2 * 62]? = some 0xFF ∧ d.srom[2 * 62 + 1]? = some 0xFF ∧
      d.srom[2 * 63]? = some 0 ∧ d.srom[2 * 63 + 1]? = some 0 ∧
      ∃ d2, de_probe_srom allOnesRom (freshDep cfg22 []) = .ok d2 ∧
        d2.srom[2 * 63]? = none := by
  have hlen : (List.replicate 128 0 : List Nat).length = 128 := List.length_replicate _ _
  have hsmall : ∃ d2, de_probe_srom allOnesRom (freshDep cfg22 []) = .ok d2 ∧
      d2.srom[2 * 63]? = none := by
    have h126 : (freshDep cfg22 []).srom.length = 126 := List.length_replicate _ _
    obtain ⟨s, hrun, hsl, _⟩ := de_probe_srom_spec allOnesRom (freshDep cfg22 [])
      (by rw [h126])
    refine ⟨_, hrun, ?_⟩
    show s[2 * 63]? = none
    rw [List.getElem?_eq_none (by rw [hsl, h126])]
  have hw : ∀ a, word_of_bits (fun i => do_bit (allOnesRom a i)) = 0xFFFF := by
    intro a
    show word_of_bits (fun i => do_bit CSR9_DO) = 0xFFFF
    decide
  refine ⟨by decide, by rw [de_read_rom_val, hw], ?_⟩
  obtain ⟨s, hrun, hsl, hsw, _⟩ :=
    srom_loop_spec allOnesRom 63 0 (List.replicate 128 0) (by rw [hlen]; decide)
  have hrest := srom_loop_rest allOnesRom 63 0 (List.replicate 128 0) s hrun
  have h63 : (1 <<< SROM_BITWIDTH) - 1 = 63 := by decide
  have hl : DE_SROM_EA_OFFSET + 6 ≤ s.length := by
    rw [hsl, hlen]; decide
  have hz : ∀ k, k < 128 → (List.replicate 128 0 : List Nat)[k]? = some 0 := by
    intro k hk
    rw [List.getElem?_replicate]
    simp [hk]
  have h62 := hsw 62 (by omega) (by omega)
  rw [rom_word, de_read_rom_val, hw] at h62
  refine ⟨{ freshDep cfg22 [] with
            srom := s
            de_address := (List.range 6).map (fun i => s.getD (i + DE_SROM_EA_OFFSET) 0) },
    ?_, ?_, ?_, ?_, ?_, ?_⟩
  · simp only [de_probe_srom, h63, hrun, hl, if_true]
  · show s.length = 128
    rw [hsl, hlen]
  · exact h62.1
  · exact h62.2
  · show s[2 * 63]? = some 0
    rw [hrest _ (by omega), hz _ (by omega)]
  · refine ⟨?_, hsmall⟩
    show s[2 * 63 + 1]? = some 0
    rw [hrest _ (by omega), hz _ (by omega)]

end Dec21140A
